import Mathlib

/-!
# go-any-proxy: rule engine (config.go) and conntrack lookup (dnsproxy.go)

A shallow embedding of the proxy-selection rule engine, of the loading of the
rule file, of the connection-tracking lookup and of the DNS relay, together
with the properties the specification states about them.

Go strings are modelled by `String` (sequences of runes); the functions of the
Go standard library that the code calls are either written out on character
lists (package `strings`, `bufio.ScanWords`) or, for `unicode`, `regexp` and
`net`, collected in the record `Lib`, so that the general theorems hold for
every behaviour of those packages.  `goLib` is one concrete instance used to
evaluate the code on explicit inputs, `goLib6` a second one with IPv6
addresses.

The loop of `bufio.Scanner.Scan` is written out (`scanLoop`) over the reads of
the reader; `yaml.Unmarshal` is a parameter of `unmarshalProxyRules`, and
`sampleYaml` is an instance for one-line documents.  The DNS handler runs in a
`DnsWorld` that answers its calls to the outside and records them as events.
-/

namespace AnyProxy

set_option maxRecDepth 100000

/-! ## Package `strings` -/

/-- Go `strings.HasPrefix` on rune lists. -/
def hasPrefix : List Char → List Char → Bool
  | _, [] => true
  | [], _ :: _ => false
  | c :: s, d :: p => c == d && hasPrefix s p

/-- Go `strings.Contains(s, substr)`: some suffix of `s` starts with `substr`. -/
def containsAt : List Char → List Char → Bool
  | [], sub => hasPrefix [] sub
  | c :: s, sub => hasPrefix (c :: s) sub || containsAt s sub

/-- Go `strings.Contains`. -/
def Contains (s substr : String) : Bool := containsAt s.data substr.data

/-- Go `strings.IndexFunc(s, f)`: the byte offset of the first rune satisfying
`f`, or `-1`; `off` is the byte offset of the head of the list. -/
def indexFuncFrom (f : Char → Bool) : List Char → Nat → Int
  | [], _ => -1
  | c :: s, off => if f c then (off : Int) else indexFuncFrom f s (off + c.utf8Size)

/-- Go `strings.IndexFunc`. -/
def IndexFunc (s : String) (f : Char → Bool) : Int := indexFuncFrom f s.data 0

/-- Go `strings.HasSuffix`. -/
def HasSuffix (s suffix : String) : Bool := hasPrefix s.data.reverse suffix.data.reverse

/-- Go `strings.TrimSuffix`: `s` without the trailing `suffix`, or `s` itself. -/
def TrimSuffix (s suffix : String) : String :=
  if HasSuffix s suffix then ⟨s.data.take (s.data.length - suffix.data.length)⟩ else s

/-- Scan of `strings.Replace(s, old, new, -1)` for a non-empty `old`: `skip` is
the number of runes of an occurrence of `old` still to be dropped. -/
def replaceScan (old new : List Char) : Nat → List Char → List Char
  | _, [] => []
  | skip + 1, _ :: s => replaceScan old new skip s
  | 0, c :: s =>
    if hasPrefix (c :: s) old then new ++ replaceScan old new (old.length - 1) s
    else c :: replaceScan old new 0 s

/-- Go `strings.Replace(s, old, new, -1)`: every non-overlapping occurrence of
`old`, left to right; an empty `old` matches before every rune and at the end. -/
def Replace (s old new : String) : String :=
  if old.data = [] then ⟨new.data ++ s.data.foldr (fun c r => c :: (new.data ++ r)) []⟩
  else ⟨replaceScan old.data new.data 0 s.data⟩

/-! ## Library and collaborator interface -/

/-- Go `net.IP`: a byte slice; `nil` is the empty list. -/
abbrev NetIP := List Nat

/-- The functions of `unicode`, `regexp` and `net` called by config.go, and the
reassignable hostname-resolution collaborator `findHostName`.  A compiled
regular expression is represented by its `MatchString`, a parsed network by
its `Contains`; `none` is a non-nil error. -/
structure Lib where
  /-- Go `unicode.IsLetter` -/
  IsLetter : Char → Bool
  /-- Go `regexp.Compile` followed by `(*Regexp).MatchString` -/
  Compile : String → Option (String → Bool)
  /-- Go `net.ParseCIDR` followed by `(*IPNet).Contains` -/
  ParseCIDR : String → Option (NetIP → Bool)
  /-- Go `net.ParseIP` -/
  ParseIP : String → NetIP
  /-- Go `net.IP.String` -/
  IPString : NetIP → String
  /-- Go `net.IP.Equal` -/
  IPEqual : NetIP → NetIP → Bool
  /-- The variable `findHostName` (initially `GetHostName`) -/
  findHostName : String → String

/-! ## config.go -/

/-- One rule group of the rule file. -/
structure ProxyRule where
  Proxy : String
  Rules : List String
  deriving DecidableEq, Repr

/-- The loaded configuration. -/
structure proxyConfig where
  proxyRules : List ProxyRule
  deriving DecidableEq, Repr

/-- The two `panic` calls of config.go, with the rule they report. -/
inductive Panic where
  /-- `panic(fmt.Sprintf("Unnable to parse pattern %v", rule))` -/
  | pattern (rule : String)
  /-- `panic(fmt.Sprintf("Unable to parse CIDR string : %s : %s\n", rule, err))` -/
  | cidr (rule : String)
  deriving DecidableEq, Repr

deriving instance DecidableEq for Except

/-- `isDomain`: `strings.IndexFunc(rule, unicode.IsLetter) != -1`. -/
def isDomain (L : Lib) (rule : String) : Bool :=
  IndexFunc rule (fun r => L.IsLetter r) != -1

/-- `isCIDR`: `strings.Contains(rule, "/")`. -/
def isCIDR (rule : String) : Bool := Contains rule "/"

/-- The regular-expression source built from a domain rule (config.go lines
99-100 and 141-142): `.` is escaped, then `*` becomes `.*`. -/
def domainPattern (rule : String) : String :=
  let pattern := Replace rule "." "\\."
  Replace pattern "*" ".*"

/-- Go builtin `copy(dst, src)`: the new contents of `dst`; `src` is only read. -/
def copy (dst src : List String) : List String :=
  src.take dst.length ++ dst.drop src.length

/-- `insert`: a fresh slice of length `1 + len(list)` holding `str` followed by
a copy of `list`. -/
def insert (str : String) (list : List String) : List String :=
  let newList := List.replicate (1 + list.length) ""
  let newList := newList.set 0 str
  newList.take 1 ++ copy (newList.drop 1) list

/-- Calls made out of `ResolveProxy`, in order. -/
inductive Event where
  /-- a call `findHostName(ipv4)` -/
  | lookup (ipv4 : String)
  /-- a call `re.MatchString(hostname)` for the expression of `rule` -/
  | matchString (rule hostname : String)
  deriving DecidableEq, Repr

/-- The mutable data of one `ResolveProxy` call. -/
structure ResolveState where
  /-- the local `hostname *string`; `none` is `nil` -/
  hostname : Option String
  /-- the contents of the caller's slice `defaultProxyList` -/
  defaultProxyList : List String
  /-- the calls made so far, oldest first -/
  trace : List Event
  deriving DecidableEq, Repr

/-- What the body of the inner loop does: `error` is a panic, `ok (some chain)`
is `return chain`, `ok none` falls through to the next rule. -/
abbrev Flow := Except Panic (Option (List String))

/-- The domain branch of `ResolveProxy` (lines 141-158). -/
def resolveDomain (L : Lib) (ipv4 : String) (proxy rule : String) (st : ResolveState) :
    Flow × ResolveState :=
  match L.Compile (domainPattern rule) with
  | none => (.error (.pattern rule), st)
  | some re =>
    let st1 : ResolveState :=
      match st.hostname with
      | none => { st with hostname := some (L.findHostName ipv4), trace := st.trace ++ [.lookup ipv4] }
      | some _ => st
    let h := st1.hostname.getD ""
    if h = "" then (.ok none, st1)
    else
      let h1 := TrimSuffix h "."
      let st2 : ResolveState :=
        { st1 with hostname := some h1, trace := st1.trace ++ [.matchString rule h1] }
      if re h1 then (.ok (some (insert proxy st2.defaultProxyList)), st2)
      else (.ok none, st2)

/-- The CIDR branch of `ResolveProxy` (lines 160-167). -/
def resolveCIDR (L : Lib) (ipv4 : String) (proxy rule : String) (st : ResolveState) :
    Flow × ResolveState :=
  match L.ParseCIDR rule with
  | none => (.error (.cidr rule), st)
  | some directorIpNet =>
    if directorIpNet (L.ParseIP ipv4) then (.ok (some (insert proxy st.defaultProxyList)), st)
    else (.ok none, st)

/-- The exact-IP branch of `ResolveProxy` (lines 169-173). -/
def resolveExact (ipv4 : String) (proxy rule : String) (st : ResolveState) :
    Flow × ResolveState :=
  if rule = ipv4 then (.ok (some (insert proxy st.defaultProxyList)), st)
  else (.ok none, st)

/-- The body of the inner loop of `ResolveProxy` for one rule. -/
def resolveRule (L : Lib) (ipv4 : String) (proxy rule : String) (st : ResolveState) :
    Flow × ResolveState :=
  if isDomain L rule then resolveDomain L ipv4 proxy rule st
  else if isCIDR rule then resolveCIDR L ipv4 proxy rule st
  else resolveExact ipv4 proxy rule st

/-- The inner loop `for _, rule := range cpr.Rules`. -/
def resolveRules (L : Lib) (ipv4 : String) (proxy : String) :
    List String → ResolveState → Flow × ResolveState
  | [], st => (.ok none, st)
  | rule :: rules, st =>
    match resolveRule L ipv4 proxy rule st with
    | (.ok none, st1) => resolveRules L ipv4 proxy rules st1
    | r => r

/-- The outer loop `for _, cpr := range config.proxyRules`, followed by
`return defaultProxyList`. -/
def resolveGroups (L : Lib) (ipv4 : String) :
    List ProxyRule → ResolveState → Except Panic (List String) × ResolveState
  | [], st => (.ok st.defaultProxyList, st)
  | cpr :: groups, st =>
    if cpr.Proxy ≠ "" then
      match resolveRules L ipv4 cpr.Proxy cpr.Rules st with
      | (.ok none, st1) => resolveGroups L ipv4 groups st1
      | (.ok (some chain), st1) => (.ok chain, st1)
      | (.error p, st1) => (.error p, st1)
    else resolveGroups L ipv4 groups st

/-- `ResolveProxy` together with the final state of the call; `port` is only
logged. -/
def ResolveProxyRun (L : Lib) (config : proxyConfig) (ipv4 : String) (port : Nat)
    (defaultProxyList : List String) : Except Panic (List String) × ResolveState :=
  let _ := port
  resolveGroups L ipv4 config.proxyRules
    { hostname := none, defaultProxyList := defaultProxyList, trace := [] }

/-- `(config *proxyConfig) ResolveProxy`: the returned chain, or the panic. -/
def ResolveProxy (L : Lib) (config : proxyConfig) (ipv4 : String) (port : Nat)
    (defaultProxyList : List String) : Except Panic (List String) :=
  (ResolveProxyRun L config ipv4 port defaultProxyList).1

/-- Go `type directorFunc func(*net.IP) bool`; a call may panic. -/
abbrev directorFunc := NetIP → Except Panic Bool

/-- The domain branch of `ruleAsDirectorFunc` (lines 99-113): the pattern is
compiled when the predicate is built, the hostname is looked up at each call. -/
def directorDomain (L : Lib) (rule : String) : Except Panic directorFunc :=
  match L.Compile (domainPattern rule) with
  | none => .error (.pattern rule)
  | some re =>
    .ok (fun ptestip =>
      let testIp := L.IPString ptestip
      let hostname := L.findHostName testIp
      if hostname = "" then .ok false
      else
        let hostname := TrimSuffix hostname "."
        .ok (re hostname))

/-- The CIDR branch of `ruleAsDirectorFunc` (lines 115-122). -/
def directorCIDR (L : Lib) (rule : String) : Except Panic directorFunc :=
  match L.ParseCIDR rule with
  | none => .error (.cidr rule)
  | some directorIpNet => .ok (fun ptestip => .ok (directorIpNet ptestip))

/-- The exact-IP branch of `ruleAsDirectorFunc` (lines 124-130). -/
def directorExact (L : Lib) (rule : String) : Except Panic directorFunc :=
  let directorIp := L.ParseIP rule
  .ok (fun ptestip => .ok (L.IPEqual ptestip directorIp))

/-- `ruleAsDirectorFunc`: the predicate of a rule of a direct group. -/
def ruleAsDirectorFunc (L : Lib) (rule : String) : Except Panic directorFunc :=
  if isDomain L rule then directorDomain L rule
  else if isCIDR rule then directorCIDR L rule
  else directorExact L rule

/-- The inner loop of `DirectorFunc`: appends one predicate per rule. -/
def appendDirectors (L : Lib) :
    List String → List directorFunc → Except Panic (List directorFunc)
  | [], directorFuncs => .ok directorFuncs
  | rule :: rules, directorFuncs =>
    match ruleAsDirectorFunc L rule with
    | .error p => .error p
    | .ok f => appendDirectors L rules (directorFuncs ++ [f])

/-- The outer loop of `DirectorFunc` (lines 69-75). -/
def collectDirectors (L : Lib) :
    List ProxyRule → List directorFunc → Except Panic (List directorFunc)
  | [], directorFuncs => .ok directorFuncs
  | cpr :: groups, directorFuncs =>
    if cpr.Proxy = "" then
      match appendDirectors L cpr.Rules directorFuncs with
      | .error p => .error p
      | .ok fs => collectDirectors L groups fs
    else collectDirectors L groups directorFuncs

/-- The loop `for _, f := range directorFuncs` of `proxyDirector`. -/
def anyDirector : List directorFunc → NetIP → Except Panic Bool
  | [], _ => .ok false
  | f :: fs, ptestip =>
    match f ptestip with
    | .error p => .error p
    | .ok true => .ok true
    | .ok false => anyDirector fs ptestip

/-- The closure `proxyDirector` of `DirectorFunc` (lines 79-90). -/
def proxyDirector (L : Lib) (config : proxyConfig) (directorFuncs : List directorFunc) :
    directorFunc := fun ptestip =>
  match ResolveProxy L config (L.IPString ptestip) 0 [] with
  | .error p => .error p
  | .ok chain =>
    if chain.length > 0 then .ok false
    else anyDirector directorFuncs ptestip

/-- `(config *proxyConfig) DirectorFunc`. -/
def DirectorFunc (L : Lib) (config : proxyConfig) (onlyNoProxy : Bool) :
    Except Panic (List directorFunc) :=
  match collectDirectors L config.proxyRules [] with
  | .error p => .error p
  | .ok directorFuncs =>
    if onlyNoProxy then .ok directorFuncs
    else .ok [proxyDirector L config directorFuncs]

/-! ## A concrete library instance

`goLib` fixes one behaviour of the library functions, for evaluating the code
on explicit inputs.  It follows the Go packages on ASCII text, on regular
expressions built from ordinary characters, `\.`, `.` and `*`, and on dotted
IPv4 addresses; other regular-expression operators and IPv6 text are outside
this instance and are reported as errors. -/

/-- An atom of a regular expression: a literal rune, or `.` (any rune but a
newline). -/
inductive ReAtom where
  | lit (c : Char)
  | anyChar
  deriving DecidableEq, Repr

/-- An atom with or without a following `*`. -/
structure ReItem where
  atom : ReAtom
  star : Bool
  deriving DecidableEq, Repr

/-- The runes with a meaning of their own in Go regular-expression syntax,
apart from `.`, `*` and the backslash. -/
def reOperator (c : Char) : Bool :=
  c == '+' || c == '?' || c == '(' || c == ')' || c == '[' || c == ']' ||
  c == '{' || c == '}' || c == '|' || c == '^' || c == '$'

/-- The atom still waiting for a possible `*`, as an item list. -/
def flushAtom : Option ReAtom → List ReItem
  | none => []
  | some a => [⟨a, false⟩]

/-- Parser of the modelled fragment.  `pending` is the last atom read, `esc`
tells that the previous rune was a backslash.  A `*` with nothing to repeat,
a trailing backslash, an escape other than `\.` and an operator rune give
`none`. -/
def reParse : Option ReAtom → Bool → List Char → Option (List ReItem)
  | pending, esc, [] => if esc then none else some (flushAtom pending)
  | pending, true, c :: s =>
    if c = '.' then (reParse (some (.lit '.')) false s).map (flushAtom pending ++ ·)
    else none
  | pending, false, c :: s =>
    if c = '*' then
      match pending with
      | none => none
      | some a => (reParse none false s).map (⟨a, true⟩ :: ·)
    else if c = Char.ofNat 92 then (reParse none true s).map (flushAtom pending ++ ·)
    else if reOperator c then none
    else if c = '.' then (reParse (some .anyChar) false s).map (flushAtom pending ++ ·)
    else (reParse (some (.lit c)) false s).map (flushAtom pending ++ ·)

/-- Whether a rune is accepted by an atom. -/
def atomOk : ReAtom → Char → Bool
  | .lit c, d => c == d
  | .anyChar, d => d != '\n'

/-- Matching of `a*` followed by the continuation `k`. -/
def matchStar (a : ReAtom) (k : List Char → Bool) : List Char → Bool
  | [] => k []
  | c :: s => k (c :: s) || (atomOk a c && matchStar a k s)

/-- Whether some prefix of the text matches the items in sequence. -/
def matchHere : List ReItem → List Char → Bool
  | [] => fun _ => true
  | ⟨a, true⟩ :: items => matchStar a (matchHere items)
  | ⟨a, false⟩ :: items => fun s =>
    match s with
    | [] => false
    | c :: t => atomOk a c && matchHere items t

/-- Unanchored search: the items match at some position of the text. -/
def reSearch (items : List ReItem) : List Char → Bool
  | [] => matchHere items []
  | c :: s => matchHere items (c :: s) || reSearch items s

/-- `regexp.Compile` and `MatchString` on the modelled fragment. -/
def goCompile (pattern : String) : Option (String → Bool) :=
  (reParse none false pattern.data).map (fun items s => reSearch items s.data)

/-- Value of a string of decimal digits; `none` if it is empty or has another
rune. -/
def parseDecimal (ds : List Char) : Option Nat :=
  if ds = [] then none
  else ds.foldl (fun acc c => acc.bind (fun n => if c.isDigit then some (10 * n + (c.toNat - 48)) else none)) (some 0)

/-- Split of a rune list at every occurrence of `sep`. -/
def splitOn (sep : Char) : List Char → List (List Char)
  | [] => [[]]
  | c :: s =>
    if c = sep then [] :: splitOn sep s
    else match splitOn sep s with
      | [] => [[c]]
      | f :: fs => (c :: f) :: fs

/-- One field of a dotted IPv4 address: one to three digits, no leading zero
(as Go 1.17 and later require), at most 255. -/
def parseOctet (ds : List Char) : Option Nat :=
  if ds.length > 3 then none
  else if ds.length > 1 ∧ ds.head? = some '0' then none
  else (parseDecimal ds).bind (fun n => if n ≤ 255 then some n else none)

/-- A dotted IPv4 address as its four bytes. -/
def parseIPv4 (s : List Char) : Option NetIP :=
  match splitOn '.' s with
  | [a, b, c, d] =>
    (parseOctet a).bind fun a => (parseOctet b).bind fun b =>
    (parseOctet c).bind fun c => (parseOctet d).bind fun d => some [a, b, c, d]
  | _ => none

/-- The 32-bit value of a four-byte address. -/
def ipValue (ip : NetIP) : Nat := ip.foldl (fun acc b => 256 * acc + b) 0

/-- The text before and after the first occurrence of `sep`, if there is one. -/
def cutAt (sep : Char) : List Char → Option (List Char × List Char)
  | [] => none
  | c :: s =>
    if c = sep then some ([], s)
    else (cutAt sep s).map (fun p => (c :: p.1, p.2))

/-- `net.ParseCIDR` and `Contains` for IPv4: `address/bits` with at most 32
bits; membership compares the leading `bits` bits. -/
def goParseCIDR (s : String) : Option (NetIP → Bool) :=
  (cutAt '/' s.data).bind fun am =>
  (parseIPv4 am.1).bind fun ip =>
  (parseDecimal am.2).bind fun n =>
    if n ≤ 32 then
      some (fun x => x.length == 4 && ipValue x / 2 ^ (32 - n) == ipValue ip / 2 ^ (32 - n))
    else none

/-- `net.ParseIP` for IPv4; `nil` when the text is not an address. -/
def goParseIP (s : String) : NetIP := (parseIPv4 s.data).getD []

/-- `net.IP.String` for a four-byte address; `"<nil>"` for `nil`; slices of
another length are outside this instance. -/
def goIPString (ip : NetIP) : String :=
  match ip with
  | [] => "<nil>"
  | [a, b, c, d] => toString a ++ "." ++ toString b ++ "." ++ toString c ++ "." ++ toString d
  | _ => "?"

/-- The concrete instance over the hostname resolver `resolver`. -/
def goLib (resolver : String → String) : Lib where
  IsLetter := Char.isAlpha
  Compile := goCompile
  ParseCIDR := goParseCIDR
  ParseIP := goParseIP
  IPString := goIPString
  IPEqual := fun a b => a == b
  findHostName := resolver

/-- The hostname cache of the specification scenario: `93.1.1.1` resolves to
`www.example.com`, nothing else is known. -/
def scenarioResolver (ip : String) : String :=
  if ip = "93.1.1.1" then "www.example.com" else ""

/-- The rule file of the specification scenario. -/
def scenarioConfig : proxyConfig :=
  ⟨[⟨"", ["10.0.0.0/8"]⟩, ⟨"proxy1:1080", ["*.example.com"]⟩]⟩

/-! ## dnsproxy.go: connection-tracking lookup -/

/-- Go `bufio.isSpace`: the runes that separate words for `bufio.ScanWords`. -/
def isSpace (r : Char) : Bool :=
  if r.toNat ≤ 0xFF then
    r == ' ' || r == '\t' || r == '\n' || r.toNat == 0x0B || r.toNat == 0x0C || r == '\r' ||
    r.toNat == 0x85 || r.toNat == 0xA0
  else if 0x2000 ≤ r.toNat ∧ r.toNat ≤ 0x200A then true
  else
    r.toNat == 0x1680 || r.toNat == 0x2028 || r.toNat == 0x2029 || r.toNat == 0x202F ||
    r.toNat == 0x205F || r.toNat == 0x3000

/-- The tokens of a `bufio.Scanner` with `bufio.ScanWords`: the maximal runs of
non-space runes; `word` is the run being read.  (A scanner gives up on a token
longer than 64 KiB; lines of that size are outside this model.) -/
def scanWords : List Char → List Char → List String
  | [], word => if word = [] then [] else [⟨word⟩]
  | c :: s, word =>
    if isSpace c then
      if word = [] then scanWords s [] else ⟨word⟩ :: scanWords s []
    else scanWords s (word ++ [c])

/-- `type udpTrack struct`. -/
structure udpTrack where
  l_src : String
  l_dst : String
  r_src : String
  r_dst : String
  proxyPort : String
  deriving DecidableEq, Repr

/-- The local variables of `parseConnTrackLine`. -/
structure trackScan where
  srcSet : Bool
  sportSet : Bool
  dstSet : Bool
  dportSet : Bool
  track : udpTrack
  deriving DecidableEq, Repr

/-- The `switch` of `parseConnTrackLine` (lines 272-295) on one `left=right`
token; the cases are tried top to bottom. -/
def trackSwitch (left right : String) (v : trackScan) : trackScan :=
  let track := v.track
  if left = "src" ∧ ¬ v.srcSet then
    { v with srcSet := true, track := { track with l_src := right } }
  else if left = "src" then
    { v with srcSet := true, track := { track with r_src := right } }
  else if left = "sport" ∧ ¬ v.sportSet then
    { v with sportSet := true, track := { track with l_src := track.l_src ++ ":" ++ right } }
  else if left = "sport" then
    { v with track := { track with r_src := track.r_src ++ ":" ++ right, proxyPort := right } }
  else if left = "dst" ∧ ¬ v.dstSet then
    { v with dstSet := true, track := { track with l_dst := right } }
  else if left = "dport" ∧ ¬ v.dportSet then
    { v with dportSet := true, track := { track with l_dst := track.l_dst ++ ":" ++ right } }
  else if left = "dst" ∧ v.dstSet then
    { v with track := { track with r_dst := right } }
  else if left = "dport" ∧ v.dportSet then
    { v with track := { track with r_dst := track.r_dst ++ ":" ++ right } }
  else v

/-- The body of the scanning loop of `parseConnTrackLine` for one word:
`idx := strings.IndexByte(txt, '=')`, and the switch when `idx > 0`. -/
def trackWord (v : trackScan) (txt : String) : trackScan :=
  match cutAt '=' txt.data with
  | none => v
  | some (left, right) =>
    if left = [] then v else trackSwitch ⟨left⟩ ⟨right⟩ v

/-- `parseConnTrackLine`; `none` is the `nil` record. -/
def parseConnTrackLine (line : String) : Option udpTrack :=
  if !Contains line " udp " then none
  else
    let start : trackScan := ⟨false, false, false, false, ⟨"", "", "", "", ""⟩⟩
    some ((scanWords line.data []).foldl trackWord start).track

/-- `(track *udpTrack) matches`. -/
def udpTrack.matches (track another : udpTrack) : Bool :=
  track.r_dst == another.r_dst && track.proxyPort == another.proxyPort

/-- The errors of the lookup. -/
inductive LookupError where
  /-- `os.Open` failed -/
  | cannotOpen
  /-- `ReadString` failed with an error other than `io.EOF` -/
  | readFailed
  /-- `errors.New("no original dst found from nf_conntrack")` -/
  | notFound
  deriving DecidableEq, Repr

/-- What reading `/proc/self/net/nf_conntrack` with `ReadString` yields: the
lines that end in a newline, then the result of the last call, which is the
rest of the file with `io.EOF` (`some rest`) or another error (`none`). -/
structure ConntrackReads where
  lines : List String
  last : Option String
  deriving DecidableEq, Repr

/-- The successive results of `ReadString` on a file with the given contents
that is read to its end: every line with its newline, then what follows the
last newline. -/
def readStrings : List Char → List String × String
  | [] => ([], "")
  | c :: s =>
    let r := readStrings s
    if c = '\n' then ("\n" :: r.1, r.2)
    else match r.1 with
      | [] => ([], ⟨c :: r.2.data⟩)
      | l :: ls => (⟨c :: l.data⟩ :: ls, r.2)

/-- A table with the given contents that is read without error. -/
def tableOf (contents : String) : ConntrackReads :=
  ⟨(readStrings contents.data).1, some (readStrings contents.data).2⟩

/-- The loop of `getMatchedOriginalUdpDst` (lines 227-251); the result is the
updated `ut`. -/
def scanTable (ut : udpTrack) : List String → Option String → Except LookupError udpTrack
  | [], none => .error .readFailed
  | [], some line =>
    match parseConnTrackLine line with
    | some track =>
      if track.matches ut then .ok { ut with l_dst := track.l_dst }
      else .error .notFound
    | none => .error .notFound
  | line :: rest, last =>
    match parseConnTrackLine line with
    | some track =>
      if track.matches ut then .ok { ut with l_dst := track.l_dst }
      else scanTable ut rest last
    | none => scanTable ut rest last

/-- `getMatchedOriginalUdpDst`; `file` is `none` when `os.Open` fails. -/
def getMatchedOriginalUdpDst (file : Option ConntrackReads) (ut : udpTrack) :
    Except LookupError udpTrack :=
  match file with
  | none => .error .cannotOpen
  | some f => scanTable ut f.lines f.last

/-- `getOriginalUdpDst`: `remoteAddr` is `w.RemoteAddr().String()` and
`localPort` the port of `w.LocalAddr()`. -/
def getOriginalUdpDst (file : Option ConntrackReads) (remoteAddr : String) (localPort : Nat) :
    Except LookupError String :=
  let track : udpTrack :=
    { l_src := "", l_dst := "", r_src := "", r_dst := remoteAddr, proxyPort := toString localPort }
  match getMatchedOriginalUdpDst file track with
  | .error err => .error err
  | .ok track => .ok track.l_dst

/-- A conntrack row of a redirected DNS query. -/
def sampleRow : String :=
  "ipv4     2 udp      17 28 src=192.168.1.2 dst=8.8.8.8 sport=40000 dport=53 src=192.168.1.1 dst=192.168.1.2 sport=3129 dport=40000 [ASSURED] mark=0 zone=0 use=2\n"

/-- A conntrack row of a TCP flow. -/
def sampleTcpRow : String :=
  "ipv4     2 tcp      6 431999 ESTABLISHED src=192.168.1.2 dst=1.1.1.1 sport=50000 dport=443 src=1.1.1.1 dst=192.168.1.2 sport=443 dport=50000 [ASSURED] mark=0 zone=0 use=2\n"

/-! ## Specification-side definitions -/

/-- Specification §3, pattern kinds. -/
inductive PatternKind where
  | Domain
  | CIDR
  | ExactIP
  deriving DecidableEq, Repr

/-- Specification §3: the kind of a pattern, in strict precedence order: Domain
when it contains a letter, else CIDR when it contains `/`, else Exact IP. -/
def specKind (L : Lib) (rule : String) : PatternKind :=
  if ∃ c ∈ rule.data, L.IsLetter c = true then .Domain
  else if '/' ∈ rule.data then .CIDR
  else .ExactIP

/-- Specification §4.2: whether a pattern matches a destination.  A domain
pattern matches when the destination has a non-empty hostname and the compiled
pattern matches that hostname with its trailing `.` stripped; a CIDR pattern
when the network contains the address; an exact-IP pattern when the two strings
are equal.  A pattern that does not compile or parse matches nothing. -/
def specMatches (L : Lib) (rule ipv4 : String) : Bool :=
  match specKind L rule with
  | .Domain =>
    match L.Compile (domainPattern rule) with
    | none => false
    | some re => L.findHostName ipv4 != "" && re (TrimSuffix (L.findHostName ipv4) ".")
  | .CIDR =>
    match L.ParseCIDR rule with
    | none => false
    | some net => net (L.ParseIP ipv4)
  | .ExactIP => rule == ipv4

/-- Specification §7: a domain pattern that does not compile, or a CIDR pattern
that does not parse, with the panic its first use raises. -/
def specUnparsable (L : Lib) (rule : String) : Option Panic :=
  match specKind L rule with
  | .Domain => if (L.Compile (domainPattern rule)).isNone then some (.pattern rule) else none
  | .CIDR => if (L.ParseCIDR rule).isNone then some (.cidr rule) else none
  | .ExactIP => none

/-- Specification §3: the patterns of the groups with a proxy, each with the
proxy of its group, in file order. -/
def proxiedRules : List ProxyRule → List (String × String)
  | [] => []
  | g :: gs =>
    if g.Proxy = "" then proxiedRules gs
    else g.Rules.map (fun rule => (g.Proxy, rule)) ++ proxiedRules gs

/-- Specification §3: the patterns of the direct groups (`proxy == ""`), in
file order. -/
def directRules : List ProxyRule → List String
  | [] => []
  | g :: gs => if g.Proxy = "" then g.Rules ++ directRules gs else directRules gs

/-- Specification §4.2: the first pattern, in file order, that matches or
cannot be parsed decides; none does, the fallback chain is returned. -/
def specResolve (L : Lib) (ipv4 : String) (fallback : List String) :
    List (String × String) → Except Panic (List String)
  | [] => .ok fallback
  | (proxy, rule) :: rest =>
    match specUnparsable L rule with
    | some p => .error p
    | none =>
      if specMatches L rule ipv4 then .ok (proxy :: fallback)
      else specResolve L ipv4 fallback rest

/-- A hostname whose trailing `.` can be stripped once for all: it is empty,
or what is left after stripping is non-empty and is not stripped further. -/
def singleDot (h : String) : Prop :=
  (TrimSuffix h "." = "" → h = "") ∧ TrimSuffix (TrimSuffix h ".") "." = TrimSuffix h "."

instance (h : String) : Decidable (singleDot h) := by
  unfold singleDot; infer_instance

/-- The memo `hostname` of a running `ResolveProxy` call for a destination whose
hostname is `singleDot`: not yet resolved, or resolved and stripped. -/
def HostInv (L : Lib) (ipv4 : String) (fallback : List String) (st : ResolveState) : Prop :=
  st.defaultProxyList = fallback ∧
  (st.hostname = none ∨
    (L.findHostName ipv4 = "" ∧ st.hostname = some "") ∨
    (L.findHostName ipv4 ≠ "" ∧ st.hostname = some (TrimSuffix (L.findHostName ipv4) ".")))

/-- What one pattern contributes according to the specification. -/
def specFlow (L : Lib) (ipv4 : String) (fallback : List String) (proxy rule : String) : Flow :=
  match specUnparsable L rule with
  | some p => .error p
  | none => if specMatches L rule ipv4 then .ok (some (proxy :: fallback)) else .ok none

/-! ## Rule files used in the examples -/

/-- A rule file whose only proxied pattern is a CIDR with too long a prefix. -/
def brokenConfig : proxyConfig := ⟨[⟨"proxy1:1080", ["10.0.0.0/99"]⟩]⟩

/-- A rule file with an unparsable CIDR pattern ahead of an exact-IP pattern. -/
def brokenFirstConfig : proxyConfig :=
  ⟨[⟨"proxyA:1080", ["10.0.0.0/99"]⟩, ⟨"proxyB:1080", ["10.0.0.5"]⟩]⟩

/-- A rule file with a subnet, a domain and an address pattern in two groups. -/
def mixedConfig : proxyConfig :=
  ⟨[⟨"", ["10.0.0.0/8"]⟩, ⟨"proxyA:1080", ["192.168.0.0/16", "*.example.com"]⟩,
    ⟨"proxyB:1080", ["93.1.1.1"]⟩]⟩

def overlapConfig : proxyConfig :=
  ⟨[⟨"", ["10.0.0.5"]⟩, ⟨"proxyA:1080", ["192.168.0.0/16", "10.0.0.0/8"]⟩,
    ⟨"proxyB:1080", ["10.0.0.5"]⟩]⟩

/-! ## Domain patterns as wildcards -/

/-- Specification §3, domain patterns read as wildcards: whether the whole
text fits the pattern, every rune of the pattern standing for itself and `*`
for any, possibly empty, run of runes other than a newline. -/
def globFits : List Char → List Char → Bool
  | [], s => s.isEmpty
  | g :: gs, s =>
    if g = '*' then
      (List.range (s.length + 1)).any
        (fun k => (s.take k).all (fun c => c != '\n') && globFits gs (s.drop k))
    else
      match s with
      | [] => false
      | c :: t => c == g && globFits gs t

/-- The regular-expression source of one rune of a domain rule. -/
def translateRune (c : Char) : List Char :=
  if c = '.' then [Char.ofNat 92, '.'] else if c = '*' then ['.', '*'] else [c]

/-- The regular-expression source of a domain rule, rune by rune. -/
def translateRule : List Char → List Char
  | [] => []
  | c :: s => translateRune c ++ translateRule s

/-- The parsed form of a domain rule: a literal per rune, `.*` per `*`. -/
def ruleItems : List Char → List ReItem
  | [] => []
  | c :: s => (if c = '*' then ⟨.anyChar, true⟩ else ⟨.lit c, false⟩) :: ruleItems s

/-- A rune with no meaning of its own in a regular expression, apart from `.`
and `*`: not an operator and not the backslash. -/
def plainRune (c : Char) : Bool := !reOperator c && c != Char.ofNat 92

/-- A hostname cache in which `6.6.6.6` resolves to a name that merely
contains `example.com`. -/
def foreignResolver (ip : String) : String :=
  if ip = "6.6.6.6" then "notexample.com.evil.org" else ""

/-! ## Direct predicates -/

/-- Specification §4.2, `onlyNoProxy = true`: one predicate per pattern, built
in order; building stops at the first pattern that cannot be parsed. -/
def specDirectors (L : Lib) : List String → Except Panic (List directorFunc)
  | [] => .ok []
  | rule :: rules =>
    match ruleAsDirectorFunc L rule with
    | .error p => .error p
    | .ok f =>
      match specDirectors L rules with
      | .error p => .error p
      | .ok fs => .ok (f :: fs)

/-- The panic of an aborted call, if the call aborted. -/
def abortOf {α : Type} : Except Panic α → Option Panic
  | .error p => some p
  | .ok _ => none

/-- A rule file whose direct group holds a CIDR with too long a prefix. -/
def brokenDirectConfig : proxyConfig := ⟨[⟨"", ["10.0.0.0/99"]⟩]⟩

/-- A rule file with an unparsable direct pattern next to a proxied group. -/
def brokenDirectMixedConfig : proxyConfig :=
  ⟨[⟨"proxy1:1080", ["*.example.com"]⟩, ⟨"", ["10.0.0.0/8", "10.0.0.0/99"]⟩]⟩

/-- A rule file with two direct groups around a proxied one. -/
def directConfig : proxyConfig :=
  ⟨[⟨"", ["10.0.0.0/8", "*.lan"]⟩, ⟨"proxy1:1080", ["*.example.com", "10.1.0.0/16"]⟩,
    ⟨"", ["192.168.1.1"]⟩]⟩

/-! ## Connection-tracking table -/

/-- The four keys read by `parseConnTrackLine`. -/
def isTrackKey (left : String) : Bool :=
  left == "src" || left == "sport" || left == "dst" || left == "dport"

/-- Specification §3, connection record: the `key=value` tokens of a table
line whose key is `src`, `dst`, `sport` or `dport`, in the order of the line. -/
def trackTokens (line : String) : List (String × String) :=
  (scanWords line.data []).filterMap (fun txt =>
    match cutAt '=' txt.data with
    | none => none
    | some (left, right) =>
      if left ≠ [] ∧ isTrackKey ⟨left⟩ = true then some (⟨left⟩, ⟨right⟩) else none)

/-- Specification §4.3: the lines of a table, top to bottom; the last one is
what follows the last newline (possibly nothing). -/
def tableRows (contents : String) : List String :=
  (readStrings contents.data).1 ++ [(readStrings contents.data).2]

/-- A later row of the same client towards another resolver, without a final
newline. -/
def sampleLaterRow : String :=
  "ipv4     2 udp      17 12 src=192.168.1.2 dst=9.9.9.9 sport=40000 dport=53 src=192.168.1.1 dst=192.168.1.2 sport=3129 dport=40000 mark=0 zone=0 use=2"

/-- Specification §4.3, match rule: the line is a UDP row whose
remoteDestination equals the client address and whose proxyPort equals the
listening port. -/
def rowMatches (remoteAddr : String) (localPort : Nat) (line : String) : Bool :=
  match parseConnTrackLine line with
  | none => false
  | some track => track.r_dst == remoteAddr && track.proxyPort == toString localPort

/-- The localDestination of a UDP row (empty for another line). -/
def rowDestination (line : String) : String :=
  match parseConnTrackLine line with
  | none => ""
  | some track => track.l_dst

/-- A hostname cache in which `7.7.7.7` resolves to a name with two trailing
dots. -/
def dottedResolver (ip : String) : String :=
  if ip = "7.7.7.7" then "m.." else ""

/-! ## ResolveProxy as one run over the proxied patterns -/

/-- The two loops of `ResolveProxy` run on the patterns of the proxied groups
laid out in file order, each with the proxy of its group. -/
def resolvePairs (L : Lib) (ipv4 : String) :
    List (String × String) → ResolveState → Flow × ResolveState
  | [], st => (.ok none, st)
  | (proxy, rule) :: rest, st =>
    match resolveRule L ipv4 proxy rule st with
    | (.ok none, st1) => resolvePairs L ipv4 rest st1
    | r => r

/-- The state in which `ResolveProxy` starts. -/
def startState (defaultProxyList : List String) : ResolveState :=
  { hostname := none, defaultProxyList := defaultProxyList, trace := [] }

/-- Whether an event is a call to `findHostName`. -/
def Event.isLookup : Event → Bool
  | .lookup _ => true
  | .matchString _ _ => false

/-- The number of calls to `findHostName` in a trace. -/
def lookupCount (trace : List Event) : Nat := (trace.filter Event.isLookup).length

/-- A rule file with three domain patterns ahead of an address pattern. -/
def manyDomainsConfig : proxyConfig :=
  ⟨[⟨"proxyA:1080", ["*.lan", "*.corp"]⟩, ⟨"proxyB:1080", ["*.org", "93.1.1.1"]⟩]⟩

/-- What holds of the calls to `findHostName` recorded so far in a running
`ResolveProxy` call for `ipv4`: at most one, none while the memo is `nil`, and
each for `ipv4`. -/
def LookupInv (ipv4 : String) (st : ResolveState) : Prop :=
  lookupCount st.trace ≤ 1 ∧ (st.hostname = none → lookupCount st.trace = 0) ∧
    ∀ e ∈ st.trace, e.isLookup = true → e = .lookup ipv4

/-- Specification §4.2, empty hostname: a proxied group without its domain
patterns; a direct group is left as it is. -/
def dropDomainRules (L : Lib) (g : ProxyRule) : ProxyRule :=
  if g.Proxy = "" then g else ⟨g.Proxy, g.Rules.filter (fun rule => !isDomain L rule)⟩

/-- A hostname cache that knows no destination. -/
def emptyResolver (_ : String) : String := ""

/-- A rule file whose second pattern lies behind a matching one and cannot be
parsed. -/
def brokenAfterMatchConfig : proxyConfig :=
  ⟨[⟨"proxyA:1080", ["10.0.0.0/8", "10.0.0.0/99"]⟩]⟩

/-- A rule file whose domain pattern has an unclosed group. -/
def brokenDomainConfig : proxyConfig := ⟨[⟨"proxyA:1080", ["a(b"]⟩]⟩

/-- A rule file whose unparsable CIDR pattern stands behind a domain pattern
that matches the hostname `m.`. -/
def brokenBehindDomainConfig : proxyConfig :=
  ⟨[⟨"proxy1:1080", ["x", "m.", "10.0.0.0/99"]⟩]⟩

/-! ## A library instance with IPv6 -/

/-- Value of a hexadecimal digit. -/
def hexValue (c : Char) : Option Nat :=
  if c.isDigit then some (c.toNat - 48)
  else if 'a'.toNat ≤ c.toNat ∧ c.toNat ≤ 'f'.toNat then some (c.toNat - 87)
  else if 'A'.toNat ≤ c.toNat ∧ c.toNat ≤ 'F'.toNat then some (c.toNat - 55)
  else none

/-- One colon-separated field of an IPv6 address: one to four hexadecimal
digits, as its two bytes. -/
def parseHexGroup (ds : List Char) : Option (List Nat) :=
  if ds = [] ∨ ds.length > 4 then none
  else
    (ds.foldl (fun acc c => acc.bind (fun n => (hexValue c).map (fun d => 16 * n + d)))
      (some 0)).map (fun n => [n / 256, n % 256])

/-- The fields of a colon-separated run of an IPv6 address; the empty text has
no field. -/
def parseHexGroups (s : List Char) : Option (List Nat) :=
  if s = [] then some []
  else (splitOn ':' s).foldr
    (fun f acc => (parseHexGroup f).bind (fun g => acc.map (fun r => g ++ r))) (some [])

/-- The text before and after the first `::`, if there is one. -/
def cutAtEllipsis : List Char → Option (List Char × List Char)
  | [] => none
  | [_] => none
  | c :: d :: s =>
    if c = ':' ∧ d = ':' then some ([], s)
    else (cutAtEllipsis (d :: s)).map (fun p => (c :: p.1, p.2))

/-- An IPv6 address in text form as its sixteen bytes: eight fields, or fewer
fields around one `::` that stands for at least one zero field.  (A trailing
dotted IPv4 part is outside this instance.) -/
def parseIPv6 (s : List Char) : Option NetIP :=
  match cutAtEllipsis s with
  | none => (parseHexGroups s).bind (fun bs => if bs.length = 16 then some bs else none)
  | some (left, right) =>
    (parseHexGroups left).bind fun l =>
    (parseHexGroups right).bind fun r =>
      if l.length + r.length < 16 then
        some (l ++ List.replicate (16 - (l.length + r.length)) 0 ++ r)
      else none

/-- The prefix of an IPv4 address held in sixteen bytes. -/
def v4InV6Prefix : List Nat := [0, 0, 0, 0, 0, 0, 0, 0, 0, 0, 255, 255]

/-- `net.ParseIP`: a dotted IPv4 address (held in sixteen bytes, as Go does)
or an IPv6 address; `nil` for another text. -/
def goParseIP6 (s : String) : NetIP :=
  match parseIPv4 s.data with
  | some v4 => v4InV6Prefix ++ v4
  | none => (parseIPv6 s.data).getD []

/-- `net.IP.Equal`: the same bytes, an IPv4 address being equal to its
sixteen-byte form. -/
def goIPEqual (ip x : NetIP) : Bool :=
  if ip.length = x.length then ip == x
  else if ip.length = 4 ∧ x.length = 16 then x.take 12 == v4InV6Prefix && ip == x.drop 12
  else if ip.length = 16 ∧ x.length = 4 then ip.take 12 == v4InV6Prefix && ip.drop 12 == x
  else false

/-- The eight 16-bit fields of sixteen bytes. -/
def fieldsOf : List Nat → List Nat
  | hi :: lo :: rest => (256 * hi + lo) :: fieldsOf rest
  | _ => []

/-- The length of the run of zero fields at the head of a list. -/
def zeroRun : List Nat → Nat
  | [] => 0
  | f :: fs => if f = 0 then zeroRun fs + 1 else 0

/-- The first longest run of at least two zero fields, as start and length;
`i` is the index of the head of the list, `best` the run found so far. -/
def longestZeroRun : List Nat → Nat → Nat × Nat → Nat × Nat
  | [], _, best => best
  | f :: fs, i, best =>
    let l := zeroRun (f :: fs)
    longestZeroRun fs (i + 1) (if l ≥ 2 ∧ l > best.2 then (i, l) else best)

/-- The text of the fields from index `i` on, the run `run` being written
`::`; `skip` fields of the run are still to be dropped. -/
def renderFields (run : Nat × Nat) : List Nat → Nat → Nat → List Char
  | [], _, _ => []
  | _ :: fs, i, skip + 1 => renderFields run fs (i + 1) skip
  | f :: fs, i, 0 =>
    if run.2 ≥ 2 ∧ i = run.1 then ':' :: ':' :: renderFields run fs (i + 1) (run.2 - 1)
    else
      (if i > 0 ∧ i ≠ run.1 + run.2 then [':'] else []) ++ Nat.toDigits 16 f ++
        renderFields run fs (i + 1) 0

/-- `net.IP.String`: `"<nil>"` for `nil`, dotted decimal for an IPv4 address
in four or sixteen bytes, else the IPv6 text with the first longest run of
zero fields written `::`; slices of another length are outside this instance. -/
def goIPString6 (ip : NetIP) : String :=
  if ip.length = 4 then goIPString ip
  else if ip.length = 16 then
    if ip.take 12 = v4InV6Prefix then goIPString (ip.drop 12)
    else ⟨renderFields (longestZeroRun (fieldsOf ip) 0 (0, 0)) (fieldsOf ip) 0 0⟩
  else goIPString ip

/-- The concrete instance with IPv6 addresses. -/
def goLib6 (resolver : String → String) : Lib where
  IsLetter := Char.isAlpha
  Compile := goCompile
  ParseCIDR := goParseCIDR
  ParseIP := goParseIP6
  IPString := goIPString6
  IPEqual := goIPEqual
  findHostName := resolver

/-- The loopback address `::1`. -/
def loopback6 : NetIP := [0, 0, 0, 0, 0, 0, 0, 0, 0, 0, 0, 0, 0, 0, 0, 1]

/-! ## dnsproxy.go: DNS relay -/

/-- `dns.Question`, the field read by the handler. -/
structure Question where
  Name : String
  deriving DecidableEq, Repr

/-- `dns.RR_Header`, the fields read by the handler; `Rrtype` and `Class` are
`uint16`, `Ttl` is `uint32`. -/
structure RR_Header where
  Rrtype : Nat
  Class : Nat
  Ttl : Nat
  deriving DecidableEq, Repr

/-- The dynamic type of an answer record: `*dns.A` with its field `A`, or
another record type. -/
inductive RRData where
  | A (A : NetIP)
  | other
  deriving DecidableEq, Repr

/-- `dns.RR`: a header and the data of the dynamic type. -/
structure RR where
  Hdr : RR_Header
  data : RRData
  deriving DecidableEq, Repr

/-- `dns.Msg`, the fields read or written by the handler. -/
structure Msg where
  Question : List Question
  Answer : List RR
  Rcode : Nat
  Compress : Bool
  deriving DecidableEq, Repr

/-- `dns.TypeA`. -/
def TypeA : Nat := 1

/-- `dns.ClassINET`. -/
def ClassINET : Nat := 1

/-- `type dnsProxy struct`, without the server. -/
structure dnsProxy where
  addr : String
  remoteAddr : String
  deriving DecidableEq, Repr

/-- What the handler reads of its `dns.ResponseWriter`: the text of
`w.RemoteAddr()` and the port of `w.LocalAddr()`. -/
structure ResponseWriter where
  RemoteAddr : String
  LocalPort : Nat
  deriving DecidableEq, Repr

/-- What surrounds one call of the handler: the package variable
`iptablesIntegration`, the conntrack table as `os.Open` and `ReadString`
deliver it, and the outcome of `doDnsExchange` (`none` is an error). -/
structure DnsWorld where
  iptablesIntegration : Bool
  conntrack : Option ConntrackReads
  doDnsExchange : Msg → String → Option Msg

/-- What one call of the handler does, in order. -/
inductive DnsEvent where
  /-- a call `getOriginalUdpDst(w)` -/
  | getOriginalUdpDst
  /-- a call `doDnsExchange(m, remoteAddr)` -/
  | doDnsExchange (remoteAddr : String)
  /-- a call `dns.HandleFailed(w, m)` -/
  | HandleFailed
  /-- a call `gReverseLookupCache.storeTtl(key, value, ttl)` -/
  | storeTtl (key value : String) (ttl : Int)
  /-- a call `w.WriteMsg(r)` -/
  | WriteMsg (r : Msg)
  deriving DecidableEq, Repr

/-- The body of the loop over `r.Answer` (lines 68-79).  `h.Ttl+300` is
computed in `uint32`; the conversion to `int` keeps the value (64-bit `int`). -/
def storeAnswer (L : Lib) (qName : String) (am : RR) : List DnsEvent :=
  let h := am.Hdr
  let ip : String :=
    match am.data with
    | .A a => L.IPString a
    | .other => ""
  if h.Rrtype = TypeA ∧ h.Class = ClassINET ∧ qName ≠ "" ∧ ip ≠ "" then
    [.storeTtl ip qName (((h.Ttl + 300) % 2 ^ 32 : Nat) : Int)]
  else []

/-- The choice of the upstream (lines 42-57): the events, and the address to
relay to unless the handler has returned. -/
def chooseUpstream (world : DnsWorld) (proxy : dnsProxy) (w : ResponseWriter) :
    List DnsEvent × Option String :=
  if world.iptablesIntegration then
    match getOriginalUdpDst world.conntrack w.RemoteAddr w.LocalPort with
    | .ok remoteAddr => ([.getOriginalUdpDst], some remoteAddr)
    | .error _ =>
      if proxy.remoteAddr = "" then ([.getOriginalUdpDst, .HandleFailed], none)
      else ([.getOriginalUdpDst], some proxy.remoteAddr)
  else ([], some proxy.remoteAddr)

/-- The handler of `newDnsHandler` for one query `m` arriving on `w`. -/
def newDnsHandler (L : Lib) (world : DnsWorld) (proxy : dnsProxy) (w : ResponseWriter)
    (m : Msg) : List DnsEvent :=
  let qName := m.Question.foldl (fun _ qm => qm.Name) ""
  match chooseUpstream world proxy w with
  | (events, none) => events
  | (events, some remoteAddr) =>
    match world.doDnsExchange m remoteAddr with
    | none => events ++ [.doDnsExchange remoteAddr, .HandleFailed]
    | some r =>
      events ++ [.doDnsExchange remoteAddr] ++ (r.Answer.map (storeAnswer L qName)).flatten ++
        [.WriteMsg { r with Compress := true }]

/-- The upstream addresses of the relays in a run of the handler. -/
def relayedTo (events : List DnsEvent) : List String :=
  events.filterMap (fun e => match e with
    | .doDnsExchange remoteAddr => some remoteAddr
    | _ => none)

/-- Whether an event writes to the hostname cache. -/
def DnsEvent.isStore : DnsEvent → Bool
  | .storeTtl _ _ _ => true
  | _ => false

/-- A query for `example.com.`. -/
def sampleQuery : Msg := ⟨[⟨"example.com."⟩], [], 0, false⟩

/-- A reply whose only answer is the given record. -/
def replyWith (am : RR) : Msg := ⟨[⟨"example.com."⟩], [am], 0, false⟩

/-- A static setting: no redirect, the upstream `8.8.8.8:53` answers every
query with the given record. -/
def staticWorld (am : RR) : DnsWorld := ⟨false, none, fun _ _ => some (replyWith am)⟩

/-- An address record with the largest TTL. -/
def maxTtlRecord : RR := ⟨⟨TypeA, ClassINET, 4294967295⟩, .A [93, 1, 1, 1]⟩

/-- An address record without data: `A` is `nil`. -/
def nilAddressRecord : RR := ⟨⟨TypeA, ClassINET, 60⟩, .A []⟩

/-- The listener used in the examples. -/
def sampleProxy : dnsProxy := ⟨":53", "8.8.8.8:53"⟩

/-- The client connection used in the examples. -/
def sampleWriter : ResponseWriter := ⟨"192.168.1.2:40000", 3129⟩

/-- A redirect-aware setting whose conntrack table holds `sampleRow`, with an
upstream that does not answer. -/
def redirectWorld : DnsWorld := ⟨true, some (tableOf sampleRow), fun _ _ => none⟩

/-! ## config.go: loading the rule file -/

/-- The separator `sep := []byte("---\n")` of `unmarshalProxyRules`. -/
def docSep : List Char := ['-', '-', '-', '\n']

/-- Go `bytes.Index(data, sep)` for a non-empty `sep`, as the text before the
first occurrence and the text after it; `none` is `-1`. -/
def cutAtSep (sep : List Char) : List Char → Option (List Char × List Char)
  | [] => none
  | c :: s =>
    if hasPrefix (c :: s) sep then some ([], (c :: s).drop sep.length)
    else (cutAtSep sep s).map (fun p => (c :: p.1, p.2))

/-- The split function given to `scanner.Split` (lines 37-50): the advance and
the token, `none` being the `nil` token.  `len(bytes.TrimSpace(x)) == 0` holds
when every rune of `x` is white space. -/
def splitDocuments (data : List Char) (atEOF : Bool) : Nat × Option (List Char) :=
  if atEOF = true ∧ data.length = 0 then (0, none)
  else
    match cutAtSep docSep data with
    | some (segment, _) =>
      if segment.all isSpace then (segment.length + docSep.length, none)
      else (segment.length + docSep.length, some segment)
    | none => (data.length, some data)

/-- What the reader hands to the scanner: `chunks` is the data of the reads
that return data and no error, in order; the terminal read returns `last`
(empty for a file) together with an error, `err = none` standing for `io.EOF`. -/
structure ConfigReads where
  chunks : List String
  last : String
  err : Option String
  deriving DecidableEq, Repr

/-- The read step of `bufio.Scanner.Scan`, reached when no token was produced:
with the terminal read behind it (`last = none`, the scanner holds an error)
the scan is over, `none`; otherwise the data of the next read is appended to
the unread data. -/
def readMore (buf : List Char) (chunks : List String) (last : Option String) :
    Option (List Char × List String × Option String) :=
  match last, chunks with
  | none, _ => none
  | some l, [] => some (buf ++ l.data, [], none)
  | some l, chunk :: rest => some (buf ++ chunk.data, rest, some l)

/-- The loop of `bufio.Scanner.Scan` with the split function `splitDocuments`,
as the list of the tokens of the successive calls.  `buf` is the unread data,
`chunks` and `last` the reads to come.  The split function is called when there
is unread data or the terminal read is behind; a token ends the call of `Scan`
and the next call starts here again; after a `nil` token the scanner goes on to
read, and stops when the terminal read is behind it.  `fuel` bounds the number
of turns of the loop. -/
def scanLoop : Nat → List Char → List String → Option String → List String
  | 0, _, _, _ => []
  | fuel + 1, buf, chunks, last =>
    if buf ≠ [] ∨ last = none then
      match splitDocuments buf last.isNone with
      | (advance, some token) => ⟨token⟩ :: scanLoop fuel (buf.drop advance) chunks last
      | (advance, none) =>
        match readMore (buf.drop advance) chunks last with
        | none => []
        | some (buf, chunks, last) => scanLoop fuel buf chunks last
    else
      match readMore buf chunks last with
      | none => []
      | some (buf, chunks, last) => scanLoop fuel buf chunks last

/-- The number of turns the loop of `Scan` can still take: every turn that does
not end the scan consumes a rune or a read. -/
def scanMeasure (buf : List Char) (chunks : List String) (last : Option String) : Nat :=
  buf.length + (chunks.map (fun chunk => chunk.data.length + 1)).sum +
    (match last with
     | none => 0
     | some l => l.data.length + 1)

/-- The texts `scanner.Text()` yields in turn, from a fresh scanner to the call
of `Scan` that returns false. -/
def scanTexts (r : ConfigReads) : List String :=
  let chunks := r.chunks.filter (fun chunk => chunk ≠ "")
  scanLoop (scanMeasure [] chunks (some r.last) + 1) [] chunks (some r.last)

/-- The loop `for scanner.Scan()` of `unmarshalProxyRules`; `unmarshal text` is
`yaml.Unmarshal([]byte(text), &proxyRule)` on a zero `proxyRule`. -/
def decodeTexts (unmarshal : String → Except String ProxyRule) :
    List String → List ProxyRule → Except String (List ProxyRule)
  | [], list => .ok list
  | text :: texts, list =>
    match unmarshal text with
    | .error err => .error err
    | .ok proxyRule => decodeTexts unmarshal texts (list ++ [proxyRule])

/-- `unmarshalProxyRules`. -/
def unmarshalProxyRules (unmarshal : String → Except String ProxyRule) (r : ConfigReads) :
    Except String (List ProxyRule) :=
  match decodeTexts unmarshal (scanTexts r) [] with
  | .error err => .error err
  | .ok list =>
    match r.err with
    | some err => .error err
    | none => .ok list

/-- `NewProxyConfig`; `error` is the panic `error loading config`. -/
def NewProxyConfig (unmarshal : String → Except String ProxyRule) (r : ConfigReads) :
    Except String proxyConfig :=
  match unmarshalProxyRules unmarshal r with
  | .error err => .error ("error loading config: " ++ err)
  | .ok proxyRules => .ok ⟨proxyRules⟩

/-- A reader that delivers a text in one read and reports the end of the input
at the next one, as a file or a `strings.Reader` does for a text of at most
4096 bytes, the size of the buffer of the scanner. -/
def readWhole (text : String) : ConfigReads := ⟨[text], "", none⟩

/-- A reader that delivers a text together with the end of the input in a
single read, which `io.Reader` allows. -/
def readAtOnce (text : String) : ConfigReads := ⟨[], text, none⟩

/-- The lines of a text, each with its newline. -/
def linesOf : List Char → List (List Char)
  | [] => []
  | c :: s =>
    if c = '\n' then [c] :: linesOf s
    else
      match linesOf s with
      | [] => [[c]]
      | line :: lines => (c :: line) :: lines

/-- Specification-side segmentation, following the words of the specification:
the segments between the lines that consist exactly of the separator token
followed by newline. -/
def specSegments : List (List Char) → List (List Char)
  | [] => [[]]
  | line :: lines =>
    if line = docSep then [] :: specSegments lines
    else
      match specSegments lines with
      | [] => [line]
      | segment :: segments => (line ++ segment) :: segments

/-- Specification-side documents of a text: its segments that are not blank. -/
def specDocuments (text : String) : List String :=
  ((specSegments (linesOf text.data)).filter (fun segment => !segment.all isSpace)).map
    (fun segment => (⟨segment⟩ : String))

/-- Go `strings.TrimRight` of white space, on rune lists. -/
def dropTrailingSpace (s : List Char) : List Char :=
  (s.reverse.dropWhile isSpace).reverse

/-- `yaml.Unmarshal` into a zero `ProxyRule` on the documents of the examples:
a blank document decodes to the zero value without error, the one-line
document `proxy: word`, the word made of letters, digits and `-` after a first
letter, sets `Proxy`; every other document is outside this instance and is
reported as an error. -/
def sampleYaml (doc : String) : Except String ProxyRule :=
  if doc.data.all isSpace then .ok ⟨"", []⟩
  else
    let line := dropTrailingSpace doc.data
    if hasPrefix line "proxy: ".data then
      let word := line.drop 7
      if (word.head?.map Char.isAlpha).getD false ∧
          word.all (fun c => c.isAlphanum || c == '-') then .ok ⟨⟨word⟩, []⟩
      else .error "outside the instance"
    else .error "outside the instance"

/-! ## Lemmas: strings and slices -/

theorem indexFuncFrom_eq_neg_one (f : Char → Bool) (s : List Char) (off : Nat) :
    indexFuncFrom f s off = -1 ↔ ∀ c ∈ s, f c = false := by
  induction s generalizing off with
  | nil => simp [indexFuncFrom]
  | cons c s ih =>
    by_cases hc : f c = true
    · simp only [indexFuncFrom, hc, if_true, List.mem_cons, forall_eq_or_imp]
      constructor
      · intro h; omega
      · intro h; simp at h
    · have hc2 : f c = false := by simpa using hc
      simp [indexFuncFrom, hc2, ih]

theorem isDomain_iff (L : Lib) (rule : String) :
    isDomain L rule = true ↔ ∃ c ∈ rule.data, L.IsLetter c = true := by
  unfold isDomain IndexFunc
  rw [bne_iff_ne, Ne, indexFuncFrom_eq_neg_one]
  push_neg
  simp

theorem hasPrefix_nil (s : List Char) : hasPrefix s [] = true := by
  cases s <;> rfl

theorem containsAt_single (s : List Char) (c : Char) :
    containsAt s [c] = true ↔ c ∈ s := by
  induction s with
  | nil => simp [containsAt, hasPrefix]
  | cons d s ih =>
    simp only [containsAt, hasPrefix, hasPrefix_nil, Bool.and_true, Bool.or_eq_true, ih,
      List.mem_cons, beq_iff_eq]
    constructor
    · rintro (h | h)
      · exact Or.inl h.symm
      · exact Or.inr h
    · rintro (h | h)
      · exact Or.inl h.symm
      · exact Or.inr h

theorem isCIDR_iff (rule : String) : isCIDR rule = true ↔ '/' ∈ rule.data := by
  unfold isCIDR Contains
  exact containsAt_single rule.data '/'

theorem copy_replicate (n : Nat) (list : List String) (h : n = list.length) :
    copy (List.replicate n "") list = list := by
  subst h
  simp [copy]

theorem insert_eq_cons (str : String) (list : List String) : insert str list = str :: list := by
  unfold insert
  have h : List.replicate (1 + list.length) "" = "" :: List.replicate list.length "" := by
    rw [Nat.add_comm]; rfl
  simp only [h, List.set_cons_zero, List.take_succ_cons, List.take_zero, List.drop_succ_cons,
    List.drop_zero, List.singleton_append, List.cons.injEq, true_and]
  exact copy_replicate _ _ rfl

theorem specKind_eq (L : Lib) (rule : String) :
    specKind L rule =
      if isDomain L rule then .Domain else if isCIDR rule then .CIDR else .ExactIP := by
  unfold specKind
  by_cases hd : isDomain L rule = true
  · rw [if_pos ((isDomain_iff L rule).1 hd), if_pos hd]
  · rw [if_neg (fun h => hd ((isDomain_iff L rule).2 h)), if_neg hd]
    by_cases hc : isCIDR rule = true
    · rw [if_pos ((isCIDR_iff rule).1 hc), if_pos hc]
    · rw [if_neg (fun h => hc ((isCIDR_iff rule).2 h)), if_neg hc]

/-! ## Lemmas: ResolveProxy against the specification -/

theorem resolveDomain_none (L : Lib) (ipv4 proxy rule : String) (st : ResolveState)
    (hc : L.Compile (domainPattern rule) = none) :
    resolveDomain L ipv4 proxy rule st = (.error (.pattern rule), st) := by
  unfold resolveDomain; rw [hc]

/-- The domain branch once the pattern has compiled, in terms of the hostname
`h` the memo holds after the lookup. -/
theorem resolveDomain_some (L : Lib) (ipv4 proxy rule : String) (st : ResolveState)
    (re : String → Bool) (hc : L.Compile (domainPattern rule) = some re) :
    ∃ h tr, (st.hostname = none → h = L.findHostName ipv4) ∧
      (∀ v, st.hostname = some v → h = v) ∧
      resolveDomain L ipv4 proxy rule st =
        if h = "" then (.ok none, { st with hostname := some h, trace := tr })
        else if re (TrimSuffix h ".") then
          (.ok (some (proxy :: st.defaultProxyList)),
            { st with hostname := some (TrimSuffix h "."),
                      trace := tr ++ [.matchString rule (TrimSuffix h ".")] })
        else
          (.ok none,
            { st with hostname := some (TrimSuffix h "."),
                      trace := tr ++ [.matchString rule (TrimSuffix h ".")] }) := by
  unfold resolveDomain
  rw [hc]
  cases hh : st.hostname with
  | none =>
    refine ⟨L.findHostName ipv4, st.trace ++ [.lookup ipv4], fun _ => rfl, fun v hv => by simp at hv, ?_⟩
    simp only [Option.getD_some, insert_eq_cons]
  | some v =>
    refine ⟨v, st.trace, fun hv => by simp at hv, fun w hw => by simpa using hw, ?_⟩
    simp only [hh, Option.getD_some, insert_eq_cons]
    split_ifs <;> first | rfl | (congr 1; cases st; simp_all)

theorem resolveRule_spec (L : Lib) (ipv4 proxy rule : String) (fb : List String)
    (st : ResolveState) (hdot : singleDot (L.findHostName ipv4)) (hinv : HostInv L ipv4 fb st) :
    (resolveRule L ipv4 proxy rule st).1 = specFlow L ipv4 fb proxy rule ∧
      HostInv L ipv4 fb (resolveRule L ipv4 proxy rule st).2 := by
  obtain ⟨hfb, hhost⟩ := hinv
  unfold resolveRule specFlow specUnparsable specMatches
  rw [specKind_eq]
  by_cases hd : isDomain L rule = true
  · simp only [hd, if_true]
    cases hc : L.Compile (domainPattern rule) with
    | none =>
      rw [resolveDomain_none L ipv4 proxy rule st hc]
      exact ⟨by simp, hfb, hhost⟩
    | some re =>
      obtain ⟨h, tr, hn, hs, heq⟩ := resolveDomain_some L ipv4 proxy rule st re hc
      rw [heq]
      simp only [Option.isNone_some, Bool.false_eq_true, if_false]
      rcases hhost with h0 | ⟨he, h0⟩ | ⟨hne, h0⟩
      · have hh := hn h0
        subst hh
        by_cases he : L.findHostName ipv4 = ""
        · simp [he, HostInv, hfb]
        · have ht : TrimSuffix (L.findHostName ipv4) "." ≠ "" := fun h => he (hdot.1 h)
          by_cases hm : re (TrimSuffix (L.findHostName ipv4) ".") = true
          · simp [he, hm, HostInv, hfb]
          · simp [he, hm, HostInv, hfb]
      · have hh := hs _ h0
        subst hh
        simp [he, HostInv, hfb]
      · have hh := hs _ h0
        subst hh
        have ht : TrimSuffix (L.findHostName ipv4) "." ≠ "" := fun h => hne (hdot.1 h)
        rw [hdot.2]
        by_cases hm : re (TrimSuffix (L.findHostName ipv4) ".") = true
        · simp [hne, ht, hm, HostInv, hfb]
        · simp [hne, ht, hm, HostInv, hfb]
  · simp only [hd, Bool.false_eq_true, if_false]
    by_cases hc : isCIDR rule = true
    · simp only [hc, if_true]
      unfold resolveCIDR
      cases hp : L.ParseCIDR rule with
      | none => exact ⟨by simp, hfb, hhost⟩
      | some net =>
        by_cases hm : net (L.ParseIP ipv4) = true
        · simp [hm, HostInv, hfb, hhost, insert_eq_cons]
        · simp [hm, HostInv, hfb, hhost]
    · simp only [hc, Bool.false_eq_true, if_false]
      unfold resolveExact
      by_cases hm : rule = ipv4
      · simp [hm, HostInv, hfb, hhost, insert_eq_cons]
      · simp [hm, HostInv, hfb, hhost]

theorem resolveRule_fallback (L : Lib) (ipv4 proxy rule : String) (st : ResolveState) :
    (resolveRule L ipv4 proxy rule st).2.defaultProxyList = st.defaultProxyList := by
  unfold resolveRule
  by_cases hd : isDomain L rule = true
  · simp only [hd, if_true]
    cases hc : L.Compile (domainPattern rule) with
    | none => rw [resolveDomain_none L ipv4 proxy rule st hc]
    | some re =>
      obtain ⟨h, tr, _, _, heq⟩ := resolveDomain_some L ipv4 proxy rule st re hc
      rw [heq]
      split_ifs <;> rfl
  · simp only [hd, Bool.false_eq_true, if_false]
    unfold resolveCIDR resolveExact
    split_ifs
    · cases L.ParseCIDR rule with
      | none => rfl
      | some net => dsimp only; split_ifs <;> rfl
    · rfl
    · rfl

theorem resolveRule_chain (L : Lib) (ipv4 proxy rule : String) (st : ResolveState)
    (chain : List String) (h : (resolveRule L ipv4 proxy rule st).1 = .ok (some chain)) :
    chain = proxy :: st.defaultProxyList := by
  unfold resolveRule at h
  by_cases hd : isDomain L rule = true
  · simp only [hd, if_true] at h
    cases hc : L.Compile (domainPattern rule) with
    | none => rw [resolveDomain_none L ipv4 proxy rule st hc] at h; simp at h
    | some re =>
      obtain ⟨h1, tr, _, _, heq⟩ := resolveDomain_some L ipv4 proxy rule st re hc
      rw [heq] at h
      split_ifs at h <;> simp_all
  · simp only [hd, Bool.false_eq_true, if_false] at h
    unfold resolveCIDR resolveExact at h
    split_ifs at h
    · cases hp : L.ParseCIDR rule with
      | none => rw [hp] at h; simp at h
      | some net =>
        rw [hp] at h
        dsimp only at h
        split_ifs at h <;> simp_all [insert_eq_cons]
    · simp_all [insert_eq_cons]
    · simp at h

theorem resolveRules_fallback (L : Lib) (ipv4 proxy : String) (rules : List String)
    (st : ResolveState) :
    (resolveRules L ipv4 proxy rules st).2.defaultProxyList = st.defaultProxyList := by
  induction rules generalizing st with
  | nil => rfl
  | cons rule rules ih =>
    have h1 := resolveRule_fallback L ipv4 proxy rule st
    unfold resolveRules
    split
    · next st1 heq => rw [ih, ← h1, heq]
    · exact h1

theorem resolveRules_chain (L : Lib) (ipv4 proxy : String) (rules : List String)
    (st : ResolveState) (chain : List String)
    (h : (resolveRules L ipv4 proxy rules st).1 = .ok (some chain)) :
    chain = proxy :: st.defaultProxyList := by
  induction rules generalizing st with
  | nil => simp [resolveRules] at h
  | cons rule rules ih =>
    have h1 := resolveRule_fallback L ipv4 proxy rule st
    unfold resolveRules at h
    split at h
    · next st1 heq =>
      rw [ih st1 h, ← h1, heq]
    · exact resolveRule_chain L ipv4 proxy rule st chain h

theorem resolveGroups_fallback (L : Lib) (ipv4 : String) (groups : List ProxyRule)
    (st : ResolveState) :
    (resolveGroups L ipv4 groups st).2.defaultProxyList = st.defaultProxyList := by
  induction groups generalizing st with
  | nil => rfl
  | cons g groups ih =>
    unfold resolveGroups
    have h1 := resolveRules_fallback L ipv4 g.Proxy g.Rules st
    split
    · split
      · next st1 heq => rw [ih, ← h1, heq]
      · next chain st1 heq => rw [← h1, heq]
      · next p st1 heq => rw [← h1, heq]
    · exact ih st

theorem resolveGroups_chain (L : Lib) (ipv4 : String) (groups : List ProxyRule)
    (st : ResolveState) (r : List String) (h : (resolveGroups L ipv4 groups st).1 = .ok r) :
    r = st.defaultProxyList ∨
      ∃ g ∈ groups, g.Proxy ≠ "" ∧ r = g.Proxy :: st.defaultProxyList := by
  induction groups generalizing st with
  | nil =>
    left
    simpa [resolveGroups] using h.symm
  | cons g groups ih =>
    unfold resolveGroups at h
    have h1 := resolveRules_fallback L ipv4 g.Proxy g.Rules st
    split at h
    · next hp =>
      split at h
      · next st1 heq =>
        rw [heq] at h1
        rcases ih st1 h with h2 | ⟨g2, hg2, hne, h2⟩
        · left; rw [h2, h1]
        · right; exact ⟨g2, List.mem_cons_of_mem _ hg2, hne, by rw [h2, h1]⟩
      · next chain st1 heq =>
        right
        refine ⟨g, List.mem_cons_self _ _, hp, ?_⟩
        have h3 := resolveRules_chain L ipv4 g.Proxy g.Rules st chain (by rw [heq])
        simp only [Except.ok.injEq] at h
        rw [← h, h3]
      · simp at h
    · rcases ih st h with h2 | ⟨g2, hg2, hne, h2⟩
      · left; exact h2
      · right; exact ⟨g2, List.mem_cons_of_mem _ hg2, hne, h2⟩

theorem resolveGroups_filter (L : Lib) (ipv4 : String) (groups : List ProxyRule)
    (st : ResolveState) :
    resolveGroups L ipv4 (groups.filter (fun g => g.Proxy != "")) st =
      resolveGroups L ipv4 groups st := by
  induction groups generalizing st with
  | nil => rfl
  | cons g groups ih =>
    by_cases hp : g.Proxy = ""
    · have : (g.Proxy != "") = false := by simp [hp]
      rw [List.filter_cons_of_neg (by simp [hp])]
      conv_rhs => unfold resolveGroups
      simp [hp, ih]
    · rw [List.filter_cons_of_pos (by simp [hp])]
      unfold resolveGroups
      simp only [ne_eq, hp, not_false_eq_true, if_true]
      split <;> simp_all

theorem resolveRules_cons_next (L : Lib) (ipv4 proxy rule : String) (rules : List String)
    (st : ResolveState) (h : (resolveRule L ipv4 proxy rule st).1 = .ok none) :
    resolveRules L ipv4 proxy (rule :: rules) st =
      resolveRules L ipv4 proxy rules (resolveRule L ipv4 proxy rule st).2 := by
  rw [resolveRules]
  split
  · next st1 heq => rw [heq]
  · next hne =>
    have heq : resolveRule L ipv4 proxy rule st =
        (Except.ok none, (resolveRule L ipv4 proxy rule st).2) := Prod.ext h rfl
    exact absurd heq (hne _)

theorem resolveRules_cons_stop (L : Lib) (ipv4 proxy rule : String) (rules : List String)
    (st : ResolveState) (h : (resolveRule L ipv4 proxy rule st).1 ≠ .ok none) :
    resolveRules L ipv4 proxy (rule :: rules) st = resolveRule L ipv4 proxy rule st := by
  rw [resolveRules]
  split
  · next st1 heq => rw [heq] at h; exact absurd rfl h
  · rfl

theorem resolveRules_spec (L : Lib) (ipv4 proxy : String) (fb : List String)
    (rules : List String) (rest : List (String × String)) (st : ResolveState)
    (hdot : singleDot (L.findHostName ipv4)) (hinv : HostInv L ipv4 fb st) :
    specResolve L ipv4 fb (rules.map (fun rule => (proxy, rule)) ++ rest) =
      (match (resolveRules L ipv4 proxy rules st).1 with
        | .error p => .error p
        | .ok (some chain) => .ok chain
        | .ok none => specResolve L ipv4 fb rest) ∧
      HostInv L ipv4 fb (resolveRules L ipv4 proxy rules st).2 := by
  induction rules generalizing st with
  | nil => exact ⟨by simp [resolveRules], hinv⟩
  | cons rule rules ih =>
    obtain ⟨h1, h2⟩ := resolveRule_spec L ipv4 proxy rule fb st hdot hinv
    simp only [List.map_cons, List.cons_append, specResolve]
    unfold specFlow at h1
    cases hu : specUnparsable L rule with
    | some p =>
      rw [hu] at h1
      rw [resolveRules_cons_stop L ipv4 proxy rule rules st (by rw [h1]; simp), h1]
      exact ⟨rfl, h2⟩
    | none =>
      rw [hu] at h1
      by_cases hm : specMatches L rule ipv4 = true
      · simp only [hm, if_true] at h1 ⊢
        rw [resolveRules_cons_stop L ipv4 proxy rule rules st (by rw [h1]; simp), h1]
        exact ⟨rfl, h2⟩
      · simp only [hm, Bool.false_eq_true, if_false] at h1 ⊢
        rw [resolveRules_cons_next L ipv4 proxy rule rules st h1]
        exact ih _ h2

theorem resolveGroups_spec (L : Lib) (ipv4 : String) (fb : List String)
    (groups : List ProxyRule) (st : ResolveState)
    (hdot : singleDot (L.findHostName ipv4)) (hinv : HostInv L ipv4 fb st) :
    (resolveGroups L ipv4 groups st).1 = specResolve L ipv4 fb (proxiedRules groups) := by
  induction groups generalizing st with
  | nil => simp [resolveGroups, proxiedRules, specResolve, hinv.1]
  | cons g groups ih =>
    unfold resolveGroups proxiedRules
    by_cases hp : g.Proxy = ""
    · simp only [hp, ne_eq, not_true_eq_false, if_false, if_true]
      exact ih st hinv
    · simp only [hp, ne_eq, not_false_eq_true, if_true, if_false]
      obtain ⟨h1, h2⟩ := resolveRules_spec L ipv4 g.Proxy fb g.Rules (proxiedRules groups) st hdot hinv
      rw [h1]
      split
      · next st1 heq => rw [heq] at h2 ⊢; exact ih st1 h2
      · next chain st1 heq => rw [heq]
      · next p st1 heq => rw [heq]

theorem ResolveProxy_spec (L : Lib) (config : proxyConfig) (ipv4 : String) (port : Nat)
    (fb : List String) (hdot : singleDot (L.findHostName ipv4)) :
    ResolveProxy L config ipv4 port fb = specResolve L ipv4 fb (proxiedRules config.proxyRules) :=
  resolveGroups_spec L ipv4 fb config.proxyRules _ hdot ⟨rfl, Or.inl rfl⟩

theorem mem_proxiedRules (groups : List ProxyRule) (proxy rule : String) :
    (proxy, rule) ∈ proxiedRules groups ↔
      ∃ g ∈ groups, g.Proxy ≠ "" ∧ g.Proxy = proxy ∧ rule ∈ g.Rules := by
  induction groups with
  | nil => simp [proxiedRules]
  | cons g groups ih =>
    unfold proxiedRules
    by_cases hp : g.Proxy = ""
    · simp only [hp, if_true, ih, List.mem_cons, exists_eq_or_imp, ne_eq, not_true_eq_false,
        false_and, false_or]
    · simp only [hp, if_false, List.mem_append, List.mem_map, Prod.mk.injEq, ih, List.mem_cons,
        exists_eq_or_imp, ne_eq, not_false_eq_true, true_and]
      constructor
      · rintro (⟨r, hr, h1, h2⟩ | h)
        · left; exact ⟨h1, h2 ▸ hr⟩
        · right; exact h
      · rintro (⟨h1, h2⟩ | h)
        · left; exact ⟨rule, h2, h1, rfl⟩
        · right; exact h

theorem specResolve_ok (L : Lib) (ipv4 : String) (fb : List String)
    (pairs : List (String × String)) (r : List String)
    (h : specResolve L ipv4 fb pairs = .ok r) :
    (r = fb ∧ ∀ pr ∈ pairs, specMatches L pr.2 ipv4 = false) ∨
      ∃ pr ∈ pairs, specMatches L pr.2 ipv4 = true ∧ r = pr.1 :: fb := by
  induction pairs with
  | nil =>
    left
    simp only [specResolve, Except.ok.injEq] at h
    exact ⟨h.symm, by simp⟩
  | cons pr pairs ih =>
    obtain ⟨proxy, rule⟩ := pr
    unfold specResolve at h
    cases hu : specUnparsable L rule with
    | some p => rw [hu] at h; simp at h
    | none =>
      rw [hu] at h
      by_cases hm : specMatches L rule ipv4 = true
      · simp only [hm, if_true, Except.ok.injEq] at h
        right
        exact ⟨(proxy, rule), List.mem_cons_self _ _, hm, h.symm⟩
      · simp only [hm, Bool.false_eq_true, if_false] at h
        rcases ih h with ⟨h1, h2⟩ | ⟨pr, hpr, h1, h2⟩
        · left
          refine ⟨h1, ?_⟩
          intro q hq
          rcases List.mem_cons.1 hq with rfl | hq
          · simpa using hm
          · exact h2 q hq
        · right
          exact ⟨pr, List.mem_cons_of_mem _ hpr, h1, h2⟩

theorem specResolve_first (L : Lib) (ipv4 : String) (fb : List String)
    (before after : List (String × String)) (proxy rule : String)
    (hmiss : ∀ pr ∈ before, specMatches L pr.2 ipv4 = false ∧ specUnparsable L pr.2 = none)
    (hhit : specMatches L rule ipv4 = true) :
    specResolve L ipv4 fb (before ++ (proxy, rule) :: after) = .ok (proxy :: fb) := by
  induction before with
  | nil =>
    have hu : specUnparsable L rule = none := by
      unfold specMatches at hhit
      unfold specUnparsable
      cases hk : specKind L rule <;> rw [hk] at hhit <;> simp only at hhit ⊢
      · cases hc : L.Compile (domainPattern rule) <;> rw [hc] at hhit <;> simp at hhit ⊢
      · cases hc : L.ParseCIDR rule <;> rw [hc] at hhit <;> simp at hhit ⊢
    simp [specResolve, hu, hhit]
  | cons pr before ih =>
    obtain ⟨p, r⟩ := pr
    have h1 := hmiss (p, r) (List.mem_cons_self _ _)
    simp only [List.cons_append, specResolve, h1.2, h1.1, Bool.false_eq_true, if_false]
    exact ih (fun q hq => hmiss q (List.mem_cons_of_mem _ hq))

theorem cons_ne_self (a : String) (l : List String) : a :: l ≠ l := by
  intro h
  have := congrArg List.length h
  simp at this

theorem specResolve_error (L : Lib) (ipv4 : String) (fb : List String)
    (pairs : List (String × String)) (p : Panic)
    (h : specResolve L ipv4 fb pairs = .error p) :
    ∃ before proxy rule after, pairs = before ++ (proxy, rule) :: after ∧
      (∀ pr ∈ before, specMatches L pr.2 ipv4 = false) ∧ specUnparsable L rule = some p := by
  induction pairs with
  | nil => simp [specResolve] at h
  | cons pr pairs ih =>
    obtain ⟨proxy, rule⟩ := pr
    unfold specResolve at h
    cases hu : specUnparsable L rule with
    | some q =>
      rw [hu] at h
      simp only [Except.error.injEq] at h
      subst h
      exact ⟨[], proxy, rule, pairs, rfl, by simp, hu⟩
    | none =>
      rw [hu] at h
      by_cases hm : specMatches L rule ipv4 = true
      · simp [hm] at h
      · simp only [hm, Bool.false_eq_true, if_false] at h
        obtain ⟨before, proxy2, rule2, after, h1, h2, h3⟩ := ih h
        refine ⟨(proxy, rule) :: before, proxy2, rule2, after, by rw [h1]; rfl, ?_, h3⟩
        intro q hq
        rcases List.mem_cons.1 hq with rfl | hq
        · simpa using hm
        · exact h2 q hq

/-- C1 (amended): for every rule configuration, destination, port and fallback
chain such that the resolved hostname of the destination has at most one
trailing `.` to strip and every pattern of the proxied groups that no matching
pattern precedes in file order parses, `ResolveProxy` returns a chain; that
chain is the fallback chain itself exactly when no pattern of a group with a
non-empty proxy matches the destination, and otherwise it is the proxy of a
group with a matching pattern followed by the elements of the fallback chain
(one element longer); the caller's fallback chain is the same after the
call. -/
theorem ResolveProxy_chain (L : Lib) (config : proxyConfig) (ipv4 : String) (port : Nat)
    (fallback : List String) (hdot : singleDot (L.findHostName ipv4))
    (hreach : ∀ before proxy rule after,
      proxiedRules config.proxyRules = before ++ (proxy, rule) :: after →
      (∀ pr ∈ before, specMatches L pr.2 ipv4 = false) → specUnparsable L rule = none) :
    (∃ chain, ResolveProxy L config ipv4 port fallback = .ok chain) ∧
    (ResolveProxy L config ipv4 port fallback = .ok fallback ↔
      ∀ g ∈ config.proxyRules, g.Proxy ≠ "" →
        ∀ rule ∈ g.Rules, specMatches L rule ipv4 = false) ∧
    (ResolveProxy L config ipv4 port fallback = .ok fallback ∨
      ∃ g ∈ config.proxyRules, g.Proxy ≠ "" ∧
        (∃ rule ∈ g.Rules, specMatches L rule ipv4 = true) ∧
        ResolveProxy L config ipv4 port fallback = .ok (g.Proxy :: fallback) ∧
        (g.Proxy :: fallback).length = fallback.length + 1) ∧
    (ResolveProxyRun L config ipv4 port fallback).2.defaultProxyList = fallback := by
  have hspec := ResolveProxy_spec L config ipv4 port fallback hdot
  have hfb : (ResolveProxyRun L config ipv4 port fallback).2.defaultProxyList = fallback :=
    resolveGroups_fallback L ipv4 config.proxyRules _
  cases hr : ResolveProxy L config ipv4 port fallback with
  | error p =>
    rw [hr] at hspec
    obtain ⟨before, proxy, rule, after, h1, h2, h3⟩ :=
      specResolve_error L ipv4 fallback _ p hspec.symm
    rw [hreach before proxy rule after h1 h2] at h3
    exact absurd h3 (by simp)
  | ok r =>
    rw [hr] at hspec
    rcases specResolve_ok L ipv4 fallback _ r hspec.symm with ⟨h1, h2⟩ | ⟨pr, hpr, h1, h2⟩
    · subst h1
      refine ⟨⟨r, rfl⟩, ⟨fun _ g hg hp rule hrule => ?_, fun _ => rfl⟩, Or.inl rfl, hfb⟩
      exact h2 (g.Proxy, rule) ((mem_proxiedRules _ _ _).2 ⟨g, hg, hp, rfl, hrule⟩)
    · obtain ⟨proxy, rule⟩ := pr
      obtain ⟨g, hg, hp, hgp, hrule⟩ := (mem_proxiedRules _ _ _).1 hpr
      simp only at h1 h2
      subst h2
      refine ⟨⟨_, rfl⟩, ⟨fun h => ?_, fun h => ?_⟩,
        Or.inr ⟨g, hg, hp, ⟨rule, hrule, h1⟩, ?_, by simp⟩, hfb⟩
      · simp only [Except.ok.injEq] at h
        exact absurd h (cons_ne_self _ _)
      · have := h g hg hp rule hrule
        rw [h1] at this
        exact absurd this (by simp)
      · rw [hgp]

/-- C1, witness: a rule file in which the second pattern of the first proxied
group is the first to match; the resolved hostname is `www.example.com`. -/
theorem ResolveProxy_chain_witness :
    singleDot ((goLib scenarioResolver).findHostName "93.1.1.1") ∧
    (∀ pr ∈ proxiedRules mixedConfig.proxyRules,
      specUnparsable (goLib scenarioResolver) pr.2 = none) ∧
    ¬ (ResolveProxy (goLib scenarioResolver) mixedConfig "93.1.1.1" 0 ["direct"] =
      .ok ["direct"]) ∧
    ResolveProxy (goLib scenarioResolver) mixedConfig "93.1.1.1" 0 ["direct"] =
      .ok ["proxyA:1080", "direct"] ∧
    (ResolveProxyRun (goLib scenarioResolver) mixedConfig "93.1.1.1" 0
      ["direct"]).2.defaultProxyList = ["direct"] := by
  have hall : ∀ pr ∈ proxiedRules mixedConfig.proxyRules,
      specUnparsable (goLib scenarioResolver) pr.2 = none := by decide
  have h := ResolveProxy_chain (goLib scenarioResolver) mixedConfig "93.1.1.1" 0 ["direct"]
    (by decide)
    (fun before proxy rule after hsplit _ => hall (proxy, rule) (by rw [hsplit]; simp))
  exact ⟨by decide, hall, by decide, by decide, h.2.2.2⟩

/-- C1, counterexample: with the only proxied pattern `10.0.0.0/99`, no pattern
matches the destination `10.0.0.5`, yet the call does not return the fallback
chain (nor any chain): it aborts on the unparsable pattern. -/
theorem ResolveProxy_chain_counterexample :
    (∀ g ∈ brokenConfig.proxyRules, g.Proxy ≠ "" →
      ∀ rule ∈ g.Rules, specMatches (goLib scenarioResolver) rule "10.0.0.5" = false) ∧
    ResolveProxy (goLib scenarioResolver) brokenConfig "10.0.0.5" 0 ["direct"] =
      .error (.cidr "10.0.0.0/99") ∧
    ¬ (ResolveProxy (goLib scenarioResolver) brokenConfig "10.0.0.5" 0 ["direct"] =
      .ok ["direct"]) := by
  decide

/-- C2 (amended): first match wins.  When the resolved hostname of the
destination has at most one trailing `.` to strip, and the patterns of the
proxied groups, flattened in file order, consist of patterns that parse and do
not match, followed by a pattern that matches, then `ResolveProxy` returns the
fallback chain with the proxy of the group of that pattern prepended, and with
no other proxy, whatever the kind of the patterns and whatever matches later. -/
theorem ResolveProxy_first_match (L : Lib) (config : proxyConfig) (ipv4 : String)
    (port : Nat) (fallback : List String) (before after : List (String × String))
    (proxy rule : String) (hdot : singleDot (L.findHostName ipv4))
    (hsplit : proxiedRules config.proxyRules = before ++ (proxy, rule) :: after)
    (hmiss : ∀ pr ∈ before, specMatches L pr.2 ipv4 = false ∧ specUnparsable L pr.2 = none)
    (hhit : specMatches L rule ipv4 = true) :
    ResolveProxy L config ipv4 port fallback = .ok (proxy :: fallback) ∧
    ∀ other, other ≠ proxy →
      ResolveProxy L config ipv4 port fallback ≠ .ok (other :: fallback) := by
  have h : ResolveProxy L config ipv4 port fallback = .ok (proxy :: fallback) := by
    rw [ResolveProxy_spec L config ipv4 port fallback hdot, hsplit]
    exact specResolve_first L ipv4 fallback before after proxy rule hmiss hhit
  refine ⟨h, fun other hne hother => ?_⟩
  rw [h] at hother
  simp only [Except.ok.injEq, List.cons.injEq, and_true] at hother
  exact hne hother.symm

/-- C2, witness: `10.0.0.5` lies in the subnet `10.0.0.0/8` of the first proxied
group and equals the address pattern of the second; the first group wins. -/
theorem ResolveProxy_first_match_witness :
    proxiedRules overlapConfig.proxyRules =
      [("proxyA:1080", "192.168.0.0/16")] ++ ("proxyA:1080", "10.0.0.0/8") ::
        [("proxyB:1080", "10.0.0.5")] ∧
    specMatches (goLib scenarioResolver) "10.0.0.5" "10.0.0.5" = true ∧
    ResolveProxy (goLib scenarioResolver) overlapConfig "10.0.0.5" 0 ["direct"] =
      .ok ["proxyA:1080", "direct"] :=
  ⟨by decide, by decide,
    (ResolveProxy_first_match (goLib scenarioResolver) overlapConfig "10.0.0.5" 0 ["direct"]
      [("proxyA:1080", "192.168.0.0/16")] [("proxyB:1080", "10.0.0.5")] "proxyA:1080"
      "10.0.0.0/8" (by decide) (by decide) (by decide) (by decide)).1⟩

/-- C2, counterexample: the address pattern of the second group is the only,
hence the earliest, pattern that matches `10.0.0.5`, but the result does not
carry the proxy of that group: the call aborts on the unparsable pattern of
the first group. -/
theorem ResolveProxy_first_match_counterexample :
    specMatches (goLib scenarioResolver) "10.0.0.0/99" "10.0.0.5" = false ∧
    specMatches (goLib scenarioResolver) "10.0.0.5" "10.0.0.5" = true ∧
    ResolveProxy (goLib scenarioResolver) brokenFirstConfig "10.0.0.5" 0 ["direct"] =
      .error (.cidr "10.0.0.0/99") ∧
    ¬ (ResolveProxy (goLib scenarioResolver) brokenFirstConfig "10.0.0.5" 0 ["direct"] =
      .ok ["proxyB:1080", "direct"]) := by
  decide

/-- C3: groups with an empty proxy have no influence on `ResolveProxy`: the
call gives the same outcome, with the same calls to its collaborators, on the
configuration without these groups, and a returned chain is the fallback chain
or the fallback chain behind the non-empty proxy of a group.  In the scenario
of the specification, `10.0.0.5` with fallback `["direct"]` resolves to
`["direct"]` and `93.1.1.1`, whose hostname is `www.example.com`, with an
empty fallback resolves to `["proxy1:1080"]`. -/
theorem ResolveProxy_ignores_direct_groups :
    (∀ (L : Lib) (config : proxyConfig) (ipv4 : String) (port : Nat) (fallback : List String),
      ResolveProxyRun L config ipv4 port fallback =
          ResolveProxyRun L ⟨config.proxyRules.filter (fun g => g.Proxy != "")⟩ ipv4 port
            fallback ∧
      ResolveProxy L config ipv4 port fallback =
          ResolveProxy L ⟨config.proxyRules.filter (fun g => g.Proxy != "")⟩ ipv4 port
            fallback ∧
      ∀ r, ResolveProxy L config ipv4 port fallback = .ok r →
        r = fallback ∨ ∃ g ∈ config.proxyRules, g.Proxy ≠ "" ∧ r = g.Proxy :: fallback) ∧
    ResolveProxy (goLib scenarioResolver) scenarioConfig "10.0.0.5" 0 ["direct"] =
      .ok ["direct"] ∧
    ResolveProxy (goLib scenarioResolver) scenarioConfig "93.1.1.1" 0 [] =
      .ok ["proxy1:1080"] := by
  refine ⟨fun L config ipv4 port fallback => ?_, by decide, by decide⟩
  have h : ResolveProxyRun L config ipv4 port fallback =
      ResolveProxyRun L ⟨config.proxyRules.filter (fun g => g.Proxy != "")⟩ ipv4 port
        fallback := (resolveGroups_filter L ipv4 config.proxyRules _).symm
  refine ⟨h, ?_, fun r hr => ?_⟩
  · unfold ResolveProxy; rw [h]
  · exact resolveGroups_chain L ipv4 config.proxyRules _ r hr

/-- C3, witness: in the scenario the chain returned for `93.1.1.1` is not the
fallback chain, so it starts with the non-empty proxy of a group. -/
theorem ResolveProxy_ignores_direct_groups_witness :
    ∃ g ∈ scenarioConfig.proxyRules, g.Proxy ≠ "" ∧ ["proxy1:1080"] = g.Proxy :: [] :=
  ((ResolveProxy_ignores_direct_groups.1 (goLib scenarioResolver) scenarioConfig "93.1.1.1" 0
    []).2.2 ["proxy1:1080"] (by decide)).resolve_left (by decide)

/-- C4: pattern classification is total, mutually exclusive and ordered
Domain, CIDR, Exact IP: the kind of a pattern is Domain iff the pattern
contains a letter, CIDR iff it contains no letter and contains `/`, Exact IP
iff it contains neither, and exactly one of the three holds; the tests
`isDomain` and `isCIDR` of the code decide it, and both `ResolveProxy` (the
body of its loop) and `ruleAsDirectorFunc` take the branch of that kind. -/
theorem pattern_classification (L : Lib) (rule : String) :
    (specKind L rule = .Domain ↔ ∃ c ∈ rule.data, L.IsLetter c = true) ∧
    (specKind L rule = .CIDR ↔
      (¬ ∃ c ∈ rule.data, L.IsLetter c = true) ∧ '/' ∈ rule.data) ∧
    (specKind L rule = .ExactIP ↔
      (¬ ∃ c ∈ rule.data, L.IsLetter c = true) ∧ '/' ∉ rule.data) ∧
    (isDomain L rule = true ↔ specKind L rule = .Domain) ∧
    ((isDomain L rule = false ∧ isCIDR rule = true) ↔ specKind L rule = .CIDR) ∧
    ((isDomain L rule = false ∧ isCIDR rule = false) ↔ specKind L rule = .ExactIP) ∧
    (∀ ipv4 proxy st, resolveRule L ipv4 proxy rule st =
      match specKind L rule with
      | .Domain => resolveDomain L ipv4 proxy rule st
      | .CIDR => resolveCIDR L ipv4 proxy rule st
      | .ExactIP => resolveExact ipv4 proxy rule st) ∧
    ruleAsDirectorFunc L rule =
      (match specKind L rule with
      | .Domain => directorDomain L rule
      | .CIDR => directorCIDR L rule
      | .ExactIP => directorExact L rule) := by
  have hk := specKind_eq L rule
  have hd := isDomain_iff L rule
  have hc := isCIDR_iff rule
  by_cases h1 : isDomain L rule = true
  · have e1 := hd.1 h1
    rw [if_pos h1] at hk
    simp [hk, h1, e1, resolveRule, ruleAsDirectorFunc]
  · have e1 : ¬ ∃ c ∈ rule.data, L.IsLetter c = true := fun h => h1 (hd.2 h)
    rw [if_neg h1] at hk
    have h1f : isDomain L rule = false := by simpa using h1
    by_cases h2 : isCIDR rule = true
    · have e2 := hc.1 h2
      rw [if_pos h2] at hk
      simp only [hk, h1f, h2, resolveRule, ruleAsDirectorFunc]
      simp only [e2, e1]
      simp
    · have e2 : '/' ∉ rule.data := fun h => h2 (hc.2 h)
      rw [if_neg h2] at hk
      have h2f : isCIDR rule = false := by simpa using h2
      simp only [hk, h1f, h2f, resolveRule, ruleAsDirectorFunc]
      simp only [e2, e1]
      simp

/-- C5: in `ResolveProxy` a pattern without a letter and without `/` in a
proxied group matches a destination iff the two strings are identical: the
loop body returns the chain with the proxy exactly then, and a configuration
with this single pattern resolves to the proxy before the fallback iff the
strings are equal, to the fallback otherwise. -/
theorem exact_pattern_string_equality (L : Lib) (ipv4 proxy rule : String) (port : Nat)
    (fallback : List String) (hletter : ∀ c ∈ rule.data, L.IsLetter c = false)
    (hslash : '/' ∉ rule.data) (hproxy : proxy ≠ "") :
    (∀ st, resolveRule L ipv4 proxy rule st =
      if rule = ipv4 then (.ok (some (proxy :: st.defaultProxyList)), st) else (.ok none, st)) ∧
    (specMatches L rule ipv4 = true ↔ rule = ipv4) ∧
    (ResolveProxy L ⟨[⟨proxy, [rule]⟩]⟩ ipv4 port fallback = .ok (proxy :: fallback) ↔
      rule = ipv4) ∧
    (ResolveProxy L ⟨[⟨proxy, [rule]⟩]⟩ ipv4 port fallback = .ok fallback ↔ rule ≠ ipv4) := by
  have h1 : isDomain L rule = false := by
    rw [Bool.eq_false_iff]
    intro h
    obtain ⟨c, hc, hl⟩ := (isDomain_iff L rule).1 h
    rw [hletter c hc] at hl
    exact absurd hl (by simp)
  have h2 : isCIDR rule = false := by
    rw [Bool.eq_false_iff]
    exact fun h => hslash ((isCIDR_iff rule).1 h)
  have hk : specKind L rule = .ExactIP := by rw [specKind_eq]; simp [h1, h2]
  have hrule : ∀ st, resolveRule L ipv4 proxy rule st =
      if rule = ipv4 then (.ok (some (proxy :: st.defaultProxyList)), st)
      else (.ok none, st) := by
    intro st
    simp [resolveRule, h1, h2, resolveExact, insert_eq_cons]
  have hres : ResolveProxy L ⟨[⟨proxy, [rule]⟩]⟩ ipv4 port fallback =
      if rule = ipv4 then .ok (proxy :: fallback) else .ok fallback := by
    simp only [ResolveProxy, ResolveProxyRun, resolveGroups, resolveRules, hrule, ne_eq,
      hproxy, not_false_eq_true, if_true]
    split_ifs <;> rfl
  refine ⟨hrule, by simp [specMatches, hk], ?_, ?_⟩
  · rw [hres]
    split_ifs with he
    · simp [he]
    · simp only [Except.ok.injEq, he, iff_false]
      exact fun h => cons_ne_self _ _ h.symm
  · rw [hres]
    split_ifs with he
    · simp only [Except.ok.injEq, he, ne_eq, not_true_eq_false, iff_false]
      exact cons_ne_self _ _
    · simp [he]

/-- C5, witness: the pattern `1.2.3.04` does not match the destination
`1.2.3.4`, and the pattern `1.2.3.4` matches it. -/
theorem exact_pattern_string_equality_witness :
    (∀ c ∈ ("1.2.3.04" : String).data, (goLib scenarioResolver).IsLetter c = false) ∧
    '/' ∉ ("1.2.3.04" : String).data ∧
    ResolveProxy (goLib scenarioResolver) ⟨[⟨"proxy1:1080", ["1.2.3.04"]⟩]⟩ "1.2.3.4" 0
      ["direct"] = .ok ["direct"] ∧
    ResolveProxy (goLib scenarioResolver) ⟨[⟨"proxy1:1080", ["1.2.3.4"]⟩]⟩ "1.2.3.4" 0
      ["direct"] = .ok ["proxy1:1080", "direct"] :=
  ⟨by decide, by decide,
    (exact_pattern_string_equality (goLib scenarioResolver) "1.2.3.4" "proxy1:1080" "1.2.3.04"
      0 ["direct"] (by decide) (by decide) (by decide)).2.2.2.2 (by decide),
    (exact_pattern_string_equality (goLib scenarioResolver) "1.2.3.4" "proxy1:1080" "1.2.3.4"
      0 ["direct"] (by decide) (by decide) (by decide)).2.2.1.2 rfl⟩

theorem replaceScan_single (o : Char) (new s : List Char) :
    replaceScan [o] new 0 s = (s.map (fun c => if c = o then new else [c])).flatten := by
  induction s with
  | nil => rfl
  | cons c s ih =>
    by_cases h : c = o
    · simp [replaceScan, hasPrefix, hasPrefix_nil, h, ih]
    · simp [replaceScan, hasPrefix, hasPrefix_nil, h, ih]

theorem domainPattern_data (rule : String) :
    (domainPattern rule).data = translateRule rule.data := by
  have h1 : ("." : String).data = ['.'] := rfl
  have h2 : ("*" : String).data = ['*'] := rfl
  have h3 : ("\\." : String).data = [Char.ofNat 92, '.'] := by decide
  have h4 : (".*" : String).data = ['.', '*'] := rfl
  unfold domainPattern Replace
  simp only [h1, h2, h3, h4, List.cons_ne_nil, if_false, replaceScan_single]
  generalize rule.data = s
  induction s with
  | nil => rfl
  | cons c s ih =>
    simp only [List.map_cons, List.flatten_cons, List.map_append, List.flatten_append, ih,
      translateRule, translateRune]
    congr 1
    by_cases hd : c = '.'
    · subst hd; decide
    · by_cases hs : c = '*'
      · subst hs; decide
      · simp [hd, hs]

theorem reParse_translateRule (s : List Char) (hplain : ∀ c ∈ s, plainRune c = true)
    (pending : Option ReAtom) :
    reParse pending false (translateRule s) = some (flushAtom pending ++ ruleItems s) := by
  induction s generalizing pending with
  | nil => simp [translateRule, reParse, ruleItems]
  | cons c s ih =>
    have hc := hplain c (List.mem_cons_self _ _)
    have hs : ∀ d ∈ s, plainRune d = true := fun d hd => hplain d (List.mem_cons_of_mem _ hd)
    simp only [plainRune, Bool.and_eq_true, Bool.not_eq_true', bne_iff_ne, ne_eq] at hc
    by_cases hd : c = '.'
    · subst hd
      have e1 : translateRule ('.' :: s) = Char.ofNat 92 :: '.' :: translateRule s := rfl
      rw [e1]
      have e2 : ∀ t, reParse pending false (Char.ofNat 92 :: t) =
          (reParse none true t).map (flushAtom pending ++ ·) := by
        intro t
        have a1 : ¬ (Char.ofNat 92 = '*') := by decide
        simp [reParse, a1]
      have e3 : ∀ t, reParse none true ('.' :: t) =
          (reParse (some (.lit '.')) false t).map (flushAtom none ++ ·) := by
        intro t; simp [reParse]
      rw [e2, e3, ih hs]
      simp [flushAtom, ruleItems]
    · by_cases hst : c = '*'
      · subst hst
        have e1 : translateRule ('*' :: s) = '.' :: '*' :: translateRule s := rfl
        rw [e1]
        have e2 : ∀ t, reParse pending false ('.' :: t) =
            (reParse (some .anyChar) false t).map (flushAtom pending ++ ·) := by
          intro t
          have a1 : ¬ ('.' = '*') := by decide
          have a2 : ¬ ('.' = Char.ofNat 92) := by decide
          have a3 : reOperator '.' = false := by decide
          simp [reParse, a1, a2, a3]
        have e3 : ∀ t, reParse (some .anyChar) false ('*' :: t) =
            (reParse none false t).map (⟨.anyChar, true⟩ :: ·) := by
          intro t; simp [reParse]
        rw [e2, e3, ih hs]
        simp [flushAtom, ruleItems]
      · have e1 : translateRule (c :: s) = c :: translateRule s := by
          simp [translateRule, translateRune, hd, hst]
        rw [e1]
        simp only [reParse, hst, if_false, hc.2, hc.1, Bool.false_eq_true, hd]
        rw [ih hs]
        simp [flushAtom, ruleItems, hst]

theorem matchStar_iff (a : ReAtom) (k : List Char → Bool) (s : List Char) :
    matchStar a k s = true ↔
      ∃ run rest, s = run ++ rest ∧ (∀ c ∈ run, atomOk a c = true) ∧ k rest = true := by
  induction s with
  | nil =>
    simp only [matchStar]
    constructor
    · intro h; exact ⟨[], [], rfl, by simp, h⟩
    · rintro ⟨run, rest, h1, _, h3⟩
      have : rest = [] := (List.append_eq_nil.1 h1.symm).2
      rw [this] at h3; exact h3
  | cons c s ih =>
    simp only [matchStar, Bool.or_eq_true, Bool.and_eq_true, ih]
    constructor
    · rintro (h | ⟨hc, run, rest, h1, h2, h3⟩)
      · exact ⟨[], c :: s, rfl, by simp, h⟩
      · refine ⟨c :: run, rest, by rw [h1]; rfl, ?_, h3⟩
        intro d hd
        rcases List.mem_cons.1 hd with rfl | hd
        · exact hc
        · exact h2 d hd
    · rintro ⟨run, rest, h1, h2, h3⟩
      cases run with
      | nil => left; simp only [List.nil_append] at h1; rw [h1]; exact h3
      | cons d run =>
        right
        simp only [List.cons_append, List.cons.injEq] at h1
        obtain ⟨rfl, h1⟩ := h1
        exact ⟨h2 c (List.mem_cons_self _ _), run, rest, h1,
          fun e he => h2 e (List.mem_cons_of_mem _ he), h3⟩

theorem globFits_star (gs s : List Char) :
    globFits ('*' :: gs) s = true ↔
      ∃ run rest, s = run ++ rest ∧ (∀ c ∈ run, c ≠ '\n') ∧ globFits gs rest = true := by
  simp only [globFits, if_true, List.any_eq_true, List.mem_range, Bool.and_eq_true,
    List.all_eq_true, bne_iff_ne, ne_eq]
  constructor
  · rintro ⟨k, _, h1, h2⟩
    exact ⟨s.take k, s.drop k, (List.take_append_drop k s).symm, h1, h2⟩
  · rintro ⟨run, rest, rfl, h1, h2⟩
    refine ⟨run.length, by simp; omega, ?_, ?_⟩
    · simpa using h1
    · simpa using h2

theorem matchHere_ruleItems (g s : List Char) :
    matchHere (ruleItems g) s = true ↔
      ∃ mid post, s = mid ++ post ∧ globFits g mid = true := by
  induction g generalizing s with
  | nil =>
    simp only [ruleItems, matchHere, true_iff]
    exact ⟨[], s, rfl, rfl⟩
  | cons c g ih =>
    by_cases hc : c = '*'
    · subst hc
      simp only [ruleItems, if_true, matchHere, matchStar_iff, atomOk, bne_iff_ne, ne_eq]
      constructor
      · rintro ⟨run, rest, h1, h2, h3⟩
        obtain ⟨mid, post, h4, h5⟩ := (ih rest).1 h3
        refine ⟨run ++ mid, post, by rw [h1, h4, List.append_assoc], ?_⟩
        exact (globFits_star g _).2 ⟨run, mid, rfl, h2, h5⟩
      · rintro ⟨mid, post, h1, h2⟩
        obtain ⟨run, rest, h3, h4, h5⟩ := (globFits_star g _).1 h2
        refine ⟨run, rest ++ post, by rw [h1, h3, List.append_assoc], h4, ?_⟩
        exact (ih _).2 ⟨rest, post, rfl, h5⟩
    · simp only [ruleItems, hc, if_false, matchHere]
      cases s with
      | nil =>
        simp only [Bool.false_eq_true, false_iff, not_exists, not_and]
        intro mid post h1 h2
        have : mid = [] := (List.append_eq_nil.1 h1.symm).1
        subst this
        simp [globFits, hc] at h2
      | cons d t =>
        simp only [Bool.and_eq_true, atomOk, beq_iff_eq, ih]
        constructor
        · rintro ⟨rfl, mid, post, h1, h2⟩
          exact ⟨c :: mid, post, by rw [h1]; rfl, by simp [globFits, hc, h2]⟩
        · rintro ⟨mid, post, h1, h2⟩
          cases mid with
          | nil => simp [globFits, hc] at h2
          | cons e mid =>
            simp only [globFits, hc, if_false, Bool.and_eq_true, beq_iff_eq] at h2
            simp only [List.cons_append, List.cons.injEq] at h1
            exact ⟨by rw [h1.1, h2.1], mid, post, h1.2, h2.2⟩

theorem reSearch_iff (items : List ReItem) (s : List Char) :
    reSearch items s = true ↔ ∃ pre rest, s = pre ++ rest ∧ matchHere items rest = true := by
  induction s with
  | nil =>
    simp only [reSearch]
    constructor
    · intro h; exact ⟨[], [], rfl, h⟩
    · rintro ⟨pre, rest, h1, h2⟩
      have : rest = [] := (List.append_eq_nil.1 h1.symm).2
      rw [this] at h2; exact h2
  | cons c s ih =>
    simp only [reSearch, Bool.or_eq_true, ih]
    constructor
    · rintro (h | ⟨pre, rest, h1, h2⟩)
      · exact ⟨[], c :: s, rfl, h⟩
      · exact ⟨c :: pre, rest, by rw [h1]; rfl, h2⟩
    · rintro ⟨pre, rest, h1, h2⟩
      cases pre with
      | nil => left; simp only [List.nil_append] at h1; rw [h1]; exact h2
      | cons d pre =>
        right
        simp only [List.cons_append, List.cons.injEq] at h1
        exact ⟨pre, rest, h1.2, h2⟩

theorem ResolveProxy_single_domain (L : Lib) (ipv4 proxy rule : String) (port : Nat)
    (fallback : List String) (re : String → Bool)
    (hd : isDomain L rule = true) (hc : L.Compile (domainPattern rule) = some re)
    (hproxy : proxy ≠ "") :
    ResolveProxy L ⟨[⟨proxy, [rule]⟩]⟩ ipv4 port fallback = .ok (proxy :: fallback) ↔
      L.findHostName ipv4 ≠ "" ∧ re (TrimSuffix (L.findHostName ipv4) ".") = true := by
  obtain ⟨h, tr, hn, _, heq⟩ := resolveDomain_some L ipv4 proxy rule
    { hostname := none, defaultProxyList := fallback, trace := [] } re hc
  have hh := hn rfl
  subst hh
  have hrule : resolveRule L ipv4 proxy rule
      { hostname := none, defaultProxyList := fallback, trace := [] } =
      resolveDomain L ipv4 proxy rule
        { hostname := none, defaultProxyList := fallback, trace := [] } := by
    unfold resolveRule
    rw [if_pos hd]
  simp only [ResolveProxy, ResolveProxyRun, resolveGroups, resolveRules, ne_eq, hproxy,
    not_false_eq_true, if_true, hrule, heq]
  by_cases he : L.findHostName ipv4 = ""
  · simp only [he, if_true, not_true_eq_false, false_and, iff_false]
    exact fun h => cons_ne_self _ _ (Except.ok.inj h).symm
  · by_cases hm : re (TrimSuffix (L.findHostName ipv4) ".") = true
    · simp [he, hm]
    · simp only [he, if_false, hm, Bool.false_eq_true, not_false_eq_true, and_false, iff_false]
      exact fun h => cons_ne_self _ _ (Except.ok.inj h).symm

/-- C6 (amended): a domain pattern is compiled into an unanchored regular
expression.  For a rule made of runes without a meaning of their own in a
regular expression, apart from `.` and `*`, the source built by the code
compiles, and the compiled expression matches a hostname exactly when some
contiguous part of the hostname fits the rule, every rune (also `.`) standing
for itself and `*` for any, possibly empty, run of runes other than a
newline; a proxied group holding such a rule alone is selected by
`ResolveProxy` exactly for the destinations with a non-empty hostname of which,
with the trailing `.` stripped, some contiguous part fits the rule. -/
theorem domain_pattern_unanchored (rule : String)
    (hplain : ∀ c ∈ rule.data, plainRune c = true) :
    ∃ re, goCompile (domainPattern rule) = some re ∧
      (∀ hostname : String, re hostname = true ↔
        ∃ pre mid post, hostname.data = pre ++ mid ++ post ∧
          globFits rule.data mid = true) ∧
      ∀ (resolver : String → String) (ipv4 proxy : String) (port : Nat)
        (fallback : List String),
        isDomain (goLib resolver) rule = true → proxy ≠ "" →
        (ResolveProxy (goLib resolver) ⟨[⟨proxy, [rule]⟩]⟩ ipv4 port fallback =
            .ok (proxy :: fallback) ↔
          resolver ipv4 ≠ "" ∧
            ∃ pre mid post, (TrimSuffix (resolver ipv4) ".").data = pre ++ mid ++ post ∧
              globFits rule.data mid = true) := by
  have hcomp : goCompile (domainPattern rule) =
      some (fun s => reSearch (ruleItems rule.data) s.data) := by
    unfold goCompile
    rw [domainPattern_data, reParse_translateRule rule.data hplain none]
    rfl
  have hmatch : ∀ hostname : String, reSearch (ruleItems rule.data) hostname.data = true ↔
      ∃ pre mid post, hostname.data = pre ++ mid ++ post ∧
        globFits rule.data mid = true := by
    intro hostname
    rw [reSearch_iff]
    constructor
    · rintro ⟨pre, rest, h1, h2⟩
      obtain ⟨mid, post, h3, h4⟩ := (matchHere_ruleItems rule.data rest).1 h2
      exact ⟨pre, mid, post, by rw [h1, h3, List.append_assoc], h4⟩
    · rintro ⟨pre, mid, post, h1, h2⟩
      exact ⟨pre, mid ++ post, by rw [h1, List.append_assoc],
        (matchHere_ruleItems rule.data _).2 ⟨mid, post, rfl, h2⟩⟩
  refine ⟨_, hcomp, hmatch, fun resolver ipv4 proxy port fallback hd hproxy => ?_⟩
  rw [ResolveProxy_single_domain (goLib resolver) ipv4 proxy rule port fallback _ hd hcomp
    hproxy]
  exact and_congr Iff.rfl (hmatch _)

/-- C6, witness: the rule `*.example.com` and the hostname
`www.example.com.evil.org`, whose part `www.example.com` fits the rule. -/
theorem domain_pattern_unanchored_witness :
    (∀ c ∈ ("*.example.com" : String).data, plainRune c = true) ∧
    ∃ re, goCompile (domainPattern "*.example.com") = some re ∧
      re "www.example.com.evil.org" = true := by
  obtain ⟨re, h1, h2, _⟩ := domain_pattern_unanchored "*.example.com" (by decide)
  exact ⟨by decide, re, h1,
    (h2 "www.example.com.evil.org").2
      ⟨[], "www.example.com".data, ".evil.org".data, by decide, by decide⟩⟩

/-- C6, counterexample: the pattern `example.com` matches the hostname
`notexample.com.evil.org` and `*.example.com` matches
`www.example.com.evil.org`, although neither hostname fits the pattern as a
whole; a destination with the first hostname is routed to the proxy of the
rule `example.com`. -/
theorem domain_pattern_anchored_counterexample :
    (goCompile (domainPattern "example.com")).map (fun re => re "notexample.com.evil.org") =
      some true ∧
    globFits "example.com".data "notexample.com.evil.org".data = false ∧
    (goCompile (domainPattern "*.example.com")).map (fun re => re "www.example.com.evil.org") =
      some true ∧
    globFits "*.example.com".data "www.example.com.evil.org".data = false ∧
    ResolveProxy (goLib foreignResolver) ⟨[⟨"proxy1:1080", ["example.com"]⟩]⟩ "6.6.6.6" 0 [] =
      .ok ["proxy1:1080"] := by
  decide

theorem ruleAsDirectorFunc_of_parses (L : Lib) (rule : String)
    (h : specUnparsable L rule = none) :
    ∃ f, ruleAsDirectorFunc L rule = .ok f ∧ ∀ ip, ∃ b, f ip = .ok b := by
  unfold specUnparsable at h
  rw [specKind_eq] at h
  unfold ruleAsDirectorFunc
  by_cases hd : isDomain L rule = true
  · simp only [hd, if_true] at h ⊢
    unfold directorDomain
    cases hc : L.Compile (domainPattern rule) with
    | none => rw [hc] at h; simp at h
    | some re =>
      refine ⟨_, rfl, fun ip => ?_⟩
      dsimp only
      split_ifs
      · exact ⟨false, rfl⟩
      · exact ⟨_, rfl⟩
  · simp only [hd, Bool.false_eq_true, if_false] at h ⊢
    by_cases hc : isCIDR rule = true
    · simp only [hc, if_true] at h ⊢
      unfold directorCIDR
      cases hp : L.ParseCIDR rule with
      | none => rw [hp] at h; simp at h
      | some net => exact ⟨_, rfl, fun ip => ⟨_, rfl⟩⟩
    · simp only [hc, Bool.false_eq_true, if_false]
      exact ⟨_, rfl, fun ip => ⟨_, rfl⟩⟩

theorem ruleAsDirectorFunc_total (L : Lib) (rule : String) (f : directorFunc)
    (h : ruleAsDirectorFunc L rule = .ok f) (ip : NetIP) : ∃ b, f ip = .ok b := by
  unfold ruleAsDirectorFunc directorDomain directorCIDR directorExact at h
  split_ifs at h
  · cases hc : L.Compile (domainPattern rule) with
    | none => rw [hc] at h; simp at h
    | some re =>
      rw [hc] at h
      simp only [Except.ok.injEq] at h
      subst h
      dsimp only
      split_ifs
      · exact ⟨false, rfl⟩
      · exact ⟨_, rfl⟩
  · cases hp : L.ParseCIDR rule with
    | none => rw [hp] at h; simp at h
    | some net =>
      rw [hp] at h
      simp only [Except.ok.injEq] at h
      subst h
      exact ⟨_, rfl⟩
  · simp only [Except.ok.injEq] at h
    subst h
    exact ⟨_, rfl⟩

theorem appendDirectors_eq (L : Lib) (rules : List String) (acc : List directorFunc) :
    appendDirectors L rules acc =
      match specDirectors L rules with
      | .error p => .error p
      | .ok fs => .ok (acc ++ fs) := by
  induction rules generalizing acc with
  | nil => simp [appendDirectors, specDirectors]
  | cons rule rules ih =>
    unfold appendDirectors specDirectors
    cases hr : ruleAsDirectorFunc L rule with
    | error p => rfl
    | ok f =>
      simp only
      rw [ih]
      cases specDirectors L rules with
      | error p => rfl
      | ok fs => simp

theorem specDirectors_append (L : Lib) (r1 r2 : List String) :
    specDirectors L (r1 ++ r2) =
      match specDirectors L r1 with
      | .error p => .error p
      | .ok f1 =>
        match specDirectors L r2 with
        | .error p => .error p
        | .ok f2 => .ok (f1 ++ f2) := by
  induction r1 with
  | nil =>
    simp only [List.nil_append, specDirectors]
    cases specDirectors L r2 <;> rfl
  | cons rule r1 ih =>
    simp only [List.cons_append, specDirectors]
    cases ruleAsDirectorFunc L rule with
    | error p => rfl
    | ok f =>
      simp only [List.append_eq]
      rw [ih]
      cases specDirectors L r1 with
      | error p => rfl
      | ok f1 =>
        simp only
        cases specDirectors L r2 <;> rfl

theorem collectDirectors_eq (L : Lib) (groups : List ProxyRule) (acc : List directorFunc) :
    collectDirectors L groups acc =
      match specDirectors L (directRules groups) with
      | .error p => .error p
      | .ok fs => .ok (acc ++ fs) := by
  induction groups generalizing acc with
  | nil => simp [collectDirectors, directRules, specDirectors]
  | cons g groups ih =>
    unfold collectDirectors directRules
    by_cases hp : g.Proxy = ""
    · simp only [hp, if_true]
      rw [appendDirectors_eq, specDirectors_append]
      cases specDirectors L g.Rules with
      | error p => rfl
      | ok f1 =>
        simp only
        rw [ih]
        cases specDirectors L (directRules groups) with
        | error p => rfl
        | ok f2 => simp
    · simp only [hp, if_false]
      exact ih acc

theorem DirectorFunc_true_eq (L : Lib) (config : proxyConfig) :
    DirectorFunc L config true = specDirectors L (directRules config.proxyRules) := by
  unfold DirectorFunc
  rw [collectDirectors_eq]
  cases specDirectors L (directRules config.proxyRules) <;> simp

theorem specDirectors_ok (L : Lib) (rules : List String)
    (h : ∀ rule ∈ rules, specUnparsable L rule = none) :
    ∃ fs, specDirectors L rules = .ok fs ∧ fs.length = rules.length ∧
      (∀ (i : Nat) (rule : String), rules[i]? = some rule →
        ∃ f, fs[i]? = some f ∧ ruleAsDirectorFunc L rule = .ok f) ∧
      ∀ f ∈ fs, ∀ ip, ∃ b, f ip = .ok b := by
  induction rules with
  | nil => exact ⟨[], rfl, rfl, by simp, by simp⟩
  | cons rule rules ih =>
    obtain ⟨fs, h1, h2, h3, h4⟩ := ih (fun r hr => h r (List.mem_cons_of_mem _ hr))
    obtain ⟨f, hf, hft⟩ := ruleAsDirectorFunc_of_parses L rule (h rule (List.mem_cons_self _ _))
    refine ⟨f :: fs, by simp [specDirectors, hf, h1], by simp [h2], ?_, ?_⟩
    · intro i r hi
      cases i with
      | zero =>
        simp only [List.getElem?_cons_zero, Option.some.injEq] at hi
        subst hi
        exact ⟨f, by simp, hf⟩
      | succ i =>
        simp only [List.getElem?_cons_succ] at hi ⊢
        exact h3 i r hi
    · intro g hg ip
      rcases List.mem_cons.1 hg with rfl | hg
      · exact hft ip
      · exact h4 g hg ip

theorem directRules_filter (groups : List ProxyRule) :
    directRules (groups.filter (fun g => g.Proxy == "")) = directRules groups := by
  induction groups with
  | nil => rfl
  | cons g groups ih =>
    by_cases hp : g.Proxy = ""
    · rw [List.filter_cons_of_pos (by simp [hp])]
      simp [directRules, hp, ih]
    · rw [List.filter_cons_of_neg (by simp [hp])]
      simp [directRules, hp, ih]

theorem directRules_length (groups : List ProxyRule) :
    (directRules groups).length =
      ((groups.filter (fun g => g.Proxy == "")).map (fun g => g.Rules.length)).sum := by
  induction groups with
  | nil => rfl
  | cons g groups ih =>
    by_cases hp : g.Proxy = ""
    · rw [List.filter_cons_of_pos (by simp [hp])]
      simp [directRules, hp, ih]
    · rw [List.filter_cons_of_neg (by simp [hp])]
      simp [directRules, hp, ih]

theorem anyDirector_iff (fs : List directorFunc) (ip : NetIP)
    (h : ∀ f ∈ fs, ∃ b, f ip = .ok b) :
    anyDirector fs ip = .ok true ↔ ∃ f ∈ fs, f ip = .ok true := by
  induction fs with
  | nil => simp [anyDirector]
  | cons f fs ih =>
    have ih := ih (fun g hg => h g (List.mem_cons_of_mem _ hg))
    obtain ⟨b, hb⟩ := h f (List.mem_cons_self _ _)
    unfold anyDirector
    rw [hb]
    cases b with
    | true => simp [hb]
    | false => simp [hb, ih]

/-- C7 (amended): when every pattern of the direct groups parses,
`DirectorFunc(true)` returns a list with exactly one predicate per pattern of
the groups with an empty proxy, flattened in file order: its length is the
total number of patterns of these groups, its i-th predicate is the one
`ruleAsDirectorFunc` builds from the i-th such pattern, and the groups with a
non-empty proxy contribute nothing (the result is the same without them). -/
theorem DirectorFunc_onlyNoProxy (L : Lib) (config : proxyConfig)
    (hparse : ∀ rule ∈ directRules config.proxyRules, specUnparsable L rule = none) :
    ∃ fs, DirectorFunc L config true = .ok fs ∧
      fs.length = (directRules config.proxyRules).length ∧
      (∀ (i : Nat) (rule : String), (directRules config.proxyRules)[i]? = some rule →
        ∃ f, fs[i]? = some f ∧ ruleAsDirectorFunc L rule = .ok f) ∧
      (directRules config.proxyRules).length =
        ((config.proxyRules.filter (fun g => g.Proxy == "")).map
          (fun g => g.Rules.length)).sum ∧
      DirectorFunc L ⟨config.proxyRules.filter (fun g => g.Proxy == "")⟩ true = .ok fs := by
  obtain ⟨fs, h1, h2, h3, _⟩ := specDirectors_ok L (directRules config.proxyRules) hparse
  refine ⟨fs, ?_, h2, h3, directRules_length _, ?_⟩
  · rw [DirectorFunc_true_eq, h1]
  · rw [DirectorFunc_true_eq, directRules_filter, h1]

/-- C7, witness: a rule file with three direct patterns in two groups around a
proxied group. -/
theorem DirectorFunc_onlyNoProxy_witness :
    directRules directConfig.proxyRules = ["10.0.0.0/8", "*.lan", "192.168.1.1"] ∧
    ∃ fs, DirectorFunc (goLib scenarioResolver) directConfig true = .ok fs ∧ fs.length = 3 := by
  obtain ⟨fs, h1, h2, _⟩ :=
    DirectorFunc_onlyNoProxy (goLib scenarioResolver) directConfig (by decide)
  exact ⟨by decide, fs, h1, h2⟩

/-- C7, counterexample: with the direct pattern `10.0.0.0/99`,
`DirectorFunc(true)` returns no list at all: it aborts while building the
predicate. -/
theorem DirectorFunc_onlyNoProxy_counterexample :
    abortOf (DirectorFunc (goLib scenarioResolver) brokenDirectConfig true) =
      some (.cidr "10.0.0.0/99") ∧
    ¬ ∃ fs, DirectorFunc (goLib scenarioResolver) brokenDirectConfig true = .ok fs := by
  have h : DirectorFunc (goLib scenarioResolver) brokenDirectConfig true =
      .error (.cidr "10.0.0.0/99") := rfl
  rw [h]
  exact ⟨rfl, fun ⟨fs, hfs⟩ => by cases hfs⟩

/-- C8 (amended): when every pattern of the direct groups parses,
`DirectorFunc(false)` returns a list of exactly one predicate, and for every
destination address that predicate is true iff `ResolveProxy` on the textual
form of the address with an empty fallback chain returns an empty chain and at
least one predicate of `DirectorFunc(true)` is true for the address. -/
theorem DirectorFunc_composite (L : Lib) (config : proxyConfig)
    (hparse : ∀ rule ∈ directRules config.proxyRules, specUnparsable L rule = none) :
    ∃ fs pd, DirectorFunc L config true = .ok fs ∧
      DirectorFunc L config false = .ok [pd] ∧
      ∀ ip, pd ip = .ok true ↔
        (ResolveProxy L config (L.IPString ip) 0 [] = .ok [] ∧ ∃ f ∈ fs, f ip = .ok true) := by
  obtain ⟨fs, h1, _, _, h4⟩ := specDirectors_ok L (directRules config.proxyRules) hparse
  have hc : collectDirectors L config.proxyRules [] = .ok fs := by
    rw [collectDirectors_eq, h1]; simp
  refine ⟨fs, proxyDirector L config fs, ?_, ?_, fun ip => ?_⟩
  · rw [DirectorFunc_true_eq, h1]
  · simp [DirectorFunc, hc]
  · unfold proxyDirector
    cases hr : ResolveProxy L config (L.IPString ip) 0 [] with
    | error p => simp
    | ok chain =>
      cases chain with
      | nil =>
        simp only [List.length_nil, gt_iff_lt, lt_self_iff_false, if_false, true_and]
        exact anyDirector_iff fs ip (fun f hf => h4 f hf ip)
      | cons a chain => simp

/-- C8, witness: in the scenario of the specification the composite predicate
accepts `10.0.0.5` (no proxy, inside the direct subnet) and rejects
`93.1.1.1` (routed to a proxy). -/
theorem DirectorFunc_composite_witness :
    ∃ pd, DirectorFunc (goLib scenarioResolver) scenarioConfig false = .ok [pd] ∧
      pd [10, 0, 0, 5] = .ok true ∧ pd [93, 1, 1, 1] ≠ .ok true := by
  obtain ⟨fs, pd, h1, h2, h3⟩ :=
    DirectorFunc_composite (goLib scenarioResolver) scenarioConfig (by decide)
  have hfs : fs = [fun ptestip => .ok (ptestip.length == 4 &&
      ipValue ptestip / 2 ^ (32 - 8) == ipValue [10, 0, 0, 0] / 2 ^ (32 - 8))] := by
    have h4 : DirectorFunc (goLib scenarioResolver) scenarioConfig true = .ok _ := rfl
    rw [h1] at h4
    exact Except.ok.inj h4
  refine ⟨pd, h2, (h3 _).2 ⟨by decide, ?_⟩, fun h => ?_⟩
  · rw [hfs]
    exact ⟨_, List.mem_singleton.2 rfl, by decide⟩
  · have := ((h3 _).1 h).1
    revert this
    decide

/-- C8, counterexample: with the direct pattern `10.0.0.0/99` next to a
proxied group, `DirectorFunc(false)` returns no list: it aborts while building
the direct predicates. -/
theorem DirectorFunc_composite_counterexample :
    abortOf (DirectorFunc (goLib scenarioResolver) brokenDirectMixedConfig false) =
      some (.cidr "10.0.0.0/99") ∧
    ¬ ∃ pd, DirectorFunc (goLib scenarioResolver) brokenDirectMixedConfig false = .ok [pd] := by
  have h : DirectorFunc (goLib scenarioResolver) brokenDirectMixedConfig false =
      .error (.cidr "10.0.0.0/99") := rfl
  rw [h]
  exact ⟨rfl, fun ⟨fs, hfs⟩ => by cases hfs⟩

theorem trackSwitch_other (left right : String) (v : trackScan)
    (h : isTrackKey left = false) : trackSwitch left right v = v := by
  simp only [isTrackKey, Bool.or_eq_false_iff, beq_eq_false_iff_ne, ne_eq] at h
  obtain ⟨⟨⟨h1, h2⟩, h3⟩, h4⟩ := h
  simp [trackSwitch, h1, h2, h3, h4]

theorem foldl_trackWord (words : List String) (v : trackScan) :
    words.foldl trackWord v =
      (words.filterMap (fun txt =>
        match cutAt '=' txt.data with
        | none => none
        | some (left, right) =>
          if left ≠ [] ∧ isTrackKey ⟨left⟩ = true then some ((⟨left⟩ : String), (⟨right⟩ : String))
          else none)).foldl (fun v t => trackSwitch t.1 t.2 v) v := by
  induction words generalizing v with
  | nil => rfl
  | cons txt words ih =>
    simp only [List.foldl_cons, List.filterMap_cons]
    unfold trackWord
    cases hc : cutAt '=' txt.data with
    | none => simp only; exact ih v
    | some lr =>
      obtain ⟨left, right⟩ := lr
      simp only
      by_cases hl : left = []
      · simp only [hl, if_true, ne_eq, not_true_eq_false, false_and, if_false]
        exact ih v
      · by_cases hk : isTrackKey ⟨left⟩ = true
        · simp only [hl, if_false, ne_eq, not_false_eq_true, hk, and_self, if_true,
            List.foldl_cons]
          exact ih _
        · simp only [hl, if_false, ne_eq, not_false_eq_true, hk, and_false]
          have hk2 : isTrackKey ⟨left⟩ = false := by simpa using hk
          rw [trackSwitch_other _ _ _ hk2]
          exact ih v

/-- C9: conntrack line parsing is positional.  For every line that carries the
` udp ` marker and whose `src`, `dst`, `sport`, `dport` tokens are those of
the original direction followed by those of the reply direction,
`parseConnTrackLine` yields the record with localSource = first src `:` first
sport, localDestination = first dst `:` first dport, remoteSource = second src
`:` second sport, remoteDestination = second dst `:` second dport and
proxyPort = second sport, whatever the eight values are; a line without the
marker yields no record. -/
theorem parseConnTrackLine_positional (line : String) :
    (∀ src1 dst1 sport1 dport1 src2 dst2 sport2 dport2 : String,
      Contains line " udp " = true →
      trackTokens line =
        [("src", src1), ("dst", dst1), ("sport", sport1), ("dport", dport1),
          ("src", src2), ("dst", dst2), ("sport", sport2), ("dport", dport2)] →
      parseConnTrackLine line =
        some
          { l_src := src1 ++ ":" ++ sport1
            l_dst := dst1 ++ ":" ++ dport1
            r_src := src2 ++ ":" ++ sport2
            r_dst := dst2 ++ ":" ++ dport2
            proxyPort := sport2 }) ∧
    (Contains line " udp " = false → parseConnTrackLine line = none) := by
  constructor
  · intro src1 dst1 sport1 dport1 src2 dst2 sport2 dport2 hudp htok
    unfold parseConnTrackLine
    unfold trackTokens at htok
    simp only [hudp, Bool.not_true, Bool.false_eq_true, if_false, foldl_trackWord, htok]
    have e1 : ¬ (("dst" : String) = "src") := by decide
    have e2 : ¬ (("dst" : String) = "sport") := by decide
    have e3 : ¬ (("sport" : String) = "src") := by decide
    have e4 : ¬ (("dport" : String) = "src") := by decide
    have e5 : ¬ (("dport" : String) = "sport") := by decide
    have e6 : ¬ (("dport" : String) = "dst") := by decide
    have e7 : ("" : String) ++ ":" = ":" := by decide
    simp [trackSwitch, e1, e2, e3, e4, e5, e6, e7]
  · intro h
    simp [parseConnTrackLine, h]

/-- C9, witness: a row of the table as the kernel prints it, then a row whose
two directions carry equal values. -/
theorem parseConnTrackLine_positional_witness :
    parseConnTrackLine sampleRow =
      some ⟨"192.168.1.2:40000", "8.8.8.8:53", "192.168.1.1:3129", "192.168.1.2:40000",
        "3129"⟩ ∧
    parseConnTrackLine " udp src=1.1.1.1 dst=1.1.1.1 sport=53 dport=53 src=1.1.1.1 dst=1.1.1.1 sport=53 dport=53" =
      some ⟨"1.1.1.1:53", "1.1.1.1:53", "1.1.1.1:53", "1.1.1.1:53", "53"⟩ ∧
    parseConnTrackLine sampleTcpRow = none :=
  ⟨(parseConnTrackLine_positional sampleRow).1 "192.168.1.2" "8.8.8.8" "40000" "53"
      "192.168.1.1" "192.168.1.2" "3129" "40000" (by decide) (by decide),
    (parseConnTrackLine_positional _).1 "1.1.1.1" "1.1.1.1" "53" "53" "1.1.1.1" "1.1.1.1" "53"
      "53" (by decide) (by decide),
    (parseConnTrackLine_positional sampleTcpRow).2 (by decide)⟩

theorem scanTable_find (ut : udpTrack) (lines : List String) (last : String) :
    scanTable ut lines (some last) =
      match (lines ++ [last]).find?
          (fun line => match parseConnTrackLine line with
            | none => false
            | some track => track.matches ut) with
      | some line => .ok { ut with l_dst := rowDestination line }
      | none => .error .notFound := by
  induction lines with
  | nil =>
    simp only [scanTable, List.nil_append, List.find?_cons, List.find?_nil, rowDestination]
    cases hp : parseConnTrackLine last with
    | none => rfl
    | some track =>
      simp only
      cases hm : track.matches ut <;> simp [hp]
  | cons line lines ih =>
    simp only [scanTable, List.cons_append, List.find?_cons, rowDestination]
    cases hp : parseConnTrackLine line with
    | none => simpa using ih
    | some track =>
      simp only
      cases hm : track.matches ut
      · simpa using ih
      · simp [hp]

theorem readStrings_lines (s : List Char) :
    (((readStrings s).1.map String.data).flatten ++ (readStrings s).2.data = s) ∧
    (∀ l ∈ (readStrings s).1, ∃ body, l.data = body ++ ['\n'] ∧ '\n' ∉ body) ∧
    '\n' ∉ (readStrings s).2.data := by
  induction s with
  | nil => simp [readStrings]
  | cons c s ih =>
    obtain ⟨h1, h2, h3⟩ := ih
    unfold readStrings
    by_cases hc : c = '\n'
    · subst hc
      simp only [if_true, List.map_cons, List.flatten_cons, List.mem_cons, forall_eq_or_imp]
      refine ⟨?_, ⟨⟨[], by decide, by simp⟩, h2⟩, h3⟩
      simp only [List.singleton_append, List.cons_append, List.nil_append, List.cons.injEq,
        true_and]
      exact h1
    · simp only [hc, if_false]
      cases hl : (readStrings s).1 with
      | nil =>
        rw [hl] at h1 h2
        simp only [List.map_nil, List.flatten_nil, List.nil_append] at h1 ⊢
        refine ⟨by rw [h1], by simp, ?_⟩
        simp only [List.mem_cons, not_or]
        exact ⟨fun h => hc h.symm, h3⟩
      | cons l ls =>
        rw [hl] at h1 h2
        simp only [List.map_cons, List.flatten_cons, List.cons_append, List.mem_cons,
          forall_eq_or_imp, List.cons.injEq, true_and] at h1 h2 ⊢
        refine ⟨h1, ⟨?_, h2.2⟩, h3⟩
        obtain ⟨body, hb1, hb2⟩ := h2.1
        refine ⟨c :: body, by rw [hb1]; rfl, ?_⟩
        simp only [List.mem_cons, not_or]
        exact ⟨fun h => hc h.symm, hb2⟩

/-- C10: `ConntrackLookup` over a table and a query (client address, listening
port).  The lines of the table, in order, make up its contents, and only the
last may lack a newline.  The lookup succeeds with the localDestination of the
first line, top to bottom, that is a UDP row whose remoteDestination equals
the client address and whose proxyPort equals the listening port, and fails
with `notFound` iff no line is such a row; a table without UDP rows yields
`notFound` for every query. -/
theorem ConntrackLookup_first_match (contents remoteAddr : String) (localPort : Nat) :
    (((tableRows contents).map String.data).flatten = contents.data ∧
      ∀ line ∈ (tableRows contents).dropLast, ∃ body, line.data = body ++ ['\n']) ∧
    (getOriginalUdpDst (some (tableOf contents)) remoteAddr localPort =
      match (tableRows contents).find? (rowMatches remoteAddr localPort) with
      | some line => .ok (rowDestination line)
      | none => .error .notFound) ∧
    (getOriginalUdpDst (some (tableOf contents)) remoteAddr localPort = .error .notFound ↔
      ∀ line ∈ tableRows contents, rowMatches remoteAddr localPort line = false) ∧
    ((∀ line ∈ tableRows contents, Contains line " udp " = false) →
      getOriginalUdpDst (some (tableOf contents)) remoteAddr localPort = .error .notFound) := by
  have hfun : (fun line => match parseConnTrackLine line with
      | none => false
      | some track => track.matches ⟨"", "", "", remoteAddr, toString localPort⟩) =
      rowMatches remoteAddr localPort := by
    funext line
    unfold rowMatches udpTrack.matches
    cases parseConnTrackLine line <;> rfl
  have h1 : getOriginalUdpDst (some (tableOf contents)) remoteAddr localPort =
      match (tableRows contents).find? (rowMatches remoteAddr localPort) with
      | some line => .ok (rowDestination line)
      | none => .error .notFound := by
    unfold getOriginalUdpDst getMatchedOriginalUdpDst tableOf tableRows
    simp only [scanTable_find, hfun]
    cases (((readStrings contents.data).1 ++ [(readStrings contents.data).2]).find?
      (rowMatches remoteAddr localPort)) <;> rfl
  have hrows := readStrings_lines contents.data
  refine ⟨⟨?_, ?_⟩, h1, ?_, ?_⟩
  · unfold tableRows
    simpa using hrows.1
  · intro line hl
    unfold tableRows at hl
    rw [List.dropLast_concat] at hl
    obtain ⟨body, hb, _⟩ := hrows.2.1 line hl
    exact ⟨body, hb⟩
  · rw [h1]
    cases hf : (tableRows contents).find? (rowMatches remoteAddr localPort) with
    | none =>
      simp only [true_iff]
      intro line hl
      have := List.find?_eq_none.1 hf line hl
      simpa using this
    | some line =>
      have h2 := List.find?_some hf
      have h3 := List.mem_of_find?_eq_some hf
      constructor
      · intro h; cases h
      · intro h
        rw [h line h3] at h2
        cases h2
  · intro hudp
    rw [h1]
    have : (tableRows contents).find? (rowMatches remoteAddr localPort) = none := by
      rw [List.find?_eq_none]
      intro line hl
      have h2 := hudp line hl
      simp [rowMatches, parseConnTrackLine, h2]
    rw [this]

/-- C10, witness: in a table with a TCP row and two UDP rows of the same
client, the first UDP row decides; a table holding only the TCP row has no
answer. -/
theorem ConntrackLookup_first_match_witness :
    getOriginalUdpDst (some (tableOf (sampleTcpRow ++ sampleRow ++ sampleLaterRow)))
      "192.168.1.2:40000" 3129 = .ok "8.8.8.8:53" ∧
    getOriginalUdpDst (some (tableOf sampleTcpRow)) "192.168.1.2:40000" 3129 =
      .error .notFound :=
  ⟨by
    rw [(ConntrackLookup_first_match _ _ _).2.1]
    decide,
   (ConntrackLookup_first_match sampleTcpRow "192.168.1.2:40000" 3129).2.2.2 (by decide)⟩

/-- Why the statements on matching ask for `singleDot`: the memoised hostname
is stripped again at every domain pattern, so the second pattern below is
compared with `m` although the hostname with its trailing `.` stripped is
`m.`, which the pattern matches. -/
theorem repeated_trim_example :
    ¬ singleDot (dottedResolver "7.7.7.7") ∧
    specMatches (goLib dottedResolver) "m." "7.7.7.7" = true ∧
    ResolveProxy (goLib dottedResolver) ⟨[⟨"proxy1:1080", ["x", "m."]⟩]⟩ "7.7.7.7" 0 [] =
      .ok [] ∧
    (ResolveProxyRun (goLib dottedResolver) ⟨[⟨"proxy1:1080", ["x", "m."]⟩]⟩ "7.7.7.7" 0
      []).2.trace =
      [.lookup "7.7.7.7", .matchString "x" "m.", .matchString "m." "m"] := by
  decide

set_option maxRecDepth 100000

/-! ## Lemmas: lookups, empty host names and aborts -/

theorem resolvePairs_cons_next (L : Lib) (ipv4 proxy rule : String)
    (rest : List (String × String)) (st : ResolveState)
    (h : (resolveRule L ipv4 proxy rule st).1 = .ok none) :
    resolvePairs L ipv4 ((proxy, rule) :: rest) st =
      resolvePairs L ipv4 rest (resolveRule L ipv4 proxy rule st).2 := by
  rw [resolvePairs]
  split
  · next st1 heq => rw [heq]
  · next hne =>
    have heq : resolveRule L ipv4 proxy rule st =
        (Except.ok none, (resolveRule L ipv4 proxy rule st).2) := Prod.ext h rfl
    exact absurd heq (hne _)

theorem resolvePairs_cons_stop (L : Lib) (ipv4 proxy rule : String)
    (rest : List (String × String)) (st : ResolveState)
    (h : (resolveRule L ipv4 proxy rule st).1 ≠ .ok none) :
    resolvePairs L ipv4 ((proxy, rule) :: rest) st = resolveRule L ipv4 proxy rule st := by
  rw [resolvePairs]
  split
  · next st1 heq => rw [heq] at h; exact absurd rfl h
  · rfl

theorem resolvePairs_append_next (L : Lib) (ipv4 : String) (a b : List (String × String))
    (st : ResolveState) (h : (resolvePairs L ipv4 a st).1 = .ok none) :
    resolvePairs L ipv4 (a ++ b) st = resolvePairs L ipv4 b (resolvePairs L ipv4 a st).2 := by
  induction a generalizing st with
  | nil => rfl
  | cons pr a ih =>
    obtain ⟨proxy, rule⟩ := pr
    by_cases hr : (resolveRule L ipv4 proxy rule st).1 = .ok none
    · rw [List.cons_append, resolvePairs_cons_next L ipv4 proxy rule _ st hr]
      rw [resolvePairs_cons_next L ipv4 proxy rule _ st hr] at h ⊢
      exact ih _ h
    · rw [resolvePairs_cons_stop L ipv4 proxy rule _ st hr] at h
      exact absurd h hr

theorem resolvePairs_append_stop (L : Lib) (ipv4 : String) (a b : List (String × String))
    (st : ResolveState) (h : (resolvePairs L ipv4 a st).1 ≠ .ok none) :
    resolvePairs L ipv4 (a ++ b) st = resolvePairs L ipv4 a st := by
  induction a generalizing st with
  | nil => exact absurd rfl h
  | cons pr a ih =>
    obtain ⟨proxy, rule⟩ := pr
    by_cases hr : (resolveRule L ipv4 proxy rule st).1 = .ok none
    · rw [List.cons_append, resolvePairs_cons_next L ipv4 proxy rule _ st hr]
      rw [resolvePairs_cons_next L ipv4 proxy rule _ st hr] at h ⊢
      exact ih _ h
    · rw [List.cons_append, resolvePairs_cons_stop L ipv4 proxy rule _ st hr,
        resolvePairs_cons_stop L ipv4 proxy rule _ st hr]

theorem resolveRules_eq_pairs (L : Lib) (ipv4 proxy : String) (rules : List String)
    (st : ResolveState) :
    resolveRules L ipv4 proxy rules st =
      resolvePairs L ipv4 (rules.map (fun rule => (proxy, rule))) st := by
  induction rules generalizing st with
  | nil => rfl
  | cons rule rules ih =>
    by_cases hr : (resolveRule L ipv4 proxy rule st).1 = .ok none
    · rw [List.map_cons, resolveRules_cons_next L ipv4 proxy rule rules st hr,
        resolvePairs_cons_next L ipv4 proxy rule _ st hr]
      exact ih _
    · rw [List.map_cons, resolveRules_cons_stop L ipv4 proxy rule rules st hr,
        resolvePairs_cons_stop L ipv4 proxy rule _ st hr]

/-- `ResolveProxy` in terms of the scan of the flattened proxied patterns. -/
theorem resolveGroups_eq_pairs (L : Lib) (ipv4 : String) (groups : List ProxyRule)
    (st : ResolveState) :
    resolveGroups L ipv4 groups st =
      match resolvePairs L ipv4 (proxiedRules groups) st with
      | (.ok none, st1) => (.ok st1.defaultProxyList, st1)
      | (.ok (some chain), st1) => (.ok chain, st1)
      | (.error p, st1) => (.error p, st1) := by
  induction groups generalizing st with
  | nil => rfl
  | cons g groups ih =>
    unfold resolveGroups proxiedRules
    by_cases hp : g.Proxy = ""
    · simp only [hp, ne_eq, not_true_eq_false, if_false, if_true]
      exact ih st
    · simp only [hp, ne_eq, not_false_eq_true, if_true, if_false]
      rw [resolveRules_eq_pairs]
      by_cases hr : (resolvePairs L ipv4 (g.Rules.map (fun rule => (g.Proxy, rule))) st).1 =
          .ok none
      · rw [resolvePairs_append_next L ipv4 _ _ st hr]
        have heq : resolvePairs L ipv4 (g.Rules.map (fun rule => (g.Proxy, rule))) st =
            (Except.ok none, (resolvePairs L ipv4
              (g.Rules.map (fun rule => (g.Proxy, rule))) st).2) := Prod.ext hr rfl
        rw [heq]
        exact ih _
      · rw [resolvePairs_append_stop L ipv4 _ _ st hr]
        generalize resolvePairs L ipv4 (g.Rules.map (fun rule => (g.Proxy, rule))) st = r at hr
        obtain ⟨flow, st1⟩ := r
        cases flow with
        | error p => rfl
        | ok o =>
          cases o with
          | none => exact absurd rfl hr
          | some chain => rfl

theorem lookupCount_append (a b : List Event) :
    lookupCount (a ++ b) = lookupCount a + lookupCount b := by
  simp [lookupCount]

theorem resolveRule_nonDomain (L : Lib) (ipv4 proxy rule : String) (st : ResolveState)
    (hd : isDomain L rule = false) : (resolveRule L ipv4 proxy rule st).2 = st := by
  unfold resolveRule
  rw [if_neg (by simp [hd])]
  unfold resolveCIDR resolveExact
  split_ifs
  · cases L.ParseCIDR rule with
    | none => rfl
    | some net => dsimp only; split_ifs <;> rfl
  · rfl
  · rfl

theorem resolveDomain_lookupInv (L : Lib) (ipv4 proxy rule : String) (st : ResolveState)
    (h : LookupInv ipv4 st) : LookupInv ipv4 (resolveDomain L ipv4 proxy rule st).2 := by
  obtain ⟨h1, h2, h3⟩ := h
  unfold resolveDomain
  cases L.Compile (domainPattern rule) with
  | none => exact ⟨h1, h2, h3⟩
  | some re =>
    cases hh : st.hostname with
    | none =>
      have h0 := h2 hh
      have hl : lookupCount (st.trace ++ [Event.lookup ipv4]) = 1 := by
        rw [lookupCount_append, h0]; rfl
      have hm : ∀ e ∈ st.trace ++ [Event.lookup ipv4], e.isLookup = true →
          e = .lookup ipv4 := by
        intro e he hlk
        rcases List.mem_append.1 he with he | he
        · exact h3 e he hlk
        · simpa using he
      dsimp only
      split_ifs
      · exact ⟨by rw [hl], fun hn => by simp at hn, hm⟩
      · refine ⟨?_, fun hn => by simp at hn, ?_⟩
        · show lookupCount ((st.trace ++ [Event.lookup ipv4]) ++ [_]) ≤ 1
          rw [lookupCount_append, hl]; simp [lookupCount, Event.isLookup]
        · intro e he hlk
          rcases List.mem_append.1 he with he | he
          · exact hm e he hlk
          · simp only [List.mem_singleton] at he
            subst he
            simp [Event.isLookup] at hlk
      · refine ⟨?_, fun hn => by simp at hn, ?_⟩
        · show lookupCount ((st.trace ++ [Event.lookup ipv4]) ++ [_]) ≤ 1
          rw [lookupCount_append, hl]; simp [lookupCount, Event.isLookup]
        · intro e he hlk
          rcases List.mem_append.1 he with he | he
          · exact hm e he hlk
          · simp only [List.mem_singleton] at he
            subst he
            simp [Event.isLookup] at hlk
    | some v =>
      simp only [hh, Option.getD_some]
      split_ifs
      · exact ⟨h1, h2, h3⟩
      · refine ⟨?_, fun hn => by simp at hn, ?_⟩
        · show lookupCount (st.trace ++ [_]) ≤ 1
          rw [lookupCount_append]; simpa [lookupCount, Event.isLookup] using h1
        · intro e he hlk
          rcases List.mem_append.1 he with he | he
          · exact h3 e he hlk
          · simp only [List.mem_singleton] at he
            subst he
            simp [Event.isLookup] at hlk
      · refine ⟨?_, fun hn => by simp at hn, ?_⟩
        · show lookupCount (st.trace ++ [_]) ≤ 1
          rw [lookupCount_append]; simpa [lookupCount, Event.isLookup] using h1
        · intro e he hlk
          rcases List.mem_append.1 he with he | he
          · exact h3 e he hlk
          · simp only [List.mem_singleton] at he
            subst he
            simp [Event.isLookup] at hlk

theorem resolveRule_lookupInv (L : Lib) (ipv4 proxy rule : String) (st : ResolveState)
    (h : LookupInv ipv4 st) : LookupInv ipv4 (resolveRule L ipv4 proxy rule st).2 := by
  by_cases hd : isDomain L rule = true
  · unfold resolveRule
    rw [if_pos hd]
    exact resolveDomain_lookupInv L ipv4 proxy rule st h
  · rw [resolveRule_nonDomain L ipv4 proxy rule st (by simpa using hd)]
    exact h

theorem resolvePairs_lookupInv (L : Lib) (ipv4 : String) (pairs : List (String × String))
    (st : ResolveState) (h : LookupInv ipv4 st) :
    LookupInv ipv4 (resolvePairs L ipv4 pairs st).2 := by
  induction pairs generalizing st with
  | nil => exact h
  | cons pr pairs ih =>
    obtain ⟨proxy, rule⟩ := pr
    have h1 := resolveRule_lookupInv L ipv4 proxy rule st h
    by_cases hr : (resolveRule L ipv4 proxy rule st).1 = .ok none
    · rw [resolvePairs_cons_next L ipv4 proxy rule _ st hr]
      exact ih _ h1
    · rw [resolvePairs_cons_stop L ipv4 proxy rule _ st hr]
      exact h1

theorem resolvePairs_nonDomain (L : Lib) (ipv4 : String) (pairs : List (String × String))
    (st : ResolveState) (h : ∀ pr ∈ pairs, isDomain L pr.2 = false) :
    (resolvePairs L ipv4 pairs st).2 = st := by
  induction pairs generalizing st with
  | nil => rfl
  | cons pr pairs ih =>
    obtain ⟨proxy, rule⟩ := pr
    have h1 := resolveRule_nonDomain L ipv4 proxy rule st (h _ (List.mem_cons_self _ _))
    by_cases hr : (resolveRule L ipv4 proxy rule st).1 = .ok none
    · rw [resolvePairs_cons_next L ipv4 proxy rule _ st hr, h1]
      exact ih _ (fun q hq => h q (List.mem_cons_of_mem _ hq))
    · rw [resolvePairs_cons_stop L ipv4 proxy rule _ st hr, h1]

theorem ResolveProxyRun_state (L : Lib) (config : proxyConfig) (ipv4 : String) (port : Nat)
    (fallback : List String) :
    (ResolveProxyRun L config ipv4 port fallback).2 =
      (resolvePairs L ipv4 (proxiedRules config.proxyRules) (startState fallback)).2 := by
  unfold ResolveProxyRun
  rw [resolveGroups_eq_pairs]
  unfold startState
  generalize resolvePairs L ipv4 (proxiedRules config.proxyRules)
    { hostname := none, defaultProxyList := fallback, trace := [] } = r
  obtain ⟨flow, st1⟩ := r
  cases flow with
  | error p => rfl
  | ok o => cases o <;> rfl

theorem resolveRule_nonDomain_flow (L : Lib) (ipv4 proxy rule : String) (st : ResolveState)
    (hd : isDomain L rule = false) :
    (resolveRule L ipv4 proxy rule st).1 = specFlow L ipv4 st.defaultProxyList proxy rule := by
  have hk := specKind_eq L rule
  rw [if_neg (by simp [hd])] at hk
  unfold resolveRule specFlow specUnparsable specMatches
  rw [if_neg (by simp [hd])]
  by_cases hc : isCIDR rule = true
  · rw [if_pos hc] at hk ⊢
    rw [hk]
    unfold resolveCIDR
    cases L.ParseCIDR rule with
    | none => simp
    | some net =>
      by_cases hm : net (L.ParseIP ipv4) = true
      · simp [hm, insert_eq_cons]
      · simp [hm]
  · rw [if_neg hc] at hk ⊢
    rw [hk]
    unfold resolveExact
    by_cases hm : rule = ipv4
    · simp [hm, insert_eq_cons]
    · simp [hm]

/-- C16: during one `ResolveProxy` call `findHostName` is invoked at most
once, whatever the number of domain patterns, and only for the destination; it
is not invoked when the proxied groups hold no domain pattern, nor when the
proxied patterns up to and including a matching one, in file order, hold no
domain pattern. -/
theorem ResolveProxy_lookup_once (L : Lib) (config : proxyConfig) (ipv4 : String)
    (port : Nat) (fallback : List String) :
    lookupCount (ResolveProxyRun L config ipv4 port fallback).2.trace ≤ 1 ∧
    (∀ e ∈ (ResolveProxyRun L config ipv4 port fallback).2.trace,
      e.isLookup = true → e = .lookup ipv4) ∧
    ((∀ pr ∈ proxiedRules config.proxyRules, isDomain L pr.2 = false) →
      lookupCount (ResolveProxyRun L config ipv4 port fallback).2.trace = 0) ∧
    (∀ before proxy rule after,
      proxiedRules config.proxyRules = before ++ (proxy, rule) :: after →
      (∀ pr ∈ before, isDomain L pr.2 = false) → isDomain L rule = false →
      specMatches L rule ipv4 = true →
      lookupCount (ResolveProxyRun L config ipv4 port fallback).2.trace = 0) := by
  have hstart : LookupInv ipv4 (startState fallback) :=
    ⟨by simp [startState, lookupCount], fun _ => rfl, by simp [startState]⟩
  have hinv := resolvePairs_lookupInv L ipv4 (proxiedRules config.proxyRules) _ hstart
  rw [ResolveProxyRun_state]
  refine ⟨hinv.1, hinv.2.2, fun hnd => ?_, fun before proxy rule after hsplit hbefore hrule hm => ?_⟩
  · rw [resolvePairs_nonDomain L ipv4 _ _ hnd]; rfl
  · have hreach : ∀ pr ∈ before ++ [(proxy, rule)], isDomain L pr.2 = false := by
      intro pr hpr
      rcases List.mem_append.1 hpr with h | h
      · exact hbefore pr h
      · simp only [List.mem_singleton] at h; subst h; exact hrule
    have hstop : (resolvePairs L ipv4 (before ++ [(proxy, rule)]) (startState fallback)).1 ≠
        .ok none := by
      by_cases hb : (resolvePairs L ipv4 before (startState fallback)).1 = .ok none
      · rw [resolvePairs_append_next L ipv4 _ _ _ hb, resolvePairs_nonDomain L ipv4 _ _ hbefore]
        have hu : specUnparsable L rule = none := by
          unfold specMatches at hm
          unfold specUnparsable
          cases hk : specKind L rule <;> rw [hk] at hm <;> simp only at hm ⊢
          · cases hc : L.Compile (domainPattern rule) <;> rw [hc] at hm <;> simp at hm ⊢
          · cases hc : L.ParseCIDR rule <;> rw [hc] at hm <;> simp at hm ⊢
        have hf := resolveRule_nonDomain_flow L ipv4 proxy rule (startState fallback) hrule
        unfold specFlow at hf
        rw [hu] at hf
        simp only [hm, if_true] at hf
        rw [resolvePairs_cons_stop L ipv4 proxy rule [] _ (by rw [hf]; simp), hf]
        simp
      · rw [resolvePairs_append_stop L ipv4 _ _ _ hb]
        exact hb
    have hlist : before ++ (proxy, rule) :: after = (before ++ [(proxy, rule)]) ++ after := by
      simp
    rw [hsplit, hlist, resolvePairs_append_stop L ipv4 _ _ _ hstop,
      resolvePairs_nonDomain L ipv4 _ _ hreach]
    rfl

/-- C16, witness: in `mixedConfig` the subnet pattern of the first proxied
group matches `192.168.7.7` before the domain pattern is reached. -/
theorem ResolveProxy_lookup_once_witness :
    lookupCount (ResolveProxyRun (goLib scenarioResolver) mixedConfig "192.168.7.7" 0
      []).2.trace = 0 ∧
    lookupCount (ResolveProxyRun (goLib scenarioResolver) manyDomainsConfig "93.1.1.1" 0
      []).2.trace = 1 :=
  ⟨(ResolveProxy_lookup_once (goLib scenarioResolver) mixedConfig "192.168.7.7" 0 []).2.2.2
      [] "proxyA:1080" "192.168.0.0/16"
      [("proxyA:1080", "*.example.com"), ("proxyB:1080", "93.1.1.1")]
      (by decide) (by decide) (by decide) (by decide),
    by decide⟩

theorem singleDot_empty : singleDot "" := by decide

theorem proxiedRules_dropDomainRules (L : Lib) (groups : List ProxyRule) :
    proxiedRules (groups.map (dropDomainRules L)) =
      (proxiedRules groups).filter (fun pr => !isDomain L pr.2) := by
  induction groups with
  | nil => rfl
  | cons g groups ih =>
    by_cases hp : g.Proxy = ""
    · simp [proxiedRules, dropDomainRules, hp, ih]
    · simp only [List.map_cons, proxiedRules, dropDomainRules, hp, if_false, ih,
        List.filter_append, List.filter_map]
      congr 1

theorem specResolve_filter (L : Lib) (ipv4 : String) (fb : List String)
    (pairs : List (String × String))
    (h : ∀ pr ∈ pairs, isDomain L pr.2 = true →
      specUnparsable L pr.2 = none ∧ specMatches L pr.2 ipv4 = false) :
    specResolve L ipv4 fb (pairs.filter (fun pr => !isDomain L pr.2)) =
      specResolve L ipv4 fb pairs := by
  induction pairs with
  | nil => rfl
  | cons pr pairs ih =>
    obtain ⟨proxy, rule⟩ := pr
    have ih := ih (fun q hq => h q (List.mem_cons_of_mem _ hq))
    by_cases hd : isDomain L rule = true
    · obtain ⟨h1, h2⟩ := h (proxy, rule) (List.mem_cons_self _ _) hd
      rw [List.filter_cons_of_neg (by simp [hd])]
      simp only [specResolve, h1, h2, Bool.false_eq_true, if_false]
      exact ih
    · rw [List.filter_cons_of_pos (by simp [hd])]
      simp only [specResolve, ih]

/-- C17: when the hostname-resolution collaborator returns the empty string
for the destination and every domain pattern of the proxied groups compiles,
`ResolveProxy` returns what it returns on the configuration with the domain
patterns removed from the proxied groups, the other patterns staying in their
order. -/
theorem ResolveProxy_empty_hostname (L : Lib) (config : proxyConfig) (ipv4 : String)
    (port : Nat) (fallback : List String) (hempty : L.findHostName ipv4 = "")
    (hcompile : ∀ pr ∈ proxiedRules config.proxyRules, isDomain L pr.2 = true →
      (L.Compile (domainPattern pr.2)).isSome = true) :
    ResolveProxy L config ipv4 port fallback =
      ResolveProxy L ⟨config.proxyRules.map (dropDomainRules L)⟩ ipv4 port fallback := by
  have hdot : singleDot (L.findHostName ipv4) := by rw [hempty]; exact singleDot_empty
  rw [ResolveProxy_spec L config ipv4 port fallback hdot,
    ResolveProxy_spec L _ ipv4 port fallback hdot, proxiedRules_dropDomainRules]
  symm
  apply specResolve_filter
  intro pr hpr hd
  have hk : specKind L pr.2 = .Domain := by rw [specKind_eq, if_pos hd]
  have hc := hcompile pr hpr hd
  cases hcc : L.Compile (domainPattern pr.2) with
  | none => rw [hcc] at hc; simp at hc
  | some re =>
    constructor
    · simp [specUnparsable, hk, hcc]
    · simp [specMatches, hk, hcc, hempty]

/-- C17, witness: `10.1.2.3` has no hostname; the domain pattern of
`directConfig` ahead of the subnet pattern `10.1.0.0/16` in the same group is
skipped and the subnet pattern decides. -/
theorem ResolveProxy_empty_hostname_witness :
    (goLib emptyResolver).findHostName "10.1.2.3" = "" ∧
    (⟨directConfig.proxyRules.map (dropDomainRules (goLib emptyResolver))⟩ : proxyConfig) =
      ⟨[⟨"", ["10.0.0.0/8", "*.lan"]⟩, ⟨"proxy1:1080", ["10.1.0.0/16"]⟩,
        ⟨"", ["192.168.1.1"]⟩]⟩ ∧
    ResolveProxy (goLib emptyResolver) directConfig "10.1.2.3" 0 ["direct"] =
      .ok ["proxy1:1080", "direct"] := by
  have h := ResolveProxy_empty_hostname (goLib emptyResolver) directConfig "10.1.2.3" 0
    ["direct"] rfl (by decide)
  refine ⟨rfl, by decide, ?_⟩
  rw [h]
  decide

/-- The memo is stripped again at every domain pattern that is compared: with
the memo holding a non-empty `v`, the pattern is compared with `v` less one
trailing `.`, and that string becomes the memo. -/
theorem resolveDomain_strips_memo (L : Lib) (ipv4 proxy rule v : String) (st : ResolveState)
    (re : String → Bool) (hc : L.Compile (domainPattern rule) = some re)
    (hv : st.hostname = some v) (hne : v ≠ "") :
    (resolveDomain L ipv4 proxy rule st).2.hostname = some (TrimSuffix v ".") ∧
    (resolveDomain L ipv4 proxy rule st).2.trace =
      st.trace ++ [.matchString rule (TrimSuffix v ".")] := by
  unfold resolveDomain
  rw [hc]
  simp only [hv, Option.getD_some, hne, if_false]
  split_ifs <;> exact ⟨rfl, rfl⟩

/-- C18, failing input: the destination `7.7.7.7` resolves to `m..`.  The
first domain pattern is compared with `m.`, the hostname with its trailing
`.` stripped once, but the second with `m`: the pattern `m.` is not matched
and the fallback is returned, while the direct predicate built from the same
pattern, which strips once, accepts the destination. -/
theorem ResolveProxy_hostname_stripped_again :
    TrimSuffix ((goLib dottedResolver).findHostName "7.7.7.7") "." = "m." ∧
    (ResolveProxyRun (goLib dottedResolver) ⟨[⟨"proxy1:1080", ["x", "m."]⟩]⟩ "7.7.7.7" 0
      []).2.trace =
      [.lookup "7.7.7.7", .matchString "x" "m.", .matchString "m." "m"] ∧
    ResolveProxy (goLib dottedResolver) ⟨[⟨"proxy1:1080", ["x", "m."]⟩]⟩ "7.7.7.7" 0 [] =
      .ok [] ∧
    ResolveProxy (goLib dottedResolver) ⟨[⟨"proxy1:1080", ["m."]⟩]⟩ "7.7.7.7" 0 [] =
      .ok ["proxy1:1080"] ∧
    (match ruleAsDirectorFunc (goLib dottedResolver) "m." with
      | .ok f => f [7, 7, 7, 7]
      | .error p => .error p) = .ok true := by
  refine ⟨by decide, by decide, by decide, by decide, ?_⟩
  rfl

theorem resolveRule_unparsable (L : Lib) (ipv4 proxy rule : String) (st : ResolveState)
    (p : Panic) (h : specUnparsable L rule = some p) :
    resolveRule L ipv4 proxy rule st = (.error p, st) := by
  unfold specUnparsable at h
  rw [specKind_eq] at h
  unfold resolveRule
  by_cases hd : isDomain L rule = true
  · simp only [hd, if_true] at h ⊢
    cases hc : L.Compile (domainPattern rule) with
    | none =>
      rw [hc] at h
      simp only [Option.isNone_none, if_true, Option.some.injEq] at h
      rw [resolveDomain_none L ipv4 proxy rule st hc, h]
    | some re => rw [hc] at h; simp at h
  · simp only [hd, Bool.false_eq_true, if_false] at h ⊢
    by_cases hc : isCIDR rule = true
    · simp only [hc, if_true] at h ⊢
      unfold resolveCIDR
      cases hp : L.ParseCIDR rule with
      | none =>
        rw [hp] at h
        simp only [Option.isNone_none, if_true, Option.some.injEq] at h
        rw [h]
      | some net => rw [hp] at h; simp at h
    · simp [hc] at h

theorem resolveRule_error (L : Lib) (ipv4 proxy rule : String) (st : ResolveState)
    (p : Panic) (h : (resolveRule L ipv4 proxy rule st).1 = .error p) :
    specUnparsable L rule = some p := by
  cases hu : specUnparsable L rule with
  | some q =>
    rw [resolveRule_unparsable L ipv4 proxy rule st q hu] at h
    simp only [Except.error.injEq] at h
    rw [h]
  | none =>
    exfalso
    unfold specUnparsable at hu
    rw [specKind_eq] at hu
    unfold resolveRule at h
    by_cases hd : isDomain L rule = true
    · simp only [hd, if_true] at h hu
      cases hc : L.Compile (domainPattern rule) with
      | none => rw [hc] at hu; simp at hu
      | some re =>
        obtain ⟨h1, tr, _, _, heq⟩ := resolveDomain_some L ipv4 proxy rule st re hc
        rw [heq] at h
        split_ifs at h
    · simp only [hd, Bool.false_eq_true, if_false] at h hu
      by_cases hc : isCIDR rule = true
      · simp only [hc, if_true] at h hu
        unfold resolveCIDR at h
        cases hp : L.ParseCIDR rule with
        | none => rw [hp] at hu; simp at hu
        | some net =>
          rw [hp] at h
          dsimp only at h
          split_ifs at h
      · simp only [hc, Bool.false_eq_true, if_false] at h
        unfold resolveExact at h
        split_ifs at h

theorem resolvePairs_error (L : Lib) (ipv4 : String) (pairs : List (String × String))
    (st : ResolveState) (p : Panic) (h : (resolvePairs L ipv4 pairs st).1 = .error p) :
    ∃ before proxy rule after, pairs = before ++ (proxy, rule) :: after ∧
      (resolvePairs L ipv4 before st).1 = .ok none ∧ specUnparsable L rule = some p := by
  induction pairs generalizing st with
  | nil => simp [resolvePairs] at h
  | cons pr pairs ih =>
    obtain ⟨proxy, rule⟩ := pr
    by_cases hr : (resolveRule L ipv4 proxy rule st).1 = .ok none
    · rw [resolvePairs_cons_next L ipv4 proxy rule _ st hr] at h
      obtain ⟨before, proxy2, rule2, after, h1, h2, h3⟩ := ih _ h
      refine ⟨(proxy, rule) :: before, proxy2, rule2, after, by rw [h1]; rfl, ?_, h3⟩
      rw [resolvePairs_cons_next L ipv4 proxy rule _ st hr]
      exact h2
    · rw [resolvePairs_cons_stop L ipv4 proxy rule _ st hr] at h
      exact ⟨[], proxy, rule, pairs, rfl, rfl, resolveRule_error L ipv4 proxy rule st p h⟩

theorem resolvePairs_split (L : Lib) (ipv4 : String) (before after : List (String × String))
    (proxy rule : String) (st : ResolveState)
    (hb : (resolvePairs L ipv4 before st).1 = .ok none)
    (hr : (resolveRule L ipv4 proxy rule (resolvePairs L ipv4 before st).2).1 ≠ .ok none) :
    resolvePairs L ipv4 (before ++ (proxy, rule) :: after) st =
      resolveRule L ipv4 proxy rule (resolvePairs L ipv4 before st).2 := by
  rw [resolvePairs_append_next L ipv4 _ _ st hb, resolvePairs_cons_stop L ipv4 proxy rule _ _ hr]

theorem ResolveProxy_eq_pairs (L : Lib) (config : proxyConfig) (ipv4 : String) (port : Nat)
    (fallback : List String) :
    ResolveProxy L config ipv4 port fallback =
      match (resolvePairs L ipv4 (proxiedRules config.proxyRules) (startState fallback)).1 with
      | .ok none => .ok fallback
      | .ok (some chain) => .ok chain
      | .error p => .error p := by
  have hfb := resolveGroups_fallback L ipv4 config.proxyRules (startState fallback)
  unfold ResolveProxy ResolveProxyRun
  rw [resolveGroups_eq_pairs] at hfb ⊢
  unfold startState at hfb ⊢
  generalize resolvePairs L ipv4 (proxiedRules config.proxyRules)
    { hostname := none, defaultProxyList := fallback, trace := [] } = r at hfb ⊢
  obtain ⟨flow, st1⟩ := r
  cases flow with
  | error p => rfl
  | ok o =>
    cases o with
    | none => simp only at hfb ⊢; rw [hfb]
    | some chain => rfl

theorem specResolve_unparsable_at (L : Lib) (ipv4 : String) (fb : List String)
    (before after : List (String × String)) (proxy rule : String) (p : Panic)
    (hmiss : ∀ pr ∈ before, specMatches L pr.2 ipv4 = false ∧ specUnparsable L pr.2 = none)
    (hu : specUnparsable L rule = some p) :
    specResolve L ipv4 fb (before ++ (proxy, rule) :: after) = .error p := by
  induction before with
  | nil => simp [specResolve, hu]
  | cons pr before ih =>
    obtain ⟨q, r⟩ := pr
    have h1 := hmiss (q, r) (List.mem_cons_self _ _)
    simp only [List.cons_append, specResolve, h1.2, h1.1, Bool.false_eq_true, if_false]
    exact ih (fun x hx => hmiss x (List.mem_cons_of_mem _ hx))

theorem specResolve_error_split (L : Lib) (ipv4 : String) (fb : List String)
    (pairs : List (String × String)) (p : Panic)
    (h : specResolve L ipv4 fb pairs = .error p) :
    ∃ before proxy rule after, pairs = before ++ (proxy, rule) :: after ∧
      (∀ pr ∈ before, specMatches L pr.2 ipv4 = false ∧ specUnparsable L pr.2 = none) ∧
      specUnparsable L rule = some p := by
  induction pairs with
  | nil => simp [specResolve] at h
  | cons pr pairs ih =>
    obtain ⟨proxy, rule⟩ := pr
    unfold specResolve at h
    cases hu : specUnparsable L rule with
    | some q =>
      rw [hu] at h
      simp only [Except.error.injEq] at h
      subst h
      exact ⟨[], proxy, rule, pairs, rfl, by simp, hu⟩
    | none =>
      rw [hu] at h
      by_cases hm : specMatches L rule ipv4 = true
      · simp [hm] at h
      · simp only [hm, Bool.false_eq_true, if_false] at h
        obtain ⟨before, proxy2, rule2, after, h1, h2, h3⟩ := ih h
        refine ⟨(proxy, rule) :: before, proxy2, rule2, after, by rw [h1]; rfl, ?_, h3⟩
        intro q hq
        rcases List.mem_cons.1 hq with rfl | hq
        · exact ⟨by simpa using hm, hu⟩
        · exact h2 q hq

/-- When `ResolveProxy` aborts, with matching taken as the loop computes it:
`ResolveProxy` returns a chain or aborts, and it aborts iff the scan
of the proxied patterns in file order reaches, before any pattern has matched,
a Domain pattern whose regular expression does not compile or a CIDR pattern
that does not parse: there is such a pattern, and the scan of the patterns
before it runs through without a match (and without an abort).  Patterns of
the groups with an empty proxy do not count, what follows the first matching
pattern does not count, and an unparsable Domain pattern aborts the call in
every state of the memo, without a hostname lookup.  When the hostname of the
destination is `singleDot`, the patterns the scan runs through are those that
parse and do not match in the sense of the specification. -/
theorem ResolveProxy_abort_iff (L : Lib) (config : proxyConfig) (ipv4 : String) (port : Nat)
    (fallback : List String) :
    (∀ p, ResolveProxy L config ipv4 port fallback = .error p ↔
      ∃ before proxy rule after,
        proxiedRules config.proxyRules = before ++ (proxy, rule) :: after ∧
        (resolvePairs L ipv4 before (startState fallback)).1 = .ok none ∧
        specUnparsable L rule = some p) ∧
    ResolveProxy L config ipv4 port fallback =
      ResolveProxy L ⟨config.proxyRules.filter (fun g => g.Proxy != "")⟩ ipv4 port fallback ∧
    (∀ before proxy rule after chain,
      proxiedRules config.proxyRules = before ++ (proxy, rule) :: after →
      (resolvePairs L ipv4 before (startState fallback)).1 = .ok none →
      (resolveRule L ipv4 proxy rule
        (resolvePairs L ipv4 before (startState fallback)).2).1 = .ok (some chain) →
      ResolveProxy L config ipv4 port fallback = .ok chain) ∧
    (∀ proxy rule st, isDomain L rule = true → L.Compile (domainPattern rule) = none →
      resolveRule L ipv4 proxy rule st = (.error (.pattern rule), st)) ∧
    (singleDot (L.findHostName ipv4) →
      ∀ p, ResolveProxy L config ipv4 port fallback = .error p ↔
        ∃ before proxy rule after,
          proxiedRules config.proxyRules = before ++ (proxy, rule) :: after ∧
          (∀ pr ∈ before, specMatches L pr.2 ipv4 = false ∧ specUnparsable L pr.2 = none) ∧
          specUnparsable L rule = some p) := by
  have hpairs := ResolveProxy_eq_pairs L config ipv4 port fallback
  refine ⟨fun p => ⟨fun h => ?_, ?_⟩, ?_, ?_, ?_, fun hdot p => ⟨fun h => ?_, ?_⟩⟩
  · rw [hpairs] at h
    apply resolvePairs_error L ipv4 _ (startState fallback) p
    generalize (resolvePairs L ipv4 (proxiedRules config.proxyRules) (startState fallback)).1 = r
      at h
    cases r with
    | error q => simp only [Except.error.injEq] at h; rw [h]
    | ok o => cases o <;> simp at h
  · rintro ⟨before, proxy, rule, after, h1, h2, h3⟩
    rw [hpairs, h1, resolvePairs_split L ipv4 before after proxy rule _ h2
      (by rw [resolveRule_unparsable L ipv4 proxy rule _ p h3]; simp),
      resolveRule_unparsable L ipv4 proxy rule _ p h3]
  · unfold ResolveProxy ResolveProxyRun
    rw [resolveGroups_filter]
  · intro before proxy rule after chain h1 h2 h3
    rw [hpairs, h1, resolvePairs_split L ipv4 before after proxy rule _ h2 (by rw [h3]; simp), h3]
  · intro proxy rule st hd hc
    unfold resolveRule
    rw [if_pos hd]
    exact resolveDomain_none L ipv4 proxy rule st hc
  · rw [ResolveProxy_spec L config ipv4 port fallback hdot] at h
    obtain ⟨before, proxy, rule, after, h1, h2, h3⟩ :=
      specResolve_error_split L ipv4 fallback _ p h
    exact ⟨before, proxy, rule, after, h1, h2, h3⟩
  · rintro ⟨before, proxy, rule, after, h1, h2, h3⟩
    rw [ResolveProxy_spec L config ipv4 port fallback hdot, h1]
    exact specResolve_unparsable_at L ipv4 fallback before after proxy rule p h2 h3

/-- Aborts on explicit rule files: an unparsable pattern ahead of the matching
one aborts the call; behind the matching one, or in a direct group, it does not; an
unparsable domain pattern aborts the call for a destination without
hostname. -/
theorem ResolveProxy_abort_iff_witness :
    ResolveProxy (goLib emptyResolver) brokenFirstConfig "10.0.0.5" 0 [] =
      .error (.cidr "10.0.0.0/99") ∧
    ResolveProxy (goLib emptyResolver) brokenAfterMatchConfig "10.0.0.5" 0 [] =
      .ok ["proxyA:1080"] ∧
    ResolveProxy (goLib emptyResolver) brokenDirectConfig "10.0.0.5" 0 [] = .ok [] ∧
    ResolveProxyRun (goLib emptyResolver) brokenDomainConfig "10.0.0.5" 0 [] =
      (.error (.pattern "a(b"), startState []) :=
  ⟨((ResolveProxy_abort_iff (goLib emptyResolver) brokenFirstConfig "10.0.0.5" 0 []).1
      (.cidr "10.0.0.0/99")).2
      ⟨[], "proxyA:1080", "10.0.0.0/99", [("proxyB:1080", "10.0.0.5")], by decide, by decide,
        by decide⟩,
    (ResolveProxy_abort_iff (goLib emptyResolver) brokenAfterMatchConfig "10.0.0.5" 0
      []).2.2.1 [] "proxyA:1080" "10.0.0.0/8" [("proxyA:1080", "10.0.0.0/99")] ["proxyA:1080"]
      (by decide) (by decide) (by decide),
    by decide, by decide⟩

/-- C20, failing input: the destination `7.7.7.7` resolves to `m..` and the
group `proxy1:1080` holds the patterns `x`, `m.`, `10.0.0.0/99`.  The patterns
`x` and `m.` parse, `x` does not match and `m.` matches the hostname with its
trailing `.` stripped once, so the first matching pattern stands before the
unparsable CIDR pattern and the scan up to it reaches no unparsable pattern;
yet the call compares `m.` with `m`, goes on and aborts on the CIDR pattern.
With `m.` as the first domain pattern the call returns the proxy, and the
direct predicate built from `m.` accepts the destination. -/
theorem ResolveProxy_abort_behind_match :
    specUnparsable (goLib dottedResolver) "x" = none ∧
    specMatches (goLib dottedResolver) "x" "7.7.7.7" = false ∧
    specUnparsable (goLib dottedResolver) "m." = none ∧
    specMatches (goLib dottedResolver) "m." "7.7.7.7" = true ∧
    specUnparsable (goLib dottedResolver) "10.0.0.0/99" = some (.cidr "10.0.0.0/99") ∧
    specResolve (goLib dottedResolver) "7.7.7.7" []
      (proxiedRules brokenBehindDomainConfig.proxyRules) = .ok ["proxy1:1080"] ∧
    (ResolveProxyRun (goLib dottedResolver) brokenBehindDomainConfig "7.7.7.7" 0 []).2.trace =
      [.lookup "7.7.7.7", .matchString "x" "m.", .matchString "m." "m"] ∧
    ResolveProxy (goLib dottedResolver) brokenBehindDomainConfig "7.7.7.7" 0 [] =
      .error (.cidr "10.0.0.0/99") ∧
    ResolveProxy (goLib dottedResolver) ⟨[⟨"proxy1:1080", ["m.", "10.0.0.0/99"]⟩]⟩ "7.7.7.7" 0
      [] = .ok ["proxy1:1080"] ∧
    (match ruleAsDirectorFunc (goLib dottedResolver) "m." with
      | .ok f => f [7, 7, 7, 7]
      | .error p => .error p) = .ok true := by
  refine ⟨by decide, by decide, by decide, by decide, by decide, by decide, by decide, by decide,
    by decide, ?_⟩
  rfl

/-- C19 (amended): the direct-group predicate built for an Exact-IP pattern (no
letter, no `/`) never fails to build and accepts a destination address iff the
address is equal, as `net.IP.Equal` has it, to the address `net.ParseIP` reads
from the pattern: canonical IP equality, not raw string equality. -/
theorem director_exact_canonical (L : Lib) (rule : String)
    (hletter : ∀ c ∈ rule.data, L.IsLetter c = false) (hslash : '/' ∉ rule.data) :
    ∃ f, ruleAsDirectorFunc L rule = .ok f ∧
      ∀ ptestip, f ptestip = .ok (L.IPEqual ptestip (L.ParseIP rule)) := by
  have h1 : isDomain L rule = false := by
    rw [Bool.eq_false_iff]
    intro h
    obtain ⟨c, hc, hl⟩ := (isDomain_iff L rule).1 h
    rw [hletter c hc] at hl
    exact absurd hl (by simp)
  have h2 : isCIDR rule = false := by
    rw [Bool.eq_false_iff]
    exact fun h => hslash ((isCIDR_iff rule).1 h)
  refine ⟨fun ptestip => .ok (L.IPEqual ptestip (L.ParseIP rule)), ?_, fun _ => rfl⟩
  simp [ruleAsDirectorFunc, h1, h2, directorExact]

/-- C19, witness: the predicate of the pattern `0:0:0:0:0:0:0:1` accepts the
address `::1` and rejects `::2`. -/
theorem director_exact_canonical_witness :
    (∀ c ∈ ("0:0:0:0:0:0:0:1" : String).data, (goLib6 emptyResolver).IsLetter c = false) ∧
    '/' ∉ ("0:0:0:0:0:0:0:1" : String).data ∧
    ∃ f, ruleAsDirectorFunc (goLib6 emptyResolver) "0:0:0:0:0:0:0:1" = .ok f ∧
      f loopback6 = .ok true ∧
      f [0, 0, 0, 0, 0, 0, 0, 0, 0, 0, 0, 0, 0, 0, 0, 2] = .ok false := by
  obtain ⟨f, h1, h2⟩ :=
    director_exact_canonical (goLib6 emptyResolver) "0:0:0:0:0:0:0:1" (by decide) (by decide)
  refine ⟨by decide, by decide, f, h1, ?_, ?_⟩
  · rw [h2]; decide
  · rw [h2]; decide

/-- C19, counterexample: the pattern `0:0:0:0:0:0:0:1` is not the textual
form `::1` of the loopback address, and `ResolveProxy` does not match it
against `::1`, yet the direct-group predicate built from it accepts the
address. -/
theorem director_exact_string_counterexample :
    goIPString6 loopback6 = "::1" ∧
    ("0:0:0:0:0:0:0:1" : String) ≠ goIPString6 loopback6 ∧
    (match ruleAsDirectorFunc (goLib6 emptyResolver) "0:0:0:0:0:0:0:1" with
      | .ok f => f loopback6
      | .error p => .error p) = .ok true ∧
    ResolveProxy (goLib6 emptyResolver) ⟨[⟨"proxy1:1080", ["0:0:0:0:0:0:0:1"]⟩]⟩
      (goIPString6 loopback6) 0 [] = .ok [] := by
  refine ⟨by decide, by decide, ?_, by decide⟩
  rfl

/-! ## DNS relay -/

/-- When an answer is stored, and with which lifetime: the record has type A
and class Internet in its header, the query name is not empty and the text of
the address is not empty; the lifetime is the TTL plus 300 in 32 bits. -/
theorem storeAnswer_eq (L : Lib) (qName : String) (h : RR_Header) (a : NetIP)
    (htype : h.Rrtype = TypeA) (hclass : h.Class = ClassINET) (hname : qName ≠ "")
    (hip : L.IPString a ≠ "") :
    storeAnswer L qName ⟨h, .A a⟩ =
      [.storeTtl (L.IPString a) qName (((h.Ttl + 300) % 2 ^ 32 : Nat) : Int)] ∧
    (h.Ttl + 300 < 2 ^ 32 →
      storeAnswer L qName ⟨h, .A a⟩ = [.storeTtl (L.IPString a) qName ((h.Ttl : Int) + 300)]) := by
  have h1 : storeAnswer L qName ⟨h, .A a⟩ =
      [.storeTtl (L.IPString a) qName (((h.Ttl + 300) % 2 ^ 32 : Nat) : Int)] := by
    simp [storeAnswer, htype, hclass, hname, hip]
  refine ⟨h1, fun hlt => ?_⟩
  rw [h1, Nat.mod_eq_of_lt hlt]
  simp

/-- C11, failing input: an address record of class Internet with TTL
4294967295, the largest value of the 32-bit field, relayed for the query name
`example.com.`; the lifetime written to the cache is 299, not
4294967295 + 300, because the sum is formed in 32 bits. -/
theorem storeTtl_wraps_around :
    newDnsHandler (goLib emptyResolver) (staticWorld maxTtlRecord) sampleProxy sampleWriter
        sampleQuery =
      [.doDnsExchange "8.8.8.8:53", .storeTtl "93.1.1.1" "example.com." 299,
        .WriteMsg { replyWith maxTtlRecord with Compress := true }] ∧
    (299 : Int) ≠ (maxTtlRecord.Hdr.Ttl : Int) + 300 := by
  decide

/-- C12, failing input: an address record of class Internet whose address is
absent (`A` is `nil`), relayed for the query name `example.com.`; its text is
`<nil>`, which is not empty, and an entry with the key `<nil>` is written. -/
theorem storeTtl_nil_address :
    (goLib emptyResolver).IPString [] = "<nil>" ∧
    newDnsHandler (goLib emptyResolver) (staticWorld nilAddressRecord) sampleProxy sampleWriter
        sampleQuery =
      [.doDnsExchange "8.8.8.8:53", .storeTtl "<nil>" "example.com." 360,
        .WriteMsg { replyWith nilAddressRecord with Compress := true }] := by
  decide

/-- When no entry is written for a record: another header type or class, an
empty query name, a dynamic type other than `*dns.A`, or an address whose text
is empty. -/
theorem storeAnswer_none (L : Lib) (qName : String) (am : RR) :
    storeAnswer L qName am = [] ↔
      (am.Hdr.Rrtype ≠ TypeA ∨ am.Hdr.Class ≠ ClassINET ∨ qName = "" ∨
        (match am.data with
          | .A a => L.IPString a = ""
          | .other => True)) := by
  unfold storeAnswer
  cases hdata : am.data with
  | A a =>
    simp only [hdata]
    by_cases h1 : am.Hdr.Rrtype = TypeA <;> by_cases h2 : am.Hdr.Class = ClassINET <;>
      by_cases h3 : qName = "" <;> by_cases h4 : L.IPString a = "" <;> simp [h1, h2, h3, h4]
  | other => simp [hdata]

theorem relayedTo_append (a b : List DnsEvent) :
    relayedTo (a ++ b) = relayedTo a ++ relayedTo b := by
  simp [relayedTo]

theorem relayedTo_stores (L : Lib) (qName : String) (answers : List RR) :
    relayedTo (answers.map (storeAnswer L qName)).flatten = [] ∧
    .HandleFailed ∉ (answers.map (storeAnswer L qName)).flatten ∧
    .getOriginalUdpDst ∉ (answers.map (storeAnswer L qName)).flatten := by
  induction answers with
  | nil => simp [relayedTo]
  | cons am answers ih =>
    obtain ⟨h1, h2, h3⟩ := ih
    have hs : storeAnswer L qName am = [] ∨
        ∃ k v t, storeAnswer L qName am = [.storeTtl k v t] := by
      unfold storeAnswer
      dsimp only
      split_ifs
      · exact Or.inr ⟨_, _, _, rfl⟩
      · exact Or.inl rfl
    simp only [List.map_cons, List.flatten_cons, relayedTo_append, h1, List.append_nil,
      List.mem_append, not_or]
    rcases hs with hs | ⟨k, v, t, hs⟩
    · rw [hs]; exact ⟨rfl, ⟨by simp, h2⟩, ⟨by simp, h3⟩⟩
    · rw [hs]; exact ⟨rfl, ⟨by simp, h2⟩, ⟨by simp, h3⟩⟩

/-- C15: upstream determination per query.  In redirect-aware mode the handler
calls `getOriginalUdpDst`; when the lookup succeeds the query is relayed, once,
to the recovered destination; when it fails and a static upstream is
configured the query is relayed to the static upstream; when it fails and none
is configured the handler answers with `HandleFailed` and relays nothing.
Outside redirect-aware mode the query is relayed to the static upstream and
`getOriginalUdpDst` is not called.  Whenever the relay that is attempted
fails, the handler answers with `HandleFailed`, writes nothing to the hostname
cache and sends no other reply. -/
theorem upstream_determination (L : Lib) (world : DnsWorld) (proxy : dnsProxy)
    (w : ResponseWriter) (m : Msg) :
    (world.iptablesIntegration = true →
      (∀ dst, getOriginalUdpDst world.conntrack w.RemoteAddr w.LocalPort = .ok dst →
        relayedTo (newDnsHandler L world proxy w m) = [dst]) ∧
      (∀ err, getOriginalUdpDst world.conntrack w.RemoteAddr w.LocalPort = .error err →
        (proxy.remoteAddr ≠ "" →
          relayedTo (newDnsHandler L world proxy w m) = [proxy.remoteAddr]) ∧
        (proxy.remoteAddr = "" →
          newDnsHandler L world proxy w m = [.getOriginalUdpDst, .HandleFailed]))) ∧
    (world.iptablesIntegration = false →
      relayedTo (newDnsHandler L world proxy w m) = [proxy.remoteAddr] ∧
      .getOriginalUdpDst ∉ newDnsHandler L world proxy w m) ∧
    (∀ remoteAddr, relayedTo (newDnsHandler L world proxy w m) = [remoteAddr] →
      world.doDnsExchange m remoteAddr = none →
      (newDnsHandler L world proxy w m).getLast? = some .HandleFailed ∧
      (∀ e ∈ newDnsHandler L world proxy w m, e.isStore = false) ∧
      ∀ r, .WriteMsg r ∉ newDnsHandler L world proxy w m) := by
  have hrun : ∀ events remoteAddr, chooseUpstream world proxy w = (events, some remoteAddr) →
      relayedTo events = [] → (∀ e ∈ events, e = .getOriginalUdpDst) →
      relayedTo (newDnsHandler L world proxy w m) = [remoteAddr] ∧
      (world.doDnsExchange m remoteAddr = none →
        newDnsHandler L world proxy w m = events ++ [.doDnsExchange remoteAddr, .HandleFailed]) := by
    intro events remoteAddr hch hrel _
    unfold newDnsHandler
    simp only [hch]
    cases hx : world.doDnsExchange m remoteAddr with
    | none =>
      refine ⟨?_, fun _ => rfl⟩
      simp only [relayedTo_append, hrel]
      rfl
    | some r =>
      refine ⟨?_, fun h => by simp at h⟩
      simp only [relayedTo_append, hrel, (relayedTo_stores L _ r.Answer).1]
      rfl
  have hfailed : ∀ events remoteAddr,
      newDnsHandler L world proxy w m = events ++ [.doDnsExchange remoteAddr, .HandleFailed] →
      (∀ e ∈ events, e = .getOriginalUdpDst) →
      (newDnsHandler L world proxy w m).getLast? = some .HandleFailed ∧
      (∀ e ∈ newDnsHandler L world proxy w m, e.isStore = false) ∧
      ∀ r, .WriteMsg r ∉ newDnsHandler L world proxy w m := by
    intro events remoteAddr heq hev
    rw [heq]
    refine ⟨by simp [List.getLast?_append], ?_, ?_⟩
    · intro e he
      rcases List.mem_append.1 he with he | he
      · rw [hev e he]; rfl
      · simp only [List.mem_cons, List.mem_singleton, List.not_mem_nil, or_false] at he
        rcases he with rfl | rfl <;> rfl
    · intro r hr
      rcases List.mem_append.1 hr with hr | hr
      · have := hev _ hr; cases this
      · simp at hr
  by_cases hipt : world.iptablesIntegration = true
  · cases hlk : getOriginalUdpDst world.conntrack w.RemoteAddr w.LocalPort with
    | ok dst =>
      have hch : chooseUpstream world proxy w = ([.getOriginalUdpDst], some dst) := by
        simp [chooseUpstream, hipt, hlk]
      obtain ⟨h1, h2⟩ := hrun _ _ hch (by simp [relayedTo]) (by simp)
      refine ⟨fun _ => ⟨fun d hd => ?_, fun err herr => by simp at herr⟩,
        fun hf => by rw [hipt] at hf; simp at hf, fun remoteAddr hrel hx => ?_⟩
      · simp only [Except.ok.injEq] at hd
        rw [← hd]; exact h1
      · rw [h1] at hrel
        simp only [List.cons.injEq, and_true] at hrel
        subst hrel
        exact hfailed _ _ (h2 hx) (by simp)
    | error err =>
      by_cases hstatic : proxy.remoteAddr = ""
      · have hrunEq : newDnsHandler L world proxy w m = [.getOriginalUdpDst, .HandleFailed] := by
          simp [newDnsHandler, chooseUpstream, hipt, hlk, hstatic]
        refine ⟨fun _ => ⟨fun d hd => by simp at hd,
          fun e _ => ⟨fun hne => absurd hstatic hne, fun _ => hrunEq⟩⟩,
          fun hf => by rw [hipt] at hf; simp at hf, fun remoteAddr hrel _ => ?_⟩
        rw [hrunEq] at hrel
        simp [relayedTo] at hrel
      · have hch : chooseUpstream world proxy w =
            ([.getOriginalUdpDst], some proxy.remoteAddr) := by
          simp [chooseUpstream, hipt, hlk, hstatic]
        obtain ⟨h1, h2⟩ := hrun _ _ hch (by simp [relayedTo]) (by simp)
        refine ⟨fun _ => ⟨fun d hd => by simp at hd,
          fun e _ => ⟨fun _ => h1, fun he => absurd he hstatic⟩⟩,
          fun hf => by rw [hipt] at hf; simp at hf, fun remoteAddr hrel hx => ?_⟩
        rw [h1] at hrel
        simp only [List.cons.injEq, and_true] at hrel
        subst hrel
        exact hfailed _ _ (h2 hx) (by simp)
  · have hipf : world.iptablesIntegration = false := by simpa using hipt
    have hch : chooseUpstream world proxy w = ([], some proxy.remoteAddr) := by
      simp [chooseUpstream, hipf]
    obtain ⟨h1, h2⟩ := hrun _ _ hch (by simp [relayedTo]) (by simp)
    refine ⟨fun ht => absurd ht hipt, fun _ => ⟨h1, ?_⟩, fun remoteAddr hrel hx => ?_⟩
    · unfold newDnsHandler
      simp only [hch]
      cases hx : world.doDnsExchange m proxy.remoteAddr with
      | none => simp
      | some r =>
        simp only [List.nil_append, List.cons_append, List.mem_cons, List.mem_append,
          List.mem_singleton, not_or]
        exact ⟨by simp, (relayedTo_stores L _ r.Answer).2.2, by simp⟩
    · rw [h1] at hrel
      simp only [List.cons.injEq, and_true] at hrel
      subst hrel
      exact hfailed _ _ (h2 hx) (by simp)

/-- C15, witness: in redirect-aware mode, with the table holding the row of the
client, the query is relayed to the recovered destination `8.8.8.8:53`; the
upstream does not answer and the client gets the failure reply. -/
theorem upstream_determination_witness :
    getOriginalUdpDst redirectWorld.conntrack sampleWriter.RemoteAddr sampleWriter.LocalPort =
      .ok "8.8.8.8:53" ∧
    newDnsHandler (goLib emptyResolver) redirectWorld ⟨":53", ""⟩ sampleWriter sampleQuery =
      [.getOriginalUdpDst, .doDnsExchange "8.8.8.8:53", .HandleFailed] ∧
    relayedTo (newDnsHandler (goLib emptyResolver) redirectWorld ⟨":53", ""⟩ sampleWriter
      sampleQuery) = ["8.8.8.8:53"] :=
  ⟨by decide, by decide,
    ((upstream_determination (goLib emptyResolver) redirectWorld ⟨":53", ""⟩ sampleWriter
      sampleQuery).1 rfl).1 "8.8.8.8:53" (by decide)⟩

/-! ## Loading the rule file -/

theorem hasPrefix_append_left (x y p : List Char) (h : p.length ≤ x.length) :
    hasPrefix (x ++ y) p = hasPrefix x p := by
  induction p generalizing x with
  | nil => rw [hasPrefix_nil, hasPrefix_nil]
  | cons d p ih =>
    cases x with
    | nil => simp at h
    | cons c x =>
      have hx := ih x (by simpa using h)
      show (c == d && hasPrefix (x ++ y) p) = (c == d && hasPrefix x p)
      rw [hx]

theorem hasPrefix_self_append (p y : List Char) : hasPrefix (p ++ y) p = true := by
  induction p with
  | nil => exact hasPrefix_nil _
  | cons d p ih => simp [hasPrefix, ih]

theorem cutAtSep_none (data : List Char) (h : containsAt data docSep = false) :
    cutAtSep docSep data = none := by
  induction data with
  | nil => rfl
  | cons c s ih =>
    simp only [containsAt, Bool.or_eq_false_iff] at h
    simp [cutAtSep, h.1, ih h.2]

theorem cutAtSep_first (pre post : List Char)
    (h : containsAt (pre ++ ['-', '-', '-']) docSep = false) :
    cutAtSep docSep (pre ++ docSep ++ post) = some (pre, post) := by
  induction pre with
  | nil =>
    have hp := hasPrefix_self_append docSep post
    simp only [List.nil_append]
    have hd : docSep ++ post = '-' :: ('-' :: '-' :: '\n' :: post) := rfl
    rw [hd] at hp ⊢
    simp only [cutAtSep, hp, if_true]
    rfl
  | cons c pre ih =>
    have h1 : hasPrefix (c :: (pre ++ ['-', '-', '-'])) docSep = false ∧
        containsAt (pre ++ ['-', '-', '-']) docSep = false := by
      have h0 : (hasPrefix (c :: (pre ++ ['-', '-', '-'])) docSep ||
          containsAt (pre ++ ['-', '-', '-']) docSep) = false := h
      simpa using h0
    have h := h1
    have hx : hasPrefix (c :: (pre ++ docSep ++ post)) docSep = false := by
      have e : c :: (pre ++ docSep ++ post) = (c :: (pre ++ ['-', '-', '-'])) ++ ('\n' :: post) := by
        simp [docSep]
      rw [e, hasPrefix_append_left _ _ _ (by simp [docSep])]
      exact h.1
    have hstep : cutAtSep docSep (c :: (pre ++ docSep ++ post)) =
        (cutAtSep docSep (pre ++ docSep ++ post)).map (fun p => (c :: p.1, p.2)) := by
      show (if hasPrefix (c :: (pre ++ docSep ++ post)) docSep = true then _ else _) = _
      rw [hx]
      rfl
    show cutAtSep docSep (c :: (pre ++ docSep ++ post)) = some (c :: pre, post)
    rw [hstep, ih h.2]
    rfl

theorem readMore_measure (buf : List Char) (chunks : List String) (last : Option String)
    (b : List Char) (c : List String) (l : Option String)
    (h : readMore buf chunks last = some (b, c, l)) :
    scanMeasure b c l + 1 = scanMeasure buf chunks last := by
  unfold readMore at h
  cases last with
  | none => simp at h
  | some x =>
    cases chunks with
    | nil =>
      simp only [Option.some.injEq, Prod.mk.injEq] at h
      obtain ⟨rfl, rfl, rfl⟩ := h
      simp [scanMeasure]
      omega
    | cons chunk rest =>
      simp only [Option.some.injEq, Prod.mk.injEq] at h
      obtain ⟨rfl, rfl, rfl⟩ := h
      simp [scanMeasure]
      omega

theorem splitDocuments_advance (data : List Char) (atEOF : Bool) (h : data ≠ []) :
    1 ≤ (splitDocuments data atEOF).1 := by
  have hl : data.length ≠ 0 := fun h0 => h (List.length_eq_zero.1 h0)
  unfold splitDocuments
  simp only [hl, and_false, if_false]
  cases cutAtSep docSep data with
  | none =>
    simp only
    omega
  | some p =>
    simp only
    split_ifs <;> simp [docSep]

theorem splitDocuments_nil : splitDocuments [] true = (0, none) := rfl

theorem scanLoop_fuel (fuel : Nat) :
    ∀ (buf : List Char) (chunks : List String) (last : Option String),
      scanMeasure buf chunks last < fuel →
      scanLoop fuel buf chunks last =
        scanLoop (scanMeasure buf chunks last + 1) buf chunks last := by
  induction fuel using Nat.strong_induction_on with
  | _ fuel ih =>
    intro buf chunks last hlt
    cases fuel with
    | zero => omega
    | succ f =>
      have key : ∀ (b : List Char) (c : List String) (l : Option String),
          scanMeasure b c l < scanMeasure buf chunks last →
          scanLoop f b c l = scanLoop (scanMeasure buf chunks last) b c l := by
        intro b c l hb
        rw [ih f (Nat.lt_succ_self _) b c l (by omega),
          ih (scanMeasure buf chunks last) hlt b c l hb]
      have hread : ∀ (b0 : List Char), b0.length ≤ buf.length →
          (match readMore b0 chunks last with
            | none => []
            | some (b, c, l) => scanLoop f b c l) =
          (match readMore b0 chunks last with
            | none => []
            | some (b, c, l) => scanLoop (scanMeasure buf chunks last) b c l) := by
        intro b0 hb0
        cases hr : readMore b0 chunks last with
        | none => rfl
        | some t =>
          obtain ⟨b, c, l⟩ := t
          have hm := readMore_measure b0 chunks last b c l hr
          have : scanMeasure b0 chunks last ≤ scanMeasure buf chunks last := by
            unfold scanMeasure
            omega
          exact key b c l (by omega)
      simp only [scanLoop]
      by_cases hc : buf ≠ [] ∨ last = none
      · simp only [hc, if_true]
        rcases hsp : splitDocuments buf last.isNone with ⟨advance, token⟩
        cases token with
        | none =>
          simp only
          exact hread _ (by rw [List.length_drop]; omega)
        | some token =>
          simp only
          have hne : buf ≠ [] := by
            intro hnil
            rcases hc with hc | hc
            · exact hc hnil
            · rw [hnil, hc] at hsp
              simp [splitDocuments] at hsp
          have hadv := splitDocuments_advance buf last.isNone hne
          rw [hsp] at hadv
          have hpos : 0 < buf.length := List.length_pos.2 hne
          rw [key (buf.drop advance) chunks last (by
            unfold scanMeasure
            rw [List.length_drop]
            simp only at hadv
            omega)]
      · simp only [hc, if_false]
        exact hread buf (le_refl _)

theorem splitDocuments_first (pre post : List Char) (atEOF : Bool)
    (h : containsAt (pre ++ ['-', '-', '-']) docSep = false) :
    splitDocuments (pre ++ docSep ++ post) atEOF =
      (pre.length + docSep.length, if pre.all isSpace = true then none else some pre) := by
  have hcut := cutAtSep_first pre post h
  have hl : (pre ++ docSep ++ post).length ≠ 0 := by simp [docSep]
  unfold splitDocuments
  simp only [hl, and_false, if_false, hcut]
  split_ifs <;> rfl

theorem splitDocuments_whole (data : List Char) (atEOF : Bool)
    (h : containsAt data docSep = false) (hne : data ≠ []) :
    splitDocuments data atEOF = (data.length, some data) := by
  have hcut := cutAtSep_none data h
  have hl : data.length ≠ 0 := fun h0 => hne (List.length_eq_zero.1 h0)
  unfold splitDocuments
  simp only [hl, and_false, if_false, hcut]

theorem scanTexts_readWhole (text : List Char) :
    scanTexts (readWhole ⟨text⟩) =
      scanLoop (scanMeasure text [] (some "") + 1) text [] (some "") := by
  by_cases ht : text = []
  · subst ht
    rfl
  · have hne : (⟨text⟩ : String) ≠ "" := by
      intro he
      exact ht (congrArg String.data he)
    have hf : [(⟨text⟩ : String)].filter (fun chunk => chunk ≠ "") = [⟨text⟩] := by
      simp [hne]
    have hm : scanMeasure [] [(⟨text⟩ : String)] (some "") =
        scanMeasure text [] (some "") + 1 := by
      simp [scanMeasure]
    show scanLoop (scanMeasure [] ([(⟨text⟩ : String)].filter (fun chunk => chunk ≠ ""))
      (some "") + 1) [] ([(⟨text⟩ : String)].filter (fun chunk => chunk ≠ "")) (some "") = _
    rw [hf, hm]
    simp [scanLoop, readMore]

/-- C13 (failing input): a whitespace-only segment after the last separator
becomes a rule group.  For the input `proxy: a`, newline, `---`, newline, newline
the scanner yields the text `proxy: a` and then the blank text of the final
newline, and the loader returns two rule groups, the second the zero group,
where the input has one non-blank segment.  The same blank segment followed by
one more separator is dropped, and after three consecutive separators the
non-blank segment that follows is lost. -/
theorem unmarshalProxyRules_trailing_blank :
    scanTexts (readWhole "proxy: a\n---\n\n") = ["proxy: a\n", "\n"] ∧
    specDocuments "proxy: a\n---\n\n" = ["proxy: a\n"] ∧
    unmarshalProxyRules sampleYaml (readWhole "proxy: a\n---\n\n") =
      .ok [⟨"a", []⟩, ⟨"", []⟩] ∧
    unmarshalProxyRules sampleYaml (readAtOnce "proxy: a\n---\n\n") =
      .ok [⟨"a", []⟩, ⟨"", []⟩] ∧
    unmarshalProxyRules sampleYaml (readWhole "proxy: a\n---\n\n---\n") = .ok [⟨"a", []⟩] ∧
    specDocuments "proxy: a\n---\n---\n---\nproxy: b\n" = ["proxy: a\n", "proxy: b\n"] ∧
    unmarshalProxyRules sampleYaml (readWhole "proxy: a\n---\n---\n---\nproxy: b\n") =
      .ok [⟨"a", []⟩] := by
  decide

/-- C14 (counterexample): the line `proxy: a---` is cut before its last four
bytes, and the line `----` after its first byte: the scanner yields the texts
`proxy: a` and `-`, where segmentation at whole separator lines keeps each line
as one document; the loader returns the proxy `a`, where the whole line decodes
to the proxy `a---`. -/
theorem unmarshalProxyRules_splits_inside_line :
    scanTexts (readWhole "proxy: a---\n") = ["proxy: a"] ∧
    specDocuments "proxy: a---\n" = ["proxy: a---\n"] ∧
    scanTexts (readWhole "----\n") = ["-"] ∧
    specDocuments "----\n" = ["----\n"] ∧
    unmarshalProxyRules sampleYaml (readWhole "proxy: a---\n") = .ok [⟨"a", []⟩] ∧
    sampleYaml "proxy: a---\n" = .ok ⟨"a---", []⟩ := by
  decide

/-- C14 (amended): config loading segments its input at the first occurrence of
the four bytes `---` and newline in the unread data, wherever in a line it
falls.  When `pre` holds no earlier occurrence, the split function on `pre`,
the separator and `post` advances past the separator and yields `pre` as the
token, or no token when `pre` is blank; unread data without an occurrence is
one token as a whole; and for a text delivered in one read with `pre` not
blank, the scanner yields `pre` and then what it yields for `post`. -/
theorem unmarshalProxyRules_splits_at_occurrence (pre post : List Char)
    (hfirst : containsAt (pre ++ ['-', '-', '-']) docSep = false) :
    (∀ atEOF : Bool, splitDocuments (pre ++ docSep ++ post) atEOF =
        (pre.length + docSep.length, if pre.all isSpace = true then none else some pre)) ∧
    (∀ atEOF : Bool, containsAt post docSep = false → post ≠ [] →
        splitDocuments post atEOF = (post.length, some post)) ∧
    (pre.all isSpace = false →
      scanTexts (readWhole ⟨pre ++ docSep ++ post⟩) =
        ⟨pre⟩ :: scanTexts (readWhole ⟨post⟩)) := by
  refine ⟨fun atEOF => splitDocuments_first pre post atEOF hfirst,
    fun atEOF h hne => splitDocuments_whole post atEOF h hne, fun hblank => ?_⟩
  rw [scanTexts_readWhole, scanTexts_readWhole]
  have hsp := splitDocuments_first pre post false hfirst
  have hne : pre ++ docSep ++ post ≠ [] := by simp [docSep]
  have hdrop : (pre ++ docSep ++ post).drop (pre.length + docSep.length) = post := by
    rw [List.append_assoc, List.drop_append, List.drop_left]
  have hlt : scanMeasure post [] (some "") < scanMeasure (pre ++ docSep ++ post) [] (some "") := by
    simp [scanMeasure, docSep]
    omega
  rw [← scanLoop_fuel _ post [] (some "") hlt]
  simp only [scanLoop, hne, ne_eq, not_false_eq_true, true_or, if_true, Option.isNone_some, hsp,
    hblank, Bool.false_eq_true, if_false, hdrop]

/-- C14 (witness): the line `proxy: a---` of the claim followed by the line
`proxy: b`, `pre` being `proxy: a` and `post` the second line. -/
theorem unmarshalProxyRules_splits_at_occurrence_witness :
    containsAt ("proxy: a".data ++ ['-', '-', '-']) docSep = false ∧
    (∀ atEOF : Bool, splitDocuments ("proxy: a".data ++ docSep ++ "proxy: b\n".data) atEOF =
        ("proxy: a".data.length + docSep.length,
          if "proxy: a".data.all isSpace = true then none else some "proxy: a".data)) ∧
    (∀ atEOF : Bool, containsAt "proxy: b\n".data docSep = false → "proxy: b\n".data ≠ [] →
        splitDocuments "proxy: b\n".data atEOF =
          ("proxy: b\n".data.length, some "proxy: b\n".data)) ∧
    ("proxy: a".data.all isSpace = false →
      scanTexts (readWhole ⟨"proxy: a".data ++ docSep ++ "proxy: b\n".data⟩) =
        ⟨"proxy: a".data⟩ :: scanTexts (readWhole ⟨"proxy: b\n".data⟩)) :=
  ⟨by decide,
    unmarshalProxyRules_splits_at_occurrence "proxy: a".data "proxy: b\n".data (by decide)⟩

end AnyProxy
